import Mathlib

/-!
# Sparse 3D reconstruction (`src/viso/reconstruction.cpp`)

A shallow embedding of `Reconstruction::update` and of the functions it calls.

Conventions of the embedding.

* Scalars (`FLOAT`, `double`) are elements of an arbitrary linearly ordered
  field `F`; the development is about the exact arithmetic of the formulas, not
  about rounding.
* The dense linear algebra and the `libm` functions the file calls
  (`Matrix::inv`, `Matrix::svd`, `Matrix::solve`, `sqrt`, `acos`, `M_PI`) are
  not part of `reconstruction.cpp`; they are the fields of a parameter
  `Lib F`.
* `frames` is a `std::deque`: `pop_front` and `push_back` keep references to
  the other elements valid.  A pointer to a frame is the absolute position of
  the frame, i.e. its index counted from the first frame ever pushed; the
  state records in `popped` how many frames `pop_front` has removed, so that
  the frame at list index `i` has address `popped + i`.
* `tracks` is taken to be a container whose `push_back` and `erase` keep
  references to the other elements valid (the code stores `track*` in
  `track_map` across `push_back`); a pointer to a track is its position in the
  list of tracks, which the association loop only extends at the end.
* Undefined behaviour of the C++ code (dereferencing a pointer to an evicted
  frame, an index outside a container) is the value `none`.
* The declarations of `reconstruction.h` are not among the sources.  The
  counters `frames_ago` and `track_count` of a new frame and the members
  `last_idx`, `last_frame`, `refreshed` of a new track are taken to start at
  0, 0, 0, null and false; `max_track_length` is a parameter.  Integers are
  unbounded: the code only compares ids and adds 1 to the largest.
-/

set_option linter.unusedSectionVars false
set_option linter.unnecessarySeqFocus false

namespace Viso

/-! ## Data model -/

/-- Pixel position `point2d`. -/
structure point2d (F : Type) where
  u : F
  v : F

/-- Landmark position `Point3d`. -/
structure Point3d (F : Type) where
  x : F
  y : F
  z : F

/-- The fields of `Matcher::p_match` that `update` reads: predecessor pixel and
feature id, successor pixel and feature id. -/
structure p_match (F : Type) where
  u1p : F
  v1p : F
  i1p : Int
  u1c : F
  v1c : F
  i1c : Int

abbrev Mat4 (F : Type) := Matrix (Fin 4) (Fin 4) F

abbrev Mat34 (F : Type) := Matrix (Fin 3) (Fin 4) F

abbrev Mat3 (F : Type) := Matrix (Fin 3) (Fin 3) F

/-- Window entry `frame_state_t`: forward transform, its inverse, the derived
projection matrix, the age in frames and the number of live tracks rooted at
the frame. -/
structure frame_state_t (F : Type) where
  fwd : Mat4 F
  inv : Mat4 F
  proj : Mat34 F
  frames_ago : Nat
  track_count : Int

/-- Feature track `track`.  The field `first_frame` is the address of the frame
the track was created in, `last_frame` is null (`none`) until the track is
finalized. -/
structure track (F : Type) where
  pixels : List (point2d F)
  last_idx : Int
  first_frame : Nat
  last_frame : Option Nat
  refreshed : Bool

/-- The members of the class `Reconstruction`, with the deque offset `popped`. -/
structure Reconstruction (F : Type) where
  K : Mat3 F
  Tr_cam_road : Mat4 F
  points : List (Point3d F)
  frames : List (frame_state_t F)
  popped : Nat
  tracks : List (track F)

/-- The numerical routines `reconstruction.cpp` calls and does not define. -/
structure Lib (F : Type) where
  /-- `Matrix::inv` on 4x4 matrices. -/
  inv : Mat4 F → Mat4 F
  /-- The factor `V` computed by `Matrix::svd` on a 4x4 matrix. -/
  svdV : Mat4 F → Mat4 F
  /-- `B.solve(A)`: the solution of `A x = B`, or failure. -/
  solve : Mat3 F → (Fin 3 → F) → Option (Fin 3 → F)
  sqrt : F → F
  acos : F → F
  pi : F

/-- Outcome of one Gauss-Newton step, `Reconstruction::result`. -/
inductive result where
  | UPDATED
  | FAILED
  | CONVERGED
  deriving DecidableEq, Repr

variable {F : Type} [LinearOrderedField F]

/-- Modelled from the spec: `affineTransform` is declared outside
`reconstruction.cpp`; it applies the rotation block and the translation column
of a 4x4 rigid transform to a point. -/
def affineTransform (M : Mat4 F) (p : Point3d F) : Point3d F :=
  { x := M 0 0 * p.x + M 0 1 * p.y + M 0 2 * p.z + M 0 3
    y := M 1 0 * p.x + M 1 1 * p.y + M 1 2 * p.z + M 1 3
    z := M 2 0 * p.x + M 2 1 * p.y + M 2 2 * p.z + M 2 3 }

/-- The block `M.getMat(0,0,2,3)` of a 4x4 matrix: its first three rows. -/
def getMat34 (M : Mat4 F) : Mat34 F :=
  Matrix.of fun i j => M (Fin.castSucc i) j

/-- The state after the constructor (`K` and `Tr_cam_road` as left by
`setCalibration`): no points, no frames, no tracks. -/
def emptyState (K : Mat3 F) (Tr_cam_road : Mat4 F) : Reconstruction F :=
  { K := K, Tr_cam_road := Tr_cam_road, points := [], frames := [], popped := 0, tracks := [] }

/-- Dereference a frame pointer: `none` when the frame has been evicted or was
never pushed. -/
def deref (frames : List (frame_state_t F)) (popped : Nat) (a : Nat) : Option (frame_state_t F) :=
  if popped ≤ a then frames[a - popped]? else none

/-- Address of `frames.back()`. -/
def backAddr (frames : List (frame_state_t F)) (popped : Nat) : Nat :=
  popped + frames.length - 1

/-! ## Window maintenance (lines 56-69) -/

/-- The loop `while (!frames.empty() && frames.front().track_count == 0) frames.pop_front();`
returning the remaining frames and the new deque offset. -/
def evict : List (frame_state_t F) → Nat → List (frame_state_t F) × Nat
  | [], popped => ([], popped)
  | f :: fs, popped =>
    if f.track_count = 0 then evict fs (popped + 1) else (f :: fs, popped)

/-- Body of the loop `for (auto &f : frames)` of lines 60-66. -/
def ageFrame (lib : Lib F) (K : Mat3 F) (rev_Tr : Mat4 F) (f : frame_state_t F) : frame_state_t F :=
  let fwd := rev_Tr * f.fwd
  let inv := lib.inv fwd
  { fwd := fwd, inv := inv, proj := K * getMat34 inv,
    frames_ago := f.frames_ago + 1, track_count := f.track_count }

/-- The frame pushed at line 69: identity pose, age zero, no track. -/
def newFrame (K : Mat3 F) : frame_state_t F :=
  { fwd := 1, inv := 1, proj := K * getMat34 1, frames_ago := 0, track_count := 0 }

/-! ## Track association (lines 71-104) -/

/-- Lines 72-74: the largest id among the predecessor ids and the last ids, at least 0. -/
def track_idx_max (p_matched : List (p_match F)) (tracks : List (track F)) : Int :=
  let a := p_matched.foldl (fun acc m => if m.i1p > acc then m.i1p else acc) 0
  tracks.foldl (fun acc t => if t.last_idx > acc then t.last_idx else acc) a

/-- Lines 76-79: `track_map[t.last_idx] = &t` for the tracks from position `j` on.
A pointer to a track is its position in the list of tracks. -/
def fill_track_map : List (track F) → Nat → List (Option Nat) → Option (List (Option Nat))
  | [], _, track_map => some track_map
  | t :: ts, j, track_map =>
    if 0 ≤ t.last_idx ∧ t.last_idx.toNat < track_map.length then
      fill_track_map ts (j + 1) (track_map.set t.last_idx.toNat (some j))
    else none

/-- Lines 72-79. -/
def build_track_map (p_matched : List (p_match F)) (tracks : List (track F)) :
    Option (List (Option Nat)) :=
  fill_track_map tracks 0 (List.replicate (track_idx_max p_matched tracks + 1).toNat none)

/-- The statement `tr->first_frame->track_count += d` for the frame at address `a`. -/
def addCount (frames : List (frame_state_t F)) (popped : Nat) (a : Nat) (d : Int) :
    Option (List (frame_state_t F)) :=
  if popped ≤ a ∧ a - popped < frames.length then
    some (frames.modify (fun f => { f with track_count := f.track_count + d }) (a - popped))
  else none

/-- Lines 97-103 for the track at position `j`. -/
def extendTrack (max_track_length : Nat) (m : p_match F) (t : track F) : track F :=
  if t.pixels.length < max_track_length then
    { t with pixels := t.pixels ++ [⟨m.u1c, m.v1c⟩], last_idx := m.i1c, refreshed := true }
  else t

/-- Lines 90-94: the track pushed for a match without a usable owner. -/
def freshTrack (frames : List (frame_state_t F)) (popped : Nat) (m : p_match F) : track F :=
  { pixels := [⟨m.u1p, m.v1p⟩], last_idx := 0, first_frame := backAddr frames popped,
    last_frame := none, refreshed := false }

/-- Body of the loop over the matches, lines 82-104. -/
def associateStep (max_track_length : Nat) (track_map : List (Option Nat)) (popped : Nat)
    (tracks : List (track F)) (frames : List (frame_state_t F)) (m : p_match F) :
    Option (List (track F) × List (frame_state_t F)) :=
  if 0 ≤ m.i1p then
    match track_map[m.i1p.toNat]? with
    | none => none
    | some cell =>
      let create : Option (List (track F) × List (frame_state_t F)) :=
        match addCount frames popped (backAddr frames popped) 1 with
        | none => none
        | some frames1 =>
          some (tracks ++ [extendTrack max_track_length m (freshTrack frames popped m)], frames1)
      match cell with
      | none => create
      | some j =>
        match tracks[j]? with
        | none => none
        | some t =>
          if t.refreshed then create
          else some (tracks.modify (extendTrack max_track_length m) j, frames)
  else none

/-- The loop over the matches, lines 82-104. -/
def associate (max_track_length : Nat) (track_map : List (Option Nat)) (popped : Nat) :
    List (p_match F) → List (track F) → List (frame_state_t F) →
    Option (List (track F) × List (frame_state_t F))
  | [], tracks, frames => some (tracks, frames)
  | m :: ms, tracks, frames =>
    match associateStep max_track_length track_map popped tracks frames m with
    | none => none
    | some (tracks1, frames1) => associate max_track_length track_map popped ms tracks1 frames1

/-! ## Triangulation (lines 148-177) -/

/-- The 4x4 coefficient matrix `J` filled by the loop of lines 161-166. -/
def triangulationMatrix (P1 P2 : Mat34 F) (p1 p2 : point2d F) : Mat4 F :=
  Matrix.of fun i j =>
    if i = 0 then P1 2 j * p1.u - P1 0 j
    else if i = 1 then P1 2 j * p1.v - P1 1 j
    else if i = 2 then P2 2 j * p2.u - P2 0 j
    else P2 2 j * p2.v - P2 1 j

/-- Lines 159-176 of `initPoint`, once the two projection matrices and the two
observations have been read: `none` is the return value `false`.  The
conversion of `w` to `float` is an exact copy here. -/
def initPointCore (lib : Lib F) (P1 P2 : Mat34 F) (p1 p2 : point2d F) : Option (Point3d F) :=
  let V := lib.svdV (triangulationMatrix P1 P2 p1 p2)
  let w := V 3 3
  if |w| < 1 / 10 ^ 10 then none
  else some ⟨V 0 3 / w, V 1 3 / w, V 2 3 / w⟩

/-- The function `Reconstruction::initPoint`. -/
def initPoint (lib : Lib F) (frames : List (frame_state_t F)) (popped : Nat) (t : track F) :
    Option (Option (Point3d F)) :=
  match deref frames popped t.first_frame, t.last_frame with
  | some f1, some a2 =>
    match deref frames popped a2, t.pixels.head?, t.pixels.getLast? with
    | some f2, some p1, some p2 => some (initPointCore lib f1.proj f2.proj p1 p2)
    | _, _, _ => none
  | _, _ => none

/-! ## Refinement (lines 179-202 and 255-343) -/

/-- The function `Reconstruction::computeObservations`: the buffer `p_observe`. -/
def computeObservations (pixels : List (point2d F)) : List F :=
  pixels.flatMap fun px => [px.u, px.v]

/-- The six Jacobian entries and the two predicted coordinates of one frame
(lines 317-336), or `none` when `cc < 1e-10`. -/
def predictFrame (P : Mat34 F) (p : Point3d F) : Option (List F × List F) :=
  let a := P 0 0 * p.x + P 0 1 * p.y + P 0 2 * p.z + P 0 3
  let b := P 1 0 * p.x + P 1 1 * p.y + P 1 2 * p.z + P 1 3
  let c := P 2 0 * p.x + P 2 1 * p.y + P 2 2 * p.z + P 2 3
  let cc := c * c
  if cc < 1 / 10 ^ 10 then none
  else some
    ([(P 0 0 * c - P 2 0 * a) / cc, (P 0 1 * c - P 2 1 * a) / cc, (P 0 2 * c - P 2 2 * a) / cc,
      (P 1 0 * c - P 2 0 * b) / cc, (P 1 1 * c - P 2 1 * b) / cc, (P 1 2 * c - P 2 2 * b) / cc],
     [a / c, b / c])

/-- The function `Reconstruction::computePredictionsAndJacobian` on the `n`
frames from list index `i` on (`f_begin` is index `i`, `f_end` index
`i + n - 1`): the buffers `J` and `p_predict`.  The outer `none` is an iterator
outside the window, the inner `none` the return value `false`. -/
def computePredictionsAndJacobian (frames : List (frame_state_t F)) (p : Point3d F) :
    Nat → Nat → Option (Option (List F × List F))
  | _, 0 => some (some ([], []))
  | i, n + 1 =>
    match frames[i]? with
    | none => none
    | some f =>
      match predictFrame f.proj p with
      | none => some none
      | some (Jk, pk) =>
        match computePredictionsAndJacobian frames p (i + 1) n with
        | none => none
        | some none => some none
        | some (some (J, p_predict)) => some (some (Jk ++ J, pk ++ p_predict))

/-- The entry `A.val[m][n]` of lines 276-280. -/
def normalA (J : List F) (num_frames : Nat) : Mat3 F :=
  Matrix.of fun m n =>
    ((List.range (2 * num_frames)).map fun i =>
      J.getD (i * 3 + m.val) 0 * J.getD (i * 3 + n.val) 0).sum

/-- The entry `B.val[m][0]` of lines 282-285. -/
def normalB (J p_observe p_predict : List F) (num_frames : Nat) : Fin 3 → F :=
  fun m =>
    ((List.range (2 * num_frames)).map fun i =>
      J.getD (i * 3 + m.val) 0 * (p_observe.getD i 0 - p_predict.getD i 0)).sum

/-- The function `Reconstruction::updatePoint`. -/
def updatePoint (lib : Lib F) (frames : List (frame_state_t F)) (popped : Nat) (t : track F)
    (p : Point3d F) (step_size eps : F) : Option (result × Point3d F) :=
  let num_frames := t.pixels.length
  let p_observe := computeObservations t.pixels
  match deref frames popped t.first_frame with
  | none => none
  | some f1 =>
    if frames.length < 1 + f1.frames_ago then none
    else
      let f_begin := frames.length - 1 - f1.frames_ago
      match computePredictionsAndJacobian frames p f_begin num_frames with
      | none => none
      | some none => some (result.FAILED, p)
      | some (some (J, p_predict)) =>
        match lib.solve (normalA J num_frames) (normalB J p_observe p_predict num_frames) with
        | some B =>
          let q : Point3d F :=
            ⟨p.x + step_size * B 0, p.y + step_size * B 1, p.z + step_size * B 2⟩
          if |B 0| < eps ∧ |B 1| < eps ∧ |B 2| < eps then some (result.CONVERGED, q)
          else some (result.UPDATED, q)
        | none => some (result.FAILED, p)

/-- The loop of lines 186-192 for an arbitrary step function, entered with the
counter `iter`; the third component is the final value of `iter`, the number of
steps performed so far.  The first argument bounds the number of further steps
(22 suffices from `iter = 0`, see `refineLoop_fuel`). -/
def refineLoop (step : Point3d F → Option (result × Point3d F)) :
    Nat → Nat → Point3d F → Option (result × Point3d F × Nat)
  | 0, iter, p => some (result.UPDATED, p, iter)
  | fuel + 1, iter, p =>
    match step p with
    | none => none
    | some (r, q) =>
      if iter > 20 ∨ r = result.CONVERGED then some (r, q, iter + 1)
      else if r = result.UPDATED then refineLoop step fuel (iter + 1) q
      else some (r, q, iter + 1)

/-- The function `Reconstruction::refinePoint`: the returned flag, the point it
leaves in `p` and the number of calls of `updatePoint`. -/
def refinePoint (lib : Lib F) (frames : List (frame_state_t F)) (popped : Nat) (t : track F)
    (p : Point3d F) : Option (Bool × Point3d F × Nat) :=
  match refineLoop (fun q => updatePoint lib frames popped t q 1 (1 / 10 ^ 5)) 22 0 p with
  | none => none
  | some (r, q, n) => some (decide (r = result.CONVERGED), q, n)

/-! ## Quality measures and classification (lines 204-253) -/

/-- The function `Reconstruction::pointDistance`. -/
def pointDistance (lib : Lib F) (frames : List (frame_state_t F)) (popped : Nat) (t : track F)
    (p : Point3d F) : Option F :=
  match deref frames popped t.first_frame, t.last_frame with
  | some f1, some a2 =>
    match deref frames popped a2 with
    | none => none
    | some f2 =>
      let mid_frames_ago := (f1.frames_ago + f2.frames_ago + 1) / 2
      match frames.reverse[mid_frames_ago]? with
      | none => none
      | some mid =>
        let dx := mid.fwd 0 3 - p.x
        let dy := mid.fwd 1 3 - p.y
        let dz := mid.fwd 2 3 - p.z
        some (lib.sqrt (dx * dx + dy * dy + dz * dz))
  | _, _ => none

/-- The body of `rayAngle` for the two camera centres `c1`, `c2` (the
translation columns of the two forward transforms). -/
def rayAngleCore (lib : Lib F) (c1 c2 : Fin 3 → F) (p : Point3d F) : F :=
  let pt : Fin 3 → F := ![p.x, p.y, p.z]
  let v1 : Fin 3 → F := fun i => c1 i - pt i
  let v2 : Fin 3 → F := fun i => c2 i - pt i
  let n1 := lib.sqrt (v1 0 * v1 0 + v1 1 * v1 1 + v1 2 * v1 2)
  let n2 := lib.sqrt (v2 0 * v2 0 + v2 1 * v2 1 + v2 2 * v2 2)
  if n1 < 1 / 10 ^ 10 ∨ n2 < 1 / 10 ^ 10 then 1000
  else
    lib.acos |v1 0 / n1 * (v2 0 / n2) + v1 1 / n1 * (v2 1 / n2) + v1 2 / n1 * (v2 2 / n2)|
      * 180 / lib.pi

/-- The column `M.getMat(0,3,2,3)`: the translation part of a 4x4 transform. -/
def translation (M : Mat4 F) : Fin 3 → F :=
  fun i => M (Fin.castSucc i) 3

/-- The function `Reconstruction::rayAngle`. -/
def rayAngle (lib : Lib F) (frames : List (frame_state_t F)) (popped : Nat) (t : track F)
    (p : Point3d F) : Option F :=
  match deref frames popped t.first_frame, t.last_frame with
  | some f1, some a2 =>
    match deref frames popped a2 with
    | none => none
    | some f2 => some (rayAngleCore lib (translation f1.fwd) (translation f2.fwd) p)
  | _, _ => none

/-- The decision of lines 240-252 from the depth `z1` in the first camera, the
depth `z2` in the last camera and the road-frame coordinate `y`. -/
def pointTypeCore (z1 z2 y : F) : Int :=
  if z1 ≤ 1 ∨ z2 ≤ 1 then -1
  else if y > 1 / 2 then 0
  else if y > -1 then 1
  else 2

/-- The function `Reconstruction::pointType`. -/
def pointType (Tr_cam_road : Mat4 F) (frames : List (frame_state_t F)) (popped : Nat)
    (t : track F) (p : Point3d F) : Option Int :=
  match deref frames popped t.first_frame, t.last_frame with
  | some f1, some a2 =>
    match deref frames popped a2 with
    | none => none
    | some f2 =>
      let x1c := affineTransform f1.inv p
      let x2c := affineTransform f2.inv p
      let x2r := affineTransform Tr_cam_road x2c
      some (pointTypeCore x1c.z x2c.z x2r.y)
  | _, _ => none

/-! ## Finalization of lost tracks (lines 107-145) -/

/-- Lines 127-140: the candidate point of a finalized track, `some none` when a
stage rejects it. -/
def reconstruct (lib : Lib F) (Tr_cam_road : Mat4 F) (frames : List (frame_state_t F))
    (popped : Nat) (point_type : Int) (max_dist min_angle : F) (t : track F) :
    Option (Option (Point3d F)) :=
  match initPoint lib frames popped t with
  | none => none
  | some none => some none
  | some (some p) =>
    match pointType Tr_cam_road frames popped t p with
    | none => none
    | some ty =>
      if ty ≥ point_type then
        match refinePoint lib frames popped t p with
        | none => none
        | some (false, _, _) => some none
        | some (true, q, _) =>
          match pointDistance lib frames popped t q with
          | none => none
          | some d =>
            if d < max_dist then
              match rayAngle lib frames popped t q with
              | none => none
              | some a => if a > min_angle then some (some q) else some none
            else some none
      else some none

/-- Lines 118-141 for a lost track: the track with `last_frame` set and the
candidate point, if one is to be pushed. -/
def finalize (lib : Lib F) (Tr_cam_road : Mat4 F) (frames : List (frame_state_t F))
    (popped : Nat) (point_type min_track_length : Int) (max_dist min_angle : F) (t : track F) :
    track F × Option (Option (Point3d F)) :=
  let t1 : track F := { t with last_frame := some (backAddr frames popped) }
  if (t1.pixels.length : Int) ≥ min_track_length then
    (t1, reconstruct lib Tr_cam_road frames popped point_type max_dist min_angle t1)
  else (t1, some none)

/-- The loop of lines 107-145 over the tracks: the tracks kept alive, the
frames, the points, and the list of the tracks erased (in order). -/
def sweep (lib : Lib F) (Tr_cam_road : Mat4 F) (popped : Nat) (point_type min_track_length : Int)
    (max_dist min_angle : F) :
    List (track F) → List (frame_state_t F) → List (Point3d F) →
    Option (List (track F) × List (frame_state_t F) × List (Point3d F) × List (track F))
  | [], frames, points => some ([], frames, points, [])
  | t :: ts, frames, points =>
    if t.refreshed then
      match sweep lib Tr_cam_road popped point_type min_track_length max_dist min_angle
          ts frames points with
      | none => none
      | some (kept, frames1, points1, lost) =>
        some ({ t with refreshed := false } :: kept, frames1, points1, lost)
    else
      match finalize lib Tr_cam_road frames popped point_type min_track_length max_dist
          min_angle t with
      | (_, none) => none
      | (t1, some cand) =>
        match addCount frames popped t1.first_frame (-1) with
        | none => none
        | some frames1 =>
          match sweep lib Tr_cam_road popped point_type min_track_length max_dist min_angle
              ts frames1 (points ++ cand.toList) with
          | none => none
          | some (kept, frames2, points2, lost) => some (kept, frames2, points2, t1 :: lost)

/-! ## The update cycle (lines 50-146) -/

/-- Lines 52-104 of `update`: the points re-expressed, the window evicted, aged
and extended by the new frame, the matches associated.  The result is the list
of tracks, the frames, the deque offset and the points before the sweep. -/
def prepare (lib : Lib F) (max_track_length : Nat) (s : Reconstruction F)
    (p_matched : List (p_match F)) (rev_Tr : Mat4 F) :
    Option (List (track F) × List (frame_state_t F) × Nat × List (Point3d F)) :=
  let points := s.points.map (affineTransform rev_Tr)
  let w := evict s.frames s.popped
  let frames := w.1.map (ageFrame lib s.K rev_Tr) ++ [newFrame s.K]
  match build_track_map p_matched s.tracks with
  | none => none
  | some track_map =>
    match associate max_track_length track_map w.2 p_matched s.tracks frames with
    | none => none
    | some (tracks1, frames1) => some (tracks1, frames1, w.2, points)

/-- The function `Reconstruction::update`, returning with the new state the
list of the tracks it finalized. -/
def updateLog (lib : Lib F) (max_track_length : Nat) (s : Reconstruction F)
    (p_matched : List (p_match F)) (rev_Tr : Mat4 F) (point_type min_track_length : Int)
    (max_dist min_angle : F) : Option (Reconstruction F × List (track F)) :=
  match prepare lib max_track_length s p_matched rev_Tr with
  | none => none
  | some (tracks1, frames1, popped, points) =>
    match sweep lib s.Tr_cam_road popped point_type min_track_length max_dist min_angle
        tracks1 frames1 points with
    | none => none
    | some (kept, frames2, points2, lost) =>
      some ({ s with points := points2, frames := frames2, popped := popped, tracks := kept },
        lost)

/-- The function `Reconstruction::update`. -/
def update (lib : Lib F) (max_track_length : Nat) (s : Reconstruction F)
    (p_matched : List (p_match F)) (rev_Tr : Mat4 F) (point_type min_track_length : Int)
    (max_dist min_angle : F) : Option (Reconstruction F) :=
  (updateLog lib max_track_length s p_matched rev_Tr point_type min_track_length max_dist
    min_angle).map Prod.fst

/-- States reached from the empty state by calls of `update` that are defined. -/
inductive Reachable (lib : Lib F) (max_track_length : Nat) : Reconstruction F → Prop
  | init (K : Mat3 F) (Tr_cam_road : Mat4 F) : Reachable lib max_track_length (emptyState K Tr_cam_road)
  | step {s s1 : Reconstruction F} (p_matched : List (p_match F)) (rev_Tr : Mat4 F)
      (point_type min_track_length : Int) (max_dist min_angle : F) :
      Reachable lib max_track_length s →
      update lib max_track_length s p_matched rev_Tr point_type min_track_length max_dist
        min_angle = some s1 →
      Reachable lib max_track_length s1

/-! ## Invariants of the window and of the live set -/

/-- The `first_frame` pointers of a list of tracks. -/
def firstFrames (ts : List (track F)) : List Nat :=
  ts.map track.first_frame

/-- Every frame counts the pointers of `L` that point to it. -/
def CountOK (frames : List (frame_state_t F)) (popped : Nat) (L : List Nat) : Prop :=
  ∀ i f, frames[i]? = some f → f.track_count = (L.count (popped + i) : Int)

/-- Every pointer of `L` points into the window. -/
def InWindow (frames : List (frame_state_t F)) (popped : Nat) (L : List Nat) : Prop :=
  ∀ a ∈ L, popped ≤ a ∧ a < popped + frames.length

/-- Counted from the newest end, the frame at position `i` has age `i`. -/
def AgesOK (frames : List (frame_state_t F)) : Prop :=
  frames.reverse.map frame_state_t.frames_ago = List.range frames.length

/-- The invariant of the state between two calls of `update`. -/
def Inv (s : Reconstruction F) : Prop :=
  CountOK s.frames s.popped (firstFrames s.tracks) ∧
    InWindow s.frames s.popped (firstFrames s.tracks) ∧ AgesOK s.frames

/-! ## Projection of a point (the formulas of lines 317-319 and 335-336) -/

/-- The term `P[i][0]*x + P[i][1]*y + P[i][2]*z + P[i][3]`: row `i` of `P`
applied to the homogeneous point; row 2 gives the depth term `c`. -/
def rowTerm (P : Mat34 F) (i : Fin 3) (X : Point3d F) : F :=
  P i 0 * X.x + P i 1 * X.y + P i 2 * X.z + P i 3

/-- The pixel `(a/c, b/c)` a projection matrix assigns to a point. -/
def project (P : Mat34 F) (X : Point3d F) : point2d F :=
  ⟨rowTerm P 0 X / rowTerm P 2 X, rowTerm P 1 X / rowTerm P 2 X⟩

/-- The homogeneous vector `(X, 1)`. -/
def homog (X : Point3d F) : Fin 4 → F :=
  ![X.x, X.y, X.z, 1]

/-- The assumptions on the `libm` part of the library used below: on
non-negative arguments `sqrt` returns the non-negative square root, and
`acos 1 = 0`. -/
def MathOK (lib : Lib F) : Prop :=
  (∀ x : F, 0 ≤ x → 0 ≤ lib.sqrt x ∧ lib.sqrt x * lib.sqrt x = x) ∧ lib.acos 1 = 0

/-- The ray from the point `p` to the camera centre `c`, as `rayAngle` forms it. -/
def ray (c : Fin 3 → F) (p : Point3d F) : Fin 3 → F :=
  fun i => c i - ![p.x, p.y, p.z] i

/-- The squared length of a vector of three components. -/
def normSq (v : Fin 3 → F) : F :=
  v 0 * v 0 + v 1 * v 1 + v 2 * v 2

/-! ## The three-cycle scenario of the end-to-end test -/

/-- The track a match `m` starts: two observations, rooted at the frame with
address `first`; `last` is its `last_frame` pointer. -/
def scenarioTrack (m : p_match F) (first : Nat) (last : Option Nat) : track F :=
  { pixels := [⟨m.u1p, m.v1p⟩, ⟨m.u1c, m.v1c⟩], last_idx := m.i1c, first_frame := first,
    last_frame := last, refreshed := false }

/-- The window of the second and of the third cycle when the sweep starts: the
previous frame aged by the identity motion and the new frame, one track
each. -/
def scenarioWindow (lib : Lib F) (K : Mat3 F) : List (frame_state_t F) :=
  [ageFrame lib K 1 { newFrame K with track_count := 1 }, { newFrame K with track_count := 1 }]

/-- The window the second and the third cycle leave: the track of the older
frame has been finalized. -/
def scenarioWindowAfter (lib : Lib F) (K : Mat3 F) : List (frame_state_t F) :=
  [{ ageFrame lib K 1 { newFrame K with track_count := 1 } with track_count := 0 },
   { newFrame K with track_count := 1 }]

/-- The state after the first cycle. -/
def scenarioState1 (K : Mat3 F) (Tr_cam_road : Mat4 F) (m : p_match F) : Reconstruction F :=
  { K := K, Tr_cam_road := Tr_cam_road, points := [],
    frames := [{ newFrame K with track_count := 1 }], popped := 0,
    tracks := [scenarioTrack m 0 none] }

/-- The state after the second cycle, `c2` being the candidate of the track
finalized in it. -/
def scenarioState2 (lib : Lib F) (K : Mat3 F) (Tr_cam_road : Mat4 F) (m : p_match F)
    (c2 : Option (Point3d F)) : Reconstruction F :=
  { K := K, Tr_cam_road := Tr_cam_road, points := c2.toList,
    frames := scenarioWindowAfter lib K, popped := 0, tracks := [scenarioTrack m 1 none] }

/-- The state after the third cycle, `c3` being the candidate of the track
finalized in it. -/
def scenarioState3 (lib : Lib F) (K : Mat3 F) (Tr_cam_road : Mat4 F) (m3 : p_match F)
    (c2 c3 : Option (Point3d F)) : Reconstruction F :=
  { K := K, Tr_cam_road := Tr_cam_road,
    points := c2.toList.map (affineTransform 1) ++ c3.toList,
    frames := scenarioWindowAfter lib K, popped := 1, tracks := [scenarioTrack m3 2 none] }

/-! ## Concrete data for the examples -/

/-- A library instance over the rationals whose every routine is defined and
cheap to evaluate: it lets the examples run the whole pipeline. -/
def qlib : Lib ℚ :=
  { inv := fun M => M
    svdV := fun _ => Matrix.of fun i _ => if i = 2 then 5 else if i = 3 then 1 else 0
    solve := fun _ _ => some fun _ => 0
    sqrt := fun _ => 0
    acos := fun _ => 0
    pi := 3 }

/-- A match from feature 0 of the previous image to feature 1 of the current one. -/
def mA : p_match ℚ :=
  { u1p := 10, v1p := 20, i1p := 0, u1c := 11, v1c := 21, i1c := 1 }

/-- The state after one `update` with the single match `mA` from the empty state. -/
def stateA : Reconstruction ℚ :=
  { K := 1, Tr_cam_road := 1, points := [],
    frames := [{ newFrame 1 with track_count := 1 }], popped := 0,
    tracks := [{ pixels := [⟨10, 20⟩, ⟨11, 21⟩], last_idx := 1, first_frame := 0,
                 last_frame := none, refreshed := false }] }

/-- A window of two frames with identity poses: the older one carries one
track. -/
def framesB : List (frame_state_t ℚ) :=
  [{ ageFrame qlib 1 1 (newFrame 1) with track_count := 1 }, newFrame 1]

/-- The window `framesB` once the track of its older frame is finalized. -/
def framesB0 : List (frame_state_t ℚ) :=
  [{ ageFrame qlib 1 1 (newFrame 1) with track_count := 0 }, newFrame 1]

/-- A track of two observations rooted at the older frame of `framesB` and not
refreshed in the current cycle. -/
def trackB : track ℚ :=
  { pixels := [⟨10, 20⟩, ⟨11, 21⟩], last_idx := 1, first_frame := 0, last_frame := none,
    refreshed := false }

/-- The track `trackB` once finalized in the window `framesB`. -/
def trackB1 : track ℚ :=
  { trackB with last_frame := some 1 }

/-- The projection matrix `[I | 0]` of a camera at the origin. -/
def projOrigin : Mat34 ℚ :=
  !![1, 0, 0, 0; 0, 1, 0, 0; 0, 0, 1, 0]

/-- The projection matrix `[I | (1,0,0)]` of a camera shifted sideways. -/
def projShifted : Mat34 ℚ :=
  !![1, 0, 0, 1; 0, 1, 0, 0; 0, 0, 1, 0]

/-- A point on the optical axis at depth `(t^2 - 1) / (2 t)` for `t = 4e10`,
about `2e10` away. -/
def farPoint : Point3d ℚ :=
  ⟨0, 0, (40000000000 ^ 2 - 1) / (2 * 40000000000)⟩

/-- A library whose `svd` returns, in the last column of `V`, the unit vector
`(0, 0, (t^2-1)/(t^2+1), 2t/(t^2+1))`, `t = 4e10`. -/
def farLib : Lib ℚ :=
  { qlib with
    svdV := fun _ => Matrix.of fun i _ =>
      if i = 2 then (40000000000 ^ 2 - 1) / (40000000000 ^ 2 + 1)
      else if i = 3 then 2 * 40000000000 / (40000000000 ^ 2 + 1) else 0 }

/-- Modelled from the spec: `Matrix::solve` is declared outside
`reconstruction.cpp`; it returns the solution of `A x = B`, and fails when `A`
is singular. -/
def exactSolve (A : Mat3 F) (B : Fin 3 → F) : Option (Fin 3 → F) :=
  if A.det = 0 then none else some (A.det⁻¹ • A.adjugate.mulVec B)

/-- A rigid transform with identity rotation and translation `(d, 0, 0)`. -/
def shiftX (d : F) : Mat4 F :=
  Matrix.of fun i j => if i = j then 1 else if i = 0 ∧ j = 3 then d else 0

/-- A match from feature 1 of the previous image to feature 2 of the current one. -/
def mB : p_match ℚ :=
  { u1p := 11, v1p := 21, i1p := 1, u1c := 12, v1c := 22, i1c := 2 }

/-- The state after `update` with the match `mB` from `stateA` when
`max_track_length = 2`: the track of `stateA` has been finalized and its point
stored. -/
def stateB : Reconstruction ℚ :=
  { stateA with points := [⟨0, 0, 5⟩], frames := framesB0, tracks := [] }

/-- The real-number library: the true `sqrt`, `acos` and `pi`; the linear
algebra routines, which `rayAngle` does not call, are placeholders. -/
noncomputable def realMath : Lib ℝ :=
  { inv := fun M => M
    svdV := fun _ => 1
    solve := fun _ _ => none
    sqrt := Real.sqrt
    acos := Real.arccos
    pi := Real.pi }

/-- A rigid transform with identity rotation and translation `(0, 0, d)`. -/
def shiftZ (d : F) : Mat4 F :=
  Matrix.of fun i j => if i = j then 1 else if i = 2 ∧ j = 3 then d else 0

/-- A window of two frames whose camera centres are at `(0, 0, d1)` (the older
frame) and `(0, 0, d2)` (the newest frame). -/
def framesAxis (d1 d2 : F) : List (frame_state_t F) :=
  [{ fwd := shiftZ d1, inv := shiftZ (-d1), proj := getMat34 (shiftZ (-d1)), frames_ago := 1,
     track_count := 1 },
   { fwd := shiftZ d2, inv := shiftZ (-d2), proj := getMat34 (shiftZ (-d2)), frames_ago := 0,
     track_count := 0 }]

/-- A finalized track of two observations rooted at the older frame of a
two-frame window. -/
def trackAxis : track F :=
  { pixels := [⟨0, 0⟩, ⟨0, 0⟩], last_idx := 1, first_frame := 0, last_frame := some 1,
    refreshed := false }

/-- A match from feature 0 of the previous image to feature 2 of the current one. -/
def mC : p_match ℚ :=
  { u1p := 10, v1p := 20, i1p := 0, u1c := 13, v1c := 23, i1c := 2 }

/-! ## Invariants of the track lengths -/

/-- Every track holds at least one and at most `max_track_length` observations. -/
def LenOK (max_track_length : Nat) (ts : List (track F)) : Prop :=
  ∀ t ∈ ts, 1 ≤ t.pixels.length ∧ t.pixels.length ≤ max_track_length

/-- Between two updates: the number of observations of a track added to the
address of its first frame is one more than `e`, the address one past the
newest frame (so the track has `frames_ago + 2` observations). -/
def AgeLen (e : Nat) (ts : List (track F)) : Prop :=
  ∀ t ∈ ts, t.pixels.length + t.first_frame = e + 1

/-- During the association: a refreshed track satisfies `AgeLen`, an unrefreshed
one has one observation less. -/
def AgeLenMid (e : Nat) (ts : List (track F)) : Prop :=
  ∀ t ∈ ts, (t.refreshed = true → t.pixels.length + t.first_frame = e + 1) ∧
    (t.refreshed = false → t.pixels.length + t.first_frame = e)

/-- The part of a frame the sweep never changes: the three matrices and the age. -/
def pose (f : frame_state_t F) : Mat4 F × Mat4 F × Mat34 F × Nat :=
  (f.fwd, f.inv, f.proj, f.frames_ago)


/-! ## The Gauss-Newton step in matrix form -/

/-- The frames `f_begin .. f_end` of `updatePoint` for a track of `n`
observations whose first frame is `f1`: `n` frames from the position
`frames.end() - 1 - f1.frames_ago` on. -/
def sliceOf (frames : List (frame_state_t F)) (f1 : frame_state_t F) (n : Nat) :
    List (frame_state_t F) :=
  (frames.drop (frames.length - 1 - f1.frames_ago)).take n

/-- The squared depth term `cc = c * c` of lines 319-320. -/
def depthSq (P : Mat34 F) (p : Point3d F) : F :=
  rowTerm P 2 p * rowTerm P 2 p

/-- The entry `(P[r][j] * c - P[2][j] * a_r) / cc` of the Jacobian block of one
frame, `a_r` being `a` for `r = 0` and `b` for `r = 1` (lines 327-332). -/
def jacobianEntry (P : Mat34 F) (p : Point3d F) (r : Fin 2) (j : Fin 3) : F :=
  (P (Fin.castSucc r) (Fin.castSucc j) * rowTerm P 2 p -
      P 2 (Fin.castSucc j) * rowTerm P (Fin.castSucc r) p) / depthSq P p

/-- The six Jacobian entries of one frame in the order they are stored. -/
def jacobianBlock (P : Mat34 F) (p : Point3d F) : List F :=
  [jacobianEntry P p 0 0, jacobianEntry P p 0 1, jacobianEntry P p 0 2,
   jacobianEntry P p 1 0, jacobianEntry P p 1 1, jacobianEntry P p 1 2]

/-- The buffer `J` after a successful pass over the frames `fs`. -/
def sliceJacobian (fs : List (frame_state_t F)) (p : Point3d F) : List F :=
  fs.flatMap fun f => jacobianBlock f.proj p

/-- The buffer `p_predict` after a successful pass over the frames `fs`. -/
def slicePrediction (fs : List (frame_state_t F)) (p : Point3d F) : List F :=
  fs.flatMap fun f => [(project f.proj p).u, (project f.proj p).v]

/-- The point `p + step_size * B` written by lines 289-291. -/
def stepPoint (p : Point3d F) (step_size : F) (B : Fin 3 → F) : Point3d F :=
  ⟨p.x + step_size * B 0, p.y + step_size * B 1, p.z + step_size * B 2⟩

/-! ## A sideways motion over the reals -/

/-- A matrix whose last column, the one `initPoint` reads from the factor `V`,
is the unit vector `(0, 0, 4/5, 3/5)`. -/
noncomputable def svdSide : Mat4 ℝ :=
  !![1, 0, 0, 0; 0, 1, 0, 0; 0, 0, 3 / 5, 4 / 5; 0, 0, -4 / 5, 3 / 5]

/-- The real-number library of the sideways example: the true `sqrt`, `acos`
and `pi`, the matrix inverse, the exact linear solver, and for `svd` the matrix
`svdSide`, whose last column spans the kernel of the triangulation matrix of
the example. -/
noncomputable def realLib : Lib ℝ :=
  { inv := fun M => M⁻¹
    svdV := fun _ => svdSide
    solve := exactSolve
    sqrt := Real.sqrt
    acos := Real.arccos
    pi := Real.pi }

/-- The older frame of the sideways example: pushed with identity pose, then
aged by the motion `shiftX (-1)`, with `K = I`; one track is rooted at it. -/
noncomputable def frameLeft : frame_state_t ℝ :=
  { fwd := shiftX (-1), inv := shiftX 1, proj := (1 : Mat3 ℝ) * getMat34 (shiftX (1 : ℝ)),
    frames_ago := 1, track_count := 1 }

/-- The window of the sideways example: `frameLeft` and the newest frame. -/
noncomputable def framesReal : List (frame_state_t ℝ) :=
  [frameLeft, newFrame 1]

/-- The point `(0, 0, 4/3)` of the sideways example. -/
noncomputable def pointReal : Point3d ℝ :=
  ⟨0, 0, 4 / 3⟩

/-- The finalized track of the sideways example: the exact pixels of
`pointReal` in the two frames of `framesReal`. -/
noncomputable def trackReal : track ℝ :=
  { pixels := [⟨3 / 4, 0⟩, ⟨0, 0⟩], last_idx := 1, first_frame := 0, last_frame := some 1,
    refreshed := false }


/-- The match of the sideways example: feature 0 of the previous image at
`(1, 0)`, feature 1 of the current image at `(3/4, 0)`. -/
noncomputable def matchLeft : p_match ℝ :=
  { u1p := 1, v1p := 0, i1p := 0, u1c := 3 / 4, v1c := 0, i1c := 1 }

/-- The live track started by `matchLeft` in the first cycle. -/
noncomputable def trackLeft : track ℝ :=
  { pixels := [⟨1, 0⟩, ⟨3 / 4, 0⟩], last_idx := 1, first_frame := 0, last_frame := none,
    refreshed := false }

/-- The state after one `update` with the match `matchLeft` from the empty state
with `K = I`: one frame with identity pose, the live track `trackLeft` rooted
at it. -/
noncomputable def stateLeft : Reconstruction ℝ :=
  { K := 1, Tr_cam_road := 1, points := [],
    frames := [{ newFrame 1 with track_count := 1 }], popped := 0, tracks := [trackLeft] }

/-- The state `stateLeft` after an `update` with the motion `shiftX (-1)` and no
match, all thresholds being large enough to skip the reconstruction. -/
noncomputable def stateLeftAfter : Reconstruction ℝ :=
  { stateLeft with
    frames := [{ ageFrame realLib 1 (shiftX (-1)) { newFrame 1 with track_count := 1 } with
                 track_count := 0 }, newFrame 1],
    tracks := [] }

/-! ## Coordinates of a point -/

/-- The coordinate `j` of a point: `x`, `y`, `z` for `j = 0, 1, 2`. -/
def coord (p : Point3d F) (j : Fin 3) : F :=
  ![p.x, p.y, p.z] j

/-- The point `p` with its coordinate `j` replaced by `x`. -/
def setCoord (p : Point3d F) (j : Fin 3) (x : F) : Point3d F :=
  if j = 0 then { p with x := x } else if j = 1 then { p with y := x } else { p with z := x }

/-! ## The three-cycle scenario with a camera at rest, over the reals -/

/-- The library `realLib` with, for `svd`, the identity matrix: its last column
`(0, 0, 0, 1)` spans the kernel of the triangulation matrix of two frames with
the same projection matrix `K * [I | 0]` (`rest_kernel`). -/
noncomputable def restLib : Lib ℝ :=
  { realLib with svdV := fun _ => 1 }

/-- The match of the third cycle: the predecessor id of `matchLeft`, another
successor id. -/
noncomputable def matchLeft3 : p_match ℝ :=
  { matchLeft with i1c := 2 }

/-! ## A run whose refinement never converges, over the reals -/

/-- The match of the first cycle of the run: feature 0 at `(3/4, 0)` in the
previous image, feature 1 at `(-3/4, 0)` in the current one. -/
noncomputable def driftMatch1 : p_match ℝ :=
  { u1p := 3 / 4, v1p := 0, i1p := 0, u1c := -(3 / 4), v1c := 0, i1c := 1 }

/-- The match of the second cycle of the run: feature 1 of the previous image,
feature 2 at `(0, 0)` in the current one. -/
noncomputable def driftMatch2 : p_match ℝ :=
  { u1p := -(3 / 4), v1p := 0, i1p := 1, u1c := 0, v1c := 0, i1c := 2 }

/-- The track of the run once it has three observations; `last` is its
`last_frame` pointer. -/
noncomputable def driftTrack (last : Option Nat) : track ℝ :=
  { pixels := [⟨3 / 4, 0⟩, ⟨-(3 / 4), 0⟩, ⟨0, 0⟩], last_idx := 2, first_frame := 0,
    last_frame := last, refreshed := false }

/-- The state after the first cycle of the run. -/
noncomputable def driftState1 : Reconstruction ℝ :=
  { K := 1, Tr_cam_road := 1, points := [],
    frames := [{ newFrame 1 with track_count := 1 }], popped := 0,
    tracks := [{ pixels := [⟨3 / 4, 0⟩, ⟨-(3 / 4), 0⟩], last_idx := 1, first_frame := 0,
                 last_frame := none, refreshed := false }] }

/-- The state after the second cycle of the run (identity motion). -/
noncomputable def driftState2 : Reconstruction ℝ :=
  { driftState1 with
    frames := [{ newFrame 1 with frames_ago := 1, track_count := 1 }, newFrame 1],
    tracks := [driftTrack none] }

/-- The window of the third cycle of the run (motion `shiftX (-1)`) when the
sweep starts: the two older frames have the pose of `frameLeft`. -/
noncomputable def framesDrift : List (frame_state_t ℝ) :=
  [{ frameLeft with frames_ago := 2 }, { frameLeft with track_count := 0 }, newFrame 1]

/-- The state after the third cycle of the run. -/
noncomputable def driftState3 : Reconstruction ℝ :=
  { driftState1 with
    frames := [{ frameLeft with frames_ago := 2, track_count := 0 },
               { frameLeft with track_count := 0 }, newFrame 1],
    tracks := [] }

/-! ## Lemmas: window maintenance -/

theorem evict_inv (frames : List (frame_state_t F)) (popped : Nat) (L : List Nat)
    (hc : CountOK frames popped L) (hw : InWindow frames popped L) :
    CountOK (evict frames popped).1 (evict frames popped).2 L ∧
      InWindow (evict frames popped).1 (evict frames popped).2 L := by
  induction frames generalizing popped with
  | nil => exact ⟨hc, hw⟩
  | cons f fs ih =>
    unfold evict
    split
    · rename_i h0
      have hcnt : L.count popped = 0 := by
        have := hc 0 f (by simp)
        rw [h0] at this
        exact_mod_cast this.symm
      have hnot : popped ∉ L := List.count_eq_zero.mp hcnt
      apply ih
      · intro i g hg
        have := hc (i + 1) g (by simpa using hg)
        rw [this]
        congr 2
        omega
      · intro a ha
        have h1 := hw a ha
        have hne : a ≠ popped := fun h => hnot (h ▸ ha)
        simp only [List.length_cons] at h1
        omega
    · exact ⟨hc, hw⟩

theorem evict_ages (frames : List (frame_state_t F)) (popped : Nat) (h : AgesOK frames) :
    AgesOK (evict frames popped).1 := by
  induction frames generalizing popped with
  | nil => exact h
  | cons f fs ih =>
    unfold evict
    split
    · apply ih
      unfold AgesOK at h ⊢
      simp only [List.reverse_cons, List.map_append, List.map_cons, List.map_nil,
        List.length_cons, List.range_succ] at h
      exact (List.append_inj h (by simp)).1
    · exact h

theorem age_push_inv (lib : Lib F) (K : Mat3 F) (rev_Tr : Mat4 F)
    (frames : List (frame_state_t F)) (popped : Nat) (L : List Nat)
    (hc : CountOK frames popped L) (hw : InWindow frames popped L) :
    CountOK (frames.map (ageFrame lib K rev_Tr) ++ [newFrame K]) popped L ∧
      InWindow (frames.map (ageFrame lib K rev_Tr) ++ [newFrame K]) popped L := by
  constructor
  · intro i f hf
    rcases Nat.lt_trichotomy i frames.length with hi | hi | hi
    · rw [List.getElem?_append_left (by simpa using hi)] at hf
      simp only [List.getElem?_map, Option.map_eq_some'] at hf
      obtain ⟨g, hg, rfl⟩ := hf
      exact hc i g hg
    · subst hi
      rw [List.getElem?_append_right (by simp)] at hf
      simp only [List.length_map, Nat.sub_self, List.getElem?_cons_zero, Option.some.injEq] at hf
      subst hf
      have hnot : popped + frames.length ∉ L := fun h => by
        have := (hw _ h).2
        omega
      simp [newFrame, List.count_eq_zero.mpr hnot]
    · rw [List.getElem?_eq_none (by simp; omega)] at hf
      exact absurd hf (by simp)
  · intro a ha
    have := hw a ha
    simp only [List.length_append, List.length_map, List.length_singleton]
    omega

theorem age_push_ages (lib : Lib F) (K : Mat3 F) (rev_Tr : Mat4 F)
    (frames : List (frame_state_t F)) (h : AgesOK frames) :
    AgesOK (frames.map (ageFrame lib K rev_Tr) ++ [newFrame K]) := by
  unfold AgesOK at h ⊢
  simp only [List.reverse_append, List.reverse_cons, List.reverse_nil, List.nil_append,
    List.singleton_append, List.map_cons, List.length_append, List.length_map,
    List.length_singleton, ← List.map_reverse, List.map_map]
  rw [List.range_succ_eq_map]
  congr 1
  rw [← h, List.map_map]
  rfl

/-! ## Lemmas: reference counts -/

theorem addCount_length {frames frames1 : List (frame_state_t F)} {popped a : Nat} {d : Int}
    (h : addCount frames popped a d = some frames1) : frames1.length = frames.length := by
  unfold addCount at h
  split at h
  · simp only [Option.some.injEq] at h
    subst h
    simp
  · exact absurd h (by simp)

theorem addCount_ago {frames frames1 : List (frame_state_t F)} {popped a : Nat} {d : Int}
    (h : addCount frames popped a d = some frames1) :
    frames1.map frame_state_t.frames_ago = frames.map frame_state_t.frames_ago := by
  unfold addCount at h
  split at h
  · simp only [Option.some.injEq] at h
    subst h
    apply List.ext_getElem? 
    intro i
    simp only [List.getElem?_map, List.getElem?_modify]
    cases frames[i]? with
    | none => rfl
    | some f => by_cases hi : a - popped = i <;> simp [hi]
  · exact absurd h (by simp)

theorem addCount_ages {frames frames1 : List (frame_state_t F)} {popped a : Nat} {d : Int}
    (h : addCount frames popped a d = some frames1) (hA : AgesOK frames) : AgesOK frames1 := by
  unfold AgesOK at hA ⊢
  rw [List.map_reverse, addCount_ago h, addCount_length h, ← List.map_reverse]
  exact hA

theorem addCount_get {frames frames1 : List (frame_state_t F)} {popped a : Nat} {d : Int}
    (h : addCount frames popped a d = some frames1) (i : Nat) (f1 : frame_state_t F)
    (hf : frames1[i]? = some f1) :
    ∃ f, frames[i]? = some f ∧
      f1.track_count = f.track_count + (if popped + i = a then d else 0) := by
  unfold addCount at h
  split at h
  · rename_i hx
    simp only [Option.some.injEq] at h
    subst h
    rw [List.getElem?_modify] at hf
    cases hfi : frames[i]? with
    | none => rw [hfi] at hf; exact absurd hf (by simp)
    | some f =>
      rw [hfi] at hf
      simp only [Option.map_eq_map, Option.map_some', Option.some.injEq] at hf
      refine ⟨f, rfl, ?_⟩
      subst hf
      by_cases hi : a - popped = i
      · have : popped + i = a := by omega
        simp [hi, this]
      · have : popped + i ≠ a := by omega
        simp [hi, this]
  · exact absurd h (by simp)

theorem addCount_defined (frames : List (frame_state_t F)) (popped a : Nat) (d : Int)
    (h1 : popped ≤ a) (h2 : a < popped + frames.length) :
    ∃ frames1, addCount frames popped a d = some frames1 := by
  unfold addCount
  rw [if_pos ⟨h1, by omega⟩]
  exact ⟨_, rfl⟩

theorem addCount_push {frames frames1 : List (frame_state_t F)} {popped a : Nat} {L : List Nat}
    (h : addCount frames popped a 1 = some frames1) (hc : CountOK frames popped L) :
    CountOK frames1 popped (L ++ [a]) := by
  intro i f1 hf
  obtain ⟨f, hfi, hcnt⟩ := addCount_get h i f1 hf
  rw [hcnt, hc i f hfi, List.count_append]
  by_cases hi : popped + i = a
  · simp [hi]
  · have : a ≠ popped + i := fun h => hi h.symm
    simp [hi, List.count_singleton, this]

theorem addCount_erase {frames frames1 : List (frame_state_t F)} {popped a : Nat}
    {L1 L2 : List Nat}
    (h : addCount frames popped a (-1) = some frames1)
    (hc : CountOK frames popped (L1 ++ a :: L2)) :
    CountOK frames1 popped (L1 ++ L2) := by
  intro i f1 hf
  obtain ⟨f, hfi, hcnt⟩ := addCount_get h i f1 hf
  rw [hcnt, hc i f hfi, List.count_append, List.count_append, List.count_cons]
  by_cases hi : popped + i = a
  · simp [hi]
    ring
  · have : a ≠ popped + i := fun h => hi h.symm
    simp [hi, this]

theorem firstFrames_modify (f : track F → track F) (hf : ∀ t, (f t).first_frame = t.first_frame)
    (ts : List (track F)) (j : Nat) : firstFrames (ts.modify f j) = firstFrames ts := by
  unfold firstFrames
  apply List.ext_getElem?
  intro i
  simp only [List.getElem?_map, List.getElem?_modify]
  cases ts[i]? with
  | none => rfl
  | some t => by_cases hi : j = i <;> simp [hi, hf]

theorem extendTrack_first_frame (max_track_length : Nat) (m : p_match F) (t : track F) :
    (extendTrack max_track_length m t).first_frame = t.first_frame := by
  unfold extendTrack
  split <;> rfl

/-! ## Lemmas: association and sweep -/

theorem associateStep_inv {max_track_length : Nat} {track_map : List (Option Nat)} {popped : Nat}
    {tracks tracks1 : List (track F)} {frames frames1 : List (frame_state_t F)} {m : p_match F}
    (h : associateStep max_track_length track_map popped tracks frames m = some (tracks1, frames1))
    (hc : CountOK frames popped (firstFrames tracks))
    (hw : InWindow frames popped (firstFrames tracks)) (hne : 0 < frames.length) :
    CountOK frames1 popped (firstFrames tracks1) ∧
      InWindow frames1 popped (firstFrames tracks1) ∧ frames1.length = frames.length ∧
      frames1.map frame_state_t.frames_ago = frames.map frame_state_t.frames_ago := by
  have hcreate : ∀ fr1, addCount frames popped (backAddr frames popped) 1 = some fr1 →
      CountOK fr1 popped
          (firstFrames (tracks ++ [extendTrack max_track_length m (freshTrack frames popped m)])) ∧
        InWindow fr1 popped
          (firstFrames (tracks ++ [extendTrack max_track_length m (freshTrack frames popped m)])) ∧
        fr1.length = frames.length ∧
        fr1.map frame_state_t.frames_ago = frames.map frame_state_t.frames_ago := by
    intro fr1 hfr
    have hff : firstFrames (tracks ++ [extendTrack max_track_length m (freshTrack frames popped m)])
        = firstFrames tracks ++ [backAddr frames popped] := by
      simp [firstFrames, extendTrack_first_frame, freshTrack]
    rw [hff]
    refine ⟨addCount_push hfr hc, ?_, addCount_length hfr, addCount_ago hfr⟩
    intro a ha
    rw [addCount_length hfr]
    rcases List.mem_append.mp ha with ha | ha
    · exact hw a ha
    · simp only [List.mem_singleton] at ha
      subst ha
      unfold backAddr
      omega
  unfold associateStep at h
  split at h
  · split at h
    · exact absurd h (by simp)
    · rename_i cell _
      cases cell with
      | none =>
        simp only at h
        cases hfr : addCount frames popped (backAddr frames popped) 1 with
        | none => rw [hfr] at h; exact absurd h (by simp)
        | some fr1 =>
          rw [hfr] at h
          simp only [Option.some.injEq, Prod.mk.injEq] at h
          obtain ⟨rfl, rfl⟩ := h
          exact hcreate fr1 hfr
      | some j =>
        simp only at h
        cases htj : tracks[j]? with
        | none => rw [htj] at h; exact absurd h (by simp)
        | some t =>
          rw [htj] at h
          simp only at h
          split at h
          · cases hfr : addCount frames popped (backAddr frames popped) 1 with
            | none => rw [hfr] at h; exact absurd h (by simp)
            | some fr1 =>
              rw [hfr] at h
              simp only [Option.some.injEq, Prod.mk.injEq] at h
              obtain ⟨rfl, rfl⟩ := h
              exact hcreate fr1 hfr
          · simp only [Option.some.injEq, Prod.mk.injEq] at h
            obtain ⟨rfl, rfl⟩ := h
            rw [firstFrames_modify _ (extendTrack_first_frame max_track_length m)]
            exact ⟨hc, hw, rfl, rfl⟩
  · exact absurd h (by simp)

theorem associate_inv {max_track_length : Nat} {track_map : List (Option Nat)} {popped : Nat}
    (ms : List (p_match F)) {tracks tracks1 : List (track F)}
    {frames frames1 : List (frame_state_t F)}
    (h : associate max_track_length track_map popped ms tracks frames = some (tracks1, frames1))
    (hc : CountOK frames popped (firstFrames tracks))
    (hw : InWindow frames popped (firstFrames tracks)) (hne : 0 < frames.length) :
    CountOK frames1 popped (firstFrames tracks1) ∧
      InWindow frames1 popped (firstFrames tracks1) ∧ frames1.length = frames.length ∧
      frames1.map frame_state_t.frames_ago = frames.map frame_state_t.frames_ago := by
  induction ms generalizing tracks frames with
  | nil =>
    simp only [associate, Option.some.injEq, Prod.mk.injEq] at h
    obtain ⟨rfl, rfl⟩ := h
    exact ⟨hc, hw, rfl, rfl⟩
  | cons m ms ih =>
    unfold associate at h
    cases hs : associateStep max_track_length track_map popped tracks frames m with
    | none => rw [hs] at h; exact absurd h (by simp)
    | some r =>
      obtain ⟨tr2, fr2⟩ := r
      rw [hs] at h
      simp only at h
      obtain ⟨hc2, hw2, hl2, ha2⟩ := associateStep_inv hs hc hw hne
      obtain ⟨hc3, hw3, hl3, ha3⟩ := ih h hc2 hw2 (by omega)
      exact ⟨hc3, hw3, by omega, by rw [ha3, ha2]⟩

theorem finalize_fst (lib : Lib F) (Tr_cam_road : Mat4 F) (frames : List (frame_state_t F))
    (popped : Nat) (point_type min_track_length : Int) (max_dist min_angle : F) (t : track F) :
    (finalize lib Tr_cam_road frames popped point_type min_track_length max_dist min_angle t).1 =
      { t with last_frame := some (backAddr frames popped) } := by
  unfold finalize
  simp only
  split <;> rfl

theorem sweep_inv (lib : Lib F) (Tr_cam_road : Mat4 F) (popped : Nat)
    (point_type min_track_length : Int) (max_dist min_angle : F)
    (ts : List (track F)) (frames : List (frame_state_t F)) (points : List (Point3d F))
    (extra : List Nat) {kept lost : List (track F)} {frames1 : List (frame_state_t F)}
    {points1 : List (Point3d F)}
    (h : sweep lib Tr_cam_road popped point_type min_track_length max_dist min_angle ts frames
      points = some (kept, frames1, points1, lost))
    (hc : CountOK frames popped (extra ++ firstFrames ts)) :
    CountOK frames1 popped (extra ++ firstFrames kept) ∧ frames1.length = frames.length ∧
      frames1.map frame_state_t.frames_ago = frames.map frame_state_t.frames_ago ∧
      (∀ a ∈ firstFrames kept, a ∈ firstFrames ts) := by
  induction ts generalizing frames points extra kept lost frames1 points1 with
  | nil =>
    simp only [sweep, Option.some.injEq, Prod.mk.injEq] at h
    obtain ⟨rfl, rfl, rfl, rfl⟩ := h
    exact ⟨hc, rfl, rfl, fun a ha => ha⟩
  | cons t ts ih =>
    unfold sweep at h
    split at h
    · cases hs : sweep lib Tr_cam_road popped point_type min_track_length max_dist min_angle
          ts frames points with
      | none => rw [hs] at h; exact absurd h (by simp)
      | some r =>
        obtain ⟨k2, f2, p2, l2⟩ := r
        rw [hs] at h
        simp only [Option.some.injEq, Prod.mk.injEq] at h
        obtain ⟨rfl, rfl, rfl, rfl⟩ := h
        have hc2 : CountOK frames popped ((extra ++ [t.first_frame]) ++ firstFrames ts) := by
          simpa [firstFrames] using hc
        obtain ⟨h1, h2, h3, h4⟩ := ih frames points (extra ++ [t.first_frame]) hs hc2
        refine ⟨by simpa [firstFrames] using h1, h2, h3, ?_⟩
        intro a ha
        simp only [firstFrames, List.map_cons, List.mem_cons] at ha ⊢
        rcases ha with ha | ha
        · exact Or.inl ha
        · exact Or.inr (h4 a ha)
    · split at h
      · exact absurd h (by simp)
      · rename_i t1 cand hfin
        have ht1 : t1.first_frame = t.first_frame := by
          have := congrArg Prod.fst hfin
          rw [finalize_fst] at this
          simp only at this
          rw [← this]
        cases hfr : addCount frames popped t1.first_frame (-1) with
        | none => rw [hfr] at h; exact absurd h (by simp)
        | some fr1 =>
          rw [hfr] at h
          simp only at h
          cases hs : sweep lib Tr_cam_road popped point_type min_track_length max_dist min_angle
              ts fr1 (points ++ cand.toList) with
          | none => rw [hs] at h; exact absurd h (by simp)
          | some r =>
            obtain ⟨k2, f2, p2, l2⟩ := r
            rw [hs] at h
            simp only [Option.some.injEq, Prod.mk.injEq] at h
            obtain ⟨rfl, rfl, rfl, rfl⟩ := h
            rw [ht1] at hfr
            have hc2 : CountOK fr1 popped (extra ++ firstFrames ts) :=
              addCount_erase hfr (by simpa [firstFrames] using hc)
            obtain ⟨h1, h2, h3, h4⟩ := ih fr1 (points ++ cand.toList) extra hs hc2
            refine ⟨h1, by rw [h2, addCount_length hfr], by rw [h3, addCount_ago hfr], ?_⟩
            intro a ha
            simp only [firstFrames, List.map_cons, List.mem_cons]
            exact Or.inr (h4 a ha)

/-! ## Lemmas: the invariants along `update` -/

theorem agesOK_of_map_eq {frames frames1 : List (frame_state_t F)}
    (h : frames1.map frame_state_t.frames_ago = frames.map frame_state_t.frames_ago)
    (hA : AgesOK frames) : AgesOK frames1 := by
  have hl : frames1.length = frames.length := by
    have := congrArg List.length h
    simpa using this
  unfold AgesOK at hA ⊢
  rw [List.map_reverse, h, hl, ← List.map_reverse]
  exact hA

theorem prepare_inv {lib : Lib F} {max_track_length : Nat} {s : Reconstruction F}
    {p_matched : List (p_match F)} {rev_Tr : Mat4 F} {tracks1 : List (track F)}
    {frames1 : List (frame_state_t F)} {popped : Nat} {points : List (Point3d F)}
    (h : prepare lib max_track_length s p_matched rev_Tr = some (tracks1, frames1, popped, points))
    (hI : Inv s) :
    CountOK frames1 popped (firstFrames tracks1) ∧ InWindow frames1 popped (firstFrames tracks1) ∧
      AgesOK frames1 ∧ 0 < frames1.length := by
  obtain ⟨hc, hw, hA⟩ := hI
  unfold prepare at h
  simp only at h
  cases hm : build_track_map p_matched s.tracks with
  | none => rw [hm] at h; exact absurd h (by simp)
  | some track_map =>
    rw [hm] at h
    simp only at h
    obtain ⟨hc1, hw1⟩ := evict_inv s.frames s.popped _ hc hw
    obtain ⟨hc2, hw2⟩ := age_push_inv lib s.K rev_Tr _ _ _ hc1 hw1
    have hA2 := age_push_ages lib s.K rev_Tr _ (evict_ages s.frames s.popped hA)
    cases has : associate max_track_length track_map (evict s.frames s.popped).2 p_matched
        s.tracks ((evict s.frames s.popped).1.map (ageFrame lib s.K rev_Tr) ++ [newFrame s.K]) with
    | none => rw [has] at h; exact absurd h (by simp)
    | some r =>
      obtain ⟨tr1, fr1⟩ := r
      rw [has] at h
      simp only [Option.some.injEq, Prod.mk.injEq] at h
      obtain ⟨rfl, rfl, rfl, rfl⟩ := h
      obtain ⟨hc3, hw3, hl3, ha3⟩ := associate_inv p_matched has hc2 hw2 (by simp)
      refine ⟨hc3, hw3, agesOK_of_map_eq ha3 hA2, ?_⟩
      rw [hl3]
      simp

theorem updateLog_inv {lib : Lib F} {max_track_length : Nat} {s s1 : Reconstruction F}
    {p_matched : List (p_match F)} {rev_Tr : Mat4 F} {point_type min_track_length : Int}
    {max_dist min_angle : F} {lost : List (track F)}
    (h : updateLog lib max_track_length s p_matched rev_Tr point_type min_track_length max_dist
      min_angle = some (s1, lost))
    (hI : Inv s) : Inv s1 ∧ 0 < s1.frames.length := by
  unfold updateLog at h
  cases hp : prepare lib max_track_length s p_matched rev_Tr with
  | none => rw [hp] at h; exact absurd h (by simp)
  | some r =>
    obtain ⟨tracks1, frames1, popped, points⟩ := r
    rw [hp] at h
    simp only at h
    obtain ⟨hc3, hw3, hA3, hpos⟩ := prepare_inv hp hI
    cases hsw : sweep lib s.Tr_cam_road popped point_type min_track_length
        max_dist min_angle tracks1 frames1 points with
    | none => rw [hsw] at h; exact absurd h (by simp)
    | some r =>
      obtain ⟨kept, frames2, points2, lost2⟩ := r
      rw [hsw] at h
      simp only [Option.some.injEq, Prod.mk.injEq] at h
      obtain ⟨rfl, rfl⟩ := h
      obtain ⟨hc4, hl4, ha4, hsub⟩ := sweep_inv lib s.Tr_cam_road _ point_type
        min_track_length max_dist min_angle tracks1 frames1 _ [] hsw (by simpa using hc3)
      refine ⟨⟨by simpa using hc4, ?_, ?_⟩, ?_⟩
      · intro a ha
        have := hw3 a (hsub a ha)
        simp only
        omega
      · exact agesOK_of_map_eq ha4 hA3
      · simp only [hl4]
        exact hpos

theorem update_inv {lib : Lib F} {max_track_length : Nat} {s s1 : Reconstruction F}
    {p_matched : List (p_match F)} {rev_Tr : Mat4 F} {point_type min_track_length : Int}
    {max_dist min_angle : F}
    (h : update lib max_track_length s p_matched rev_Tr point_type min_track_length max_dist
      min_angle = some s1)
    (hI : Inv s) : Inv s1 ∧ 0 < s1.frames.length := by
  unfold update at h
  simp only [Option.map_eq_some', Prod.exists, exists_and_right, exists_eq_right] at h
  obtain ⟨lost, hl⟩ := h
  exact updateLog_inv hl hI

theorem inv_emptyState (K : Mat3 F) (Tr_cam_road : Mat4 F) : Inv (emptyState K Tr_cam_road) := by
  refine ⟨?_, ?_, ?_⟩
  · intro i f hf
    simp [emptyState] at hf
  · intro a ha
    simp [emptyState, firstFrames] at ha
  · simp [AgesOK, emptyState]

theorem reachable_inv {lib : Lib F} {max_track_length : Nat} {s : Reconstruction F}
    (h : Reachable lib max_track_length s) : Inv s := by
  induction h with
  | init K Tr => exact inv_emptyState K Tr
  | step p_matched rev_Tr point_type min_track_length max_dist min_angle _ hu ih =>
    exact (update_inv hu ih).1

theorem count_firstFrames (ts : List (track F)) (a : Nat) :
    (firstFrames ts).count a = ts.countP (fun t => decide (t.first_frame = a)) := by
  induction ts with
  | nil => rfl
  | cons t ts ih =>
    simp only [firstFrames, List.map_cons, List.count_cons, List.countP_cons] at ih ⊢
    rw [ih]
    by_cases h : t.first_frame = a <;> simp [h]

/-! ## Concrete runs -/

theorem update_emptyState_mA :
    update qlib 10 (emptyState 1 1) [mA] 1 (-1) 2 100 0 = some stateA := rfl

theorem reachable_stateA : Reachable qlib 10 stateA :=
  Reachable.step [mA] 1 (-1) 2 100 0 (Reachable.init 1 1) update_emptyState_mA

/-! ## C1: eviction safety -/

/-- C1. In every state reached from the empty state by calls of `update`, each
frame of the window has `track_count` equal to the number of live tracks whose
`first_frame` points to it, the `first_frame` pointer of every live track
dereferences to a frame of the window, and it still does after the eviction
loop of the next `update`: no referenced frame is ever evicted. -/
theorem C1_eviction_safety (lib : Lib F) (max_track_length : Nat) (s : Reconstruction F)
    (h : Reachable lib max_track_length s) :
    (∀ (i : Nat) (f : frame_state_t F), s.frames[i]? = some f →
        f.track_count =
          ((s.tracks.countP fun t => decide (t.first_frame = s.popped + i) : Nat) : Int)) ∧
      (∀ t ∈ s.tracks, (deref s.frames s.popped t.first_frame).isSome = true) ∧
      ∀ t ∈ s.tracks,
        (deref (evict s.frames s.popped).1 (evict s.frames s.popped).2 t.first_frame).isSome
          = true := by
  obtain ⟨hc, hw, _⟩ := reachable_inv h
  have hderef : ∀ (frames : List (frame_state_t F)) (popped : Nat),
      InWindow frames popped (firstFrames s.tracks) →
      ∀ t ∈ s.tracks, (deref frames popped t.first_frame).isSome = true := by
    intro frames popped hwin t ht
    have := hwin t.first_frame (List.mem_map_of_mem _ ht)
    unfold deref
    rw [if_pos this.1]
    have hlt : t.first_frame - popped < frames.length := by omega
    simp [List.getElem?_eq_getElem hlt]
  refine ⟨?_, hderef _ _ hw, hderef _ _ (evict_inv s.frames s.popped _ hc hw).2⟩
  intro i f hf
  rw [hc i f hf, count_firstFrames]

/-- C1 at the state reached by one update with one match. -/
theorem C1_eviction_safety_witness :
    (∀ (i : Nat) (f : frame_state_t ℚ), stateA.frames[i]? = some f →
        f.track_count =
          ((stateA.tracks.countP fun t => decide (t.first_frame = stateA.popped + i) : Nat) : Int)) ∧
      (∀ t ∈ stateA.tracks, (deref stateA.frames stateA.popped t.first_frame).isSome = true) ∧
      ∀ t ∈ stateA.tracks,
        (deref (evict stateA.frames stateA.popped).1 (evict stateA.frames stateA.popped).2
          t.first_frame).isSome = true :=
  C1_eviction_safety qlib 10 stateA reachable_stateA

/-! ## C2: window ordering -/

/-- C2. After every call of `update` in a run from the empty state the window
is non-empty, the frame at position `i` counted from the newest end has
`frames_ago = i` (so the newest frame has age zero), and the ages strictly
increase towards the oldest end. -/
theorem C2_window_ordering (lib : Lib F) (max_track_length : Nat) (s s1 : Reconstruction F)
    (p_matched : List (p_match F)) (rev_Tr : Mat4 F) (point_type min_track_length : Int)
    (max_dist min_angle : F) (h : Reachable lib max_track_length s)
    (hu : update lib max_track_length s p_matched rev_Tr point_type min_track_length max_dist
      min_angle = some s1) :
    s1.frames ≠ [] ∧
      (∀ (i : Nat) (f : frame_state_t F), s1.frames.reverse[i]? = some f → f.frames_ago = i) ∧
      (s1.frames.getLast?.map frame_state_t.frames_ago = some 0) ∧
      (s1.frames.map frame_state_t.frames_ago).Pairwise (fun a b => a > b) := by
  obtain ⟨⟨_, _, hA⟩, hpos⟩ := update_inv hu (reachable_inv h)
  unfold AgesOK at hA
  have hget : ∀ (i : Nat) (f : frame_state_t F),
      s1.frames.reverse[i]? = some f → f.frames_ago = i := by
    intro i f hf
    have h1 : (s1.frames.reverse.map frame_state_t.frames_ago)[i]? = some f.frames_ago := by
      rw [List.getElem?_map, hf]
      rfl
    rw [hA] at h1
    have hi : i < s1.frames.length := by
      by_contra hn
      rw [List.getElem?_eq_none (by simpa using hn)] at h1
      exact absurd h1 (by simp)
    rw [List.getElem?_eq_getElem (by simpa using hi)] at h1
    simpa using h1.symm
  refine ⟨?_, hget, ?_, ?_⟩
  · intro hnil
    rw [hnil] at hpos
    exact absurd hpos (by simp)
  · have h0 : s1.frames.reverse[0]? = s1.frames.getLast? := by
      rw [← List.head?_reverse, List.head?_eq_getElem?]
    rw [← h0]
    cases hr : s1.frames.reverse[0]? with
    | none =>
      rw [List.getElem?_eq_none_iff] at hr
      simp only [List.length_reverse] at hr
      omega
    | some f => simp [hget 0 f hr]
  · have h2 : s1.frames.map frame_state_t.frames_ago = (List.range s1.frames.length).reverse := by
      rw [← hA, List.map_reverse, List.reverse_reverse]
    rw [h2, List.pairwise_reverse]
    exact List.pairwise_lt_range _

/-- C2 at the first update of a run. -/
theorem C2_window_ordering_witness :
    stateA.frames ≠ [] ∧
      (∀ (i : Nat) (f : frame_state_t ℚ), stateA.frames.reverse[i]? = some f →
        f.frames_ago = i) ∧
      (stateA.frames.getLast?.map frame_state_t.frames_ago = some 0) ∧
      (stateA.frames.map frame_state_t.frames_ago).Pairwise (fun a b => a > b) :=
  C2_window_ordering qlib 10 (emptyState 1 1) stateA [mA] 1 (-1) 2 100 0 (Reachable.init 1 1)
    update_emptyState_mA

/-! ## C3: acceptance rule -/

theorem reconstruct_eq_some_iff (lib : Lib F) (Tr_cam_road : Mat4 F)
    (frames : List (frame_state_t F)) (popped : Nat) (point_type : Int) (max_dist min_angle : F)
    (t : track F) (q : Point3d F) :
    reconstruct lib Tr_cam_road frames popped point_type max_dist min_angle t = some (some q) ↔
      ∃ p0, initPoint lib frames popped t = some (some p0) ∧
        (∃ ty, pointType Tr_cam_road frames popped t p0 = some ty ∧ point_type ≤ ty) ∧
        (∃ n, refinePoint lib frames popped t p0 = some (true, q, n)) ∧
        (∃ d, pointDistance lib frames popped t q = some d ∧ d < max_dist) ∧
        (∃ a, rayAngle lib frames popped t q = some a ∧ min_angle < a) := by
  unfold reconstruct
  cases hi : initPoint lib frames popped t with
  | none => simp
  | some o =>
    cases o with
    | none => simp
    | some p0 =>
      cases hty : pointType Tr_cam_road frames popped t p0 with
      | none => simp [hty]
      | some ty =>
        by_cases hge : ty ≥ point_type
        · cases hr : refinePoint lib frames popped t p0 with
          | none => simp [hty, hge, hr]
          | some r =>
            obtain ⟨b, q1, n1⟩ := r
            cases b with
            | false => simp [hty, hge, hr]
            | true =>
              cases hd : pointDistance lib frames popped t q1 with
              | none =>
                simp only [hty, hge, hr, hd, Option.some.injEq, exists_eq_left', if_true]
                constructor
                · intro h; exact absurd h (by simp)
                · rintro ⟨_, ⟨n, hn⟩, ⟨d, hd2, _⟩, _⟩
                  simp only [Prod.mk.injEq, true_and] at hn
                  rw [← hn.1, hd] at hd2
                  exact absurd hd2 (by simp)
              | some d =>
                by_cases hlt : d < max_dist
                · cases ha : rayAngle lib frames popped t q1 with
                  | none =>
                    simp only [hty, hge, hr, hd, hlt, ha, Option.some.injEq, exists_eq_left',
                      if_true]
                    constructor
                    · intro h; exact absurd h (by simp)
                    · rintro ⟨_, ⟨n, hn⟩, _, ⟨a, ha2, _⟩⟩
                      simp only [Prod.mk.injEq, true_and] at hn
                      rw [← hn.1, ha] at ha2
                      exact absurd ha2 (by simp)
                  | some a =>
                    simp only [hty, hge, hr, hd, hlt, ha, Option.some.injEq, exists_eq_left',
                      if_true]
                    constructor
                    · intro h
                      split at h
                      · rename_i hgt
                        simp only [Option.some.injEq] at h
                        subst h
                        exact ⟨trivial, ⟨n1, rfl⟩, ⟨d, hd, hlt⟩, ⟨a, ha, hgt⟩⟩
                      · exact absurd h (by simp)
                    · rintro ⟨_, ⟨n, hn⟩, _, ⟨a2, ha2, hgt⟩⟩
                      simp only [Prod.mk.injEq, true_and] at hn
                      rw [← hn.1, ha] at ha2
                      simp only [Option.some.injEq] at ha2
                      subst ha2
                      rw [if_pos hgt, hn.1]
                · simp only [hty, hge, hr, hd, hlt, Option.some.injEq, exists_eq_left', if_true,
                    if_false]
                  constructor
                  · intro h; exact absurd h (by simp)
                  · rintro ⟨_, ⟨n, hn⟩, ⟨d2, hd2, hlt2⟩, _⟩
                    simp only [Prod.mk.injEq, true_and] at hn
                    rw [← hn.1, hd] at hd2
                    simp only [Option.some.injEq] at hd2
                    subst hd2
                    exact absurd hlt2 hlt
        · simp only [hty, hge, Option.some.injEq, exists_eq_left', if_false]
          constructor
          · intro h; exact absurd h (by simp)
          · rintro ⟨hge2, _⟩
            exact hge2.elim

theorem getMat34_one_apply (i : Fin 3) (j : Fin 4) :
    getMat34 (1 : Mat4 F) i j = if i.val = j.val then 1 else 0 := by
  simp [getMat34, Matrix.one_apply, Fin.ext_iff]

theorem initPoint_trackB1 : initPoint qlib framesB 0 trackB1 = some (some ⟨0, 0, 5⟩) := by
  simp [initPoint, deref, framesB, trackB1, trackB, initPointCore, qlib, abs_lt]
  norm_num

theorem pointType_trackB1 : pointType 1 framesB 0 trackB1 ⟨0, 0, 5⟩ = some 1 := by
  simp [pointType, deref, framesB, trackB1, trackB, qlib, affineTransform, pointTypeCore,
    ageFrame, newFrame, Matrix.one_apply]

theorem updatePoint_trackB1 :
    updatePoint qlib framesB 0 trackB1 ⟨0, 0, 5⟩ 1 (1 / 10 ^ 5) =
      some (result.CONVERGED, ⟨0, 0, 5⟩) := by
  simp +decide [updatePoint, deref, framesB, trackB1, trackB, qlib, ageFrame, newFrame,
    computePredictionsAndJacobian, predictFrame, getMat34_one_apply]
  norm_num

theorem refinePoint_trackB1 :
    refinePoint qlib framesB 0 trackB1 ⟨0, 0, 5⟩ = some (true, ⟨0, 0, 5⟩, 1) := by
  unfold refinePoint refineLoop
  simp only [updatePoint_trackB1]
  simp

theorem pointDistance_trackB1 : pointDistance qlib framesB 0 trackB1 ⟨0, 0, 5⟩ = some 0 := by
  simp [pointDistance, deref, framesB, trackB1, trackB, qlib, ageFrame, newFrame]

theorem rayAngle_trackB1 : rayAngle qlib framesB 0 trackB1 ⟨0, 0, 5⟩ = some 1000 := by
  simp [rayAngle, rayAngleCore, deref, framesB, trackB1, trackB, qlib]

theorem reconstruct_trackB1 :
    reconstruct qlib 1 framesB 0 (-1) 100 0 trackB1 = some (some ⟨0, 0, 5⟩) := by
  simp [reconstruct, initPoint_trackB1, pointType_trackB1, refinePoint_trackB1,
    pointDistance_trackB1, rayAngle_trackB1]

theorem sweep_trackB :
    sweep qlib 1 0 (-1) 2 100 0 [trackB] framesB [] =
      some ([], framesB0, [⟨0, 0, 5⟩], [trackB1]) := by
  have hfin : finalize qlib 1 framesB 0 (-1) 2 100 0 trackB = (trackB1, some (some ⟨0, 0, 5⟩)) := by
    have hb : backAddr framesB 0 = 1 := rfl
    have ht : ({ trackB with last_frame := some 1 } : track ℚ) = trackB1 := rfl
    simp [finalize, hb, ht, reconstruct_trackB1]
    simp [trackB]
  have hadd : addCount framesB 0 trackB1.first_frame (-1) = some framesB0 := by
    simp [addCount, framesB, framesB0, trackB1, trackB]
  unfold sweep
  rw [if_neg (by simp [trackB]), hfin]
  simp only
  rw [hadd]
  simp [sweep]

theorem triangulationMatrix_mulVec_homog (P1 P2 : Mat34 F) (X : Point3d F)
    (h1 : rowTerm P1 2 X ≠ 0) (h2 : rowTerm P2 2 X ≠ 0) :
    (triangulationMatrix P1 P2 (project P1 X) (project P2 X)).mulVec (homog X) = 0 := by
  funext i
  fin_cases i <;>
    simp [triangulationMatrix, Matrix.mulVec, Matrix.dotProduct, Fin.sum_univ_four, homog,
      project] <;>
    unfold rowTerm at h1 h2 ⊢ <;>
    field_simp <;>
    ring

theorem kernel_axis (z : ℚ) (hz : z ≠ 0) (y : Fin 4 → ℚ)
    (hy : (triangulationMatrix projOrigin projShifted (project projOrigin ⟨0, 0, z⟩)
      (project projShifted ⟨0, 0, z⟩)).mulVec y = 0) :
    y = y 3 • homog (⟨0, 0, z⟩ : Point3d ℚ) := by
  have e0 := congrFun hy 0
  have e1 := congrFun hy 1
  have e2 := congrFun hy 2
  simp [triangulationMatrix, Matrix.mulVec, Matrix.dotProduct, Fin.sum_univ_four, project,
    rowTerm, projOrigin, projShifted, Matrix.vecHead, Matrix.vecTail] at e0 e1 e2
  rw [e0] at e2
  have e3 : y 2 = y 3 * z := by
    field_simp at e2
    linarith
  funext i
  fin_cases i <;> simp [homog, e0, e1, e3]

/-- C4 (amended). If the first and last pixels of a track are the exact
projections of a point `X` through `P1` and `P2` (both depth terms non-zero),
the coefficient matrix built by `initPoint` annihilates `(X, 1)`.  If moreover
its null space is spanned by `(X, 1)` (rank 3) and the last column of the
factor `V` of its decomposition is a null vector, that column is a multiple of
`(X, 1)`; `initPoint` then returns exactly `X` when the homogeneous component
`w` of the column has magnitude at least `1e-10`, and fails when it is
smaller. -/
theorem C4_triangulation_roundtrip (lib : Lib F) (P1 P2 : Mat34 F) (X : Point3d F)
    (h1 : rowTerm P1 2 X ≠ 0) (h2 : rowTerm P2 2 X ≠ 0) :
    (triangulationMatrix P1 P2 (project P1 X) (project P2 X)).mulVec (homog X) = 0 ∧
      ((∀ y : Fin 4 → F,
          (triangulationMatrix P1 P2 (project P1 X) (project P2 X)).mulVec y = 0 →
            ∃ c : F, y = c • homog X) →
        (triangulationMatrix P1 P2 (project P1 X) (project P2 X)).mulVec
            (fun i => lib.svdV (triangulationMatrix P1 P2 (project P1 X) (project P2 X)) i 3)
          = 0 →
        (∃ c : F,
          (fun i => lib.svdV (triangulationMatrix P1 P2 (project P1 X) (project P2 X)) i 3)
            = c • homog X) ∧
        (1 / 10 ^ 10 ≤ |lib.svdV (triangulationMatrix P1 P2 (project P1 X) (project P2 X)) 3 3| →
          initPointCore lib P1 P2 (project P1 X) (project P2 X) = some X) ∧
        (|lib.svdV (triangulationMatrix P1 P2 (project P1 X) (project P2 X)) 3 3| < 1 / 10 ^ 10 →
          initPointCore lib P1 P2 (project P1 X) (project P2 X) = none)) := by
  refine ⟨triangulationMatrix_mulVec_homog P1 P2 X h1 h2, ?_⟩
  intro hker hsv
  obtain ⟨c, hc⟩ := hker _ hsv
  refine ⟨⟨c, hc⟩, ?_, ?_⟩
  · intro hw
    have c0 := congrFun hc 0
    have c1 := congrFun hc 1
    have c2 := congrFun hc 2
    have c3 := congrFun hc 3
    simp [homog] at c0 c1 c2 c3
    have hcne : c ≠ 0 := by
      intro h0
      rw [c3, h0, abs_zero] at hw
      have : (0 : F) < 1 / 10 ^ 10 := by positivity
      exact absurd hw (not_le.mpr this)
    unfold initPointCore
    simp only
    rw [if_neg (not_lt.mpr hw), c0, c1, c2, c3]
    congr 1
    rw [mul_div_cancel_left₀ _ hcne, mul_div_cancel_left₀ _ hcne, mul_div_cancel_left₀ _ hcne]
  · intro hw
    unfold initPointCore
    simp only
    rw [if_pos hw]

/-- C4 for the point `(0, 0, 5)` seen by a camera at the origin and by a camera
shifted sideways. -/
theorem C4_triangulation_roundtrip_witness :
    rowTerm projOrigin 2 (⟨0, 0, 5⟩ : Point3d ℚ) ≠ 0 ∧
      rowTerm projShifted 2 (⟨0, 0, 5⟩ : Point3d ℚ) ≠ 0 ∧
      (triangulationMatrix projOrigin projShifted (project projOrigin ⟨0, 0, 5⟩)
        (project projShifted ⟨0, 0, 5⟩)).mulVec (homog (⟨0, 0, 5⟩ : Point3d ℚ)) = 0 ∧
      initPointCore qlib projOrigin projShifted (project projOrigin ⟨0, 0, 5⟩)
        (project projShifted ⟨0, 0, 5⟩) = some ⟨0, 0, 5⟩ :=
  have h1 : rowTerm projOrigin 2 (⟨0, 0, 5⟩ : Point3d ℚ) ≠ 0 := by
    simp [rowTerm, projOrigin, Matrix.vecHead, Matrix.vecTail]
  have h2 : rowTerm projShifted 2 (⟨0, 0, 5⟩ : Point3d ℚ) ≠ 0 := by
    simp [rowTerm, projShifted, Matrix.vecHead, Matrix.vecTail]
  have h := C4_triangulation_roundtrip qlib projOrigin projShifted ⟨0, 0, 5⟩ h1 h2
  ⟨h1, h2, h.1,
    (h.2 (fun y hy => ⟨y 3, kernel_axis 5 (by norm_num) y hy⟩)
      (by
        funext i
        fin_cases i <;>
          simp [triangulationMatrix, Matrix.mulVec, Matrix.dotProduct, Fin.sum_univ_four,
            project, rowTerm, projOrigin, projShifted, qlib, Matrix.vecHead, Matrix.vecTail])).2.1
      (by simp [qlib]; norm_num)⟩

/-- C4 fails as stated: for a point about `2e10` away on the optical axis the
hypotheses of the claim hold (non-zero depth terms, exact pixels, a coefficient
matrix whose null space is spanned by `(X, 1)`, a unit null vector in the last
column of `V`), yet `initPoint` reports a point at infinity. -/
theorem C4_counterexample :
    rowTerm projOrigin 2 farPoint ≠ 0 ∧ rowTerm projShifted 2 farPoint ≠ 0 ∧
      (∀ y : Fin 4 → ℚ,
        (triangulationMatrix projOrigin projShifted (project projOrigin farPoint)
          (project projShifted farPoint)).mulVec y = 0 → ∃ c : ℚ, y = c • homog farPoint) ∧
      (triangulationMatrix projOrigin projShifted (project projOrigin farPoint)
          (project projShifted farPoint)).mulVec
        (fun i => farLib.svdV (triangulationMatrix projOrigin projShifted
          (project projOrigin farPoint) (project projShifted farPoint)) i 3) = 0 ∧
      (∑ i : Fin 4, (farLib.svdV (triangulationMatrix projOrigin projShifted
          (project projOrigin farPoint) (project projShifted farPoint)) i 3) ^ 2) = 1 ∧
      initPointCore farLib projOrigin projShifted (project projOrigin farPoint)
        (project projShifted farPoint) = none := by
  refine ⟨?_, ?_, ?_, ?_, ?_, ?_⟩
  · simp [rowTerm, projOrigin, farPoint, Matrix.vecHead, Matrix.vecTail]
    norm_num
  · simp [rowTerm, projShifted, farPoint, Matrix.vecHead, Matrix.vecTail]
    norm_num
  · intro y hy
    exact ⟨y 3, kernel_axis _ (by norm_num) y hy⟩
  · funext i
    fin_cases i <;>
      simp [triangulationMatrix, Matrix.mulVec, Matrix.dotProduct, Fin.sum_univ_four,
        project, rowTerm, projOrigin, projShifted, farLib, farPoint, Matrix.vecHead,
        Matrix.vecTail] <;>
      norm_num
  · simp [Fin.sum_univ_four, farLib]
    norm_num
  · simp [initPointCore, farLib, abs_lt]
    norm_num

/-! ## Lemmas: the refinement loop -/

theorem refineLoop_succ (step : Point3d F → Option (result × Point3d F)) (fuel iter : Nat)
    (p : Point3d F) :
    refineLoop step (fuel + 1) iter p =
      match step p with
      | none => none
      | some (r, q) =>
        if iter > 20 ∨ r = result.CONVERGED then some (r, q, iter + 1)
        else if r = result.UPDATED then refineLoop step fuel (iter + 1) q
        else some (r, q, iter + 1) := rfl

theorem refineLoop_fuel (step : Point3d F → Option (result × Point3d F)) (fuel iter : Nat)
    (p : Point3d F) (hi : iter ≤ 21) (hf : 22 ≤ fuel + iter) :
    refineLoop step (fuel + 1) iter p = refineLoop step fuel iter p := by
  induction fuel generalizing iter p with
  | zero => omega
  | succ fuel ih =>
    rw [refineLoop_succ step (fuel + 1), refineLoop_succ step fuel]
    cases step p with
    | none => rfl
    | some r =>
      obtain ⟨r, q⟩ := r
      simp only
      by_cases hc : iter > 20 ∨ r = result.CONVERGED
      · rw [if_pos hc, if_pos hc]
      · rw [if_neg hc, if_neg hc]
        by_cases hu : r = result.UPDATED
        · rw [if_pos hu, if_pos hu]
          have : ¬ iter > 20 := fun h => hc (Or.inl h)
          exact ih (iter + 1) q (by omega) (by omega)
        · rw [if_neg hu, if_neg hu]

theorem refineLoop_calls_le (step : Point3d F → Option (result × Point3d F)) (fuel iter : Nat)
    (p q : Point3d F) (r : result) (n : Nat) (hi : iter ≤ 21)
    (h : refineLoop step fuel iter p = some (r, q, n)) : n ≤ 22 := by
  induction fuel generalizing iter p with
  | zero =>
    simp only [refineLoop, Option.some.injEq, Prod.mk.injEq] at h
    omega
  | succ fuel ih =>
    rw [refineLoop_succ] at h
    cases hs : step p with
    | none => rw [hs] at h; exact absurd h (by simp)
    | some r1 =>
      obtain ⟨r1, q1⟩ := r1
      rw [hs] at h
      simp only at h
      by_cases hc : iter > 20 ∨ r1 = result.CONVERGED
      · rw [if_pos hc] at h
        simp only [Option.some.injEq, Prod.mk.injEq] at h
        omega
      · rw [if_neg hc] at h
        have hle : ¬ iter > 20 := fun h => hc (Or.inl h)
        by_cases hu : r1 = result.UPDATED
        · rw [if_pos hu] at h
          exact ih (iter + 1) q1 (by omega) h
        · rw [if_neg hu] at h
          simp only [Option.some.injEq, Prod.mk.injEq] at h
          omega

theorem refinePoint_calls_le (lib : Lib F) (frames : List (frame_state_t F)) (popped : Nat)
    (t : track F) (p q : Point3d F) (b : Bool) (n : Nat)
    (h : refinePoint lib frames popped t p = some (b, q, n)) : n ≤ 22 := by
  unfold refinePoint at h
  cases hl : refineLoop (fun x => updatePoint lib frames popped t x 1 (1 / 10 ^ 5)) 22 0 p with
  | none => rw [hl] at h; exact absurd h (by simp)
  | some r =>
    obtain ⟨r, q1, n1⟩ := r
    rw [hl] at h
    simp only [Option.some.injEq, Prod.mk.injEq] at h
    obtain ⟨_, _, rfl⟩ := h
    exact refineLoop_calls_le _ 22 0 p q1 r n1 (by omega) hl

theorem exactSolve_eq (A : Mat3 F) (v : Fin 3 → F) (hdet : A.det ≠ 0) :
    exactSolve A (A.mulVec v) = some v := by
  unfold exactSolve
  rw [if_neg hdet]
  congr 1
  rw [Matrix.mulVec_mulVec, Matrix.adjugate_mul, Matrix.smul_mulVec_assoc, Matrix.one_mulVec,
    smul_smul, inv_mul_cancel₀ hdet, one_smul]

/-! ## C6: tracks at the cap -/

theorem sweep_partition (lib : Lib F) (Tr_cam_road : Mat4 F) (popped : Nat)
    (point_type min_track_length : Int) (max_dist min_angle : F)
    (ts : List (track F)) (frames : List (frame_state_t F)) (points : List (Point3d F))
    {kept lost : List (track F)} {frames1 : List (frame_state_t F)} {points1 : List (Point3d F)}
    (h : sweep lib Tr_cam_road popped point_type min_track_length max_dist min_angle ts frames
      points = some (kept, frames1, points1, lost)) :
    kept = (ts.filter fun t => t.refreshed).map (fun t => { t with refreshed := false }) ∧
      lost = (ts.filter fun t => !t.refreshed).map
        (fun t => { t with last_frame := some (backAddr frames popped) }) := by
  induction ts generalizing frames points kept lost frames1 points1 with
  | nil =>
    simp only [sweep, Option.some.injEq, Prod.mk.injEq] at h
    obtain ⟨rfl, _, _, rfl⟩ := h
    exact ⟨rfl, rfl⟩
  | cons t ts ih =>
    unfold sweep at h
    split at h
    · rename_i href
      cases hs : sweep lib Tr_cam_road popped point_type min_track_length max_dist min_angle
          ts frames points with
      | none => rw [hs] at h; exact absurd h (by simp)
      | some r =>
        obtain ⟨k2, f2, p2, l2⟩ := r
        rw [hs] at h
        simp only [Option.some.injEq, Prod.mk.injEq] at h
        obtain ⟨rfl, _, _, rfl⟩ := h
        obtain ⟨hk, hl⟩ := ih frames points hs
        simp [href, hk, hl]
    · rename_i href
      split at h
      · exact absurd h (by simp)
      · rename_i t1 cand hfin
        have ht1 : t1 = { t with last_frame := some (backAddr frames popped) } := by
          have := congrArg Prod.fst hfin
          rw [finalize_fst] at this
          exact this.symm
        cases hfr : addCount frames popped t1.first_frame (-1) with
        | none => rw [hfr] at h; exact absurd h (by simp)
        | some fr1 =>
          rw [hfr] at h
          simp only at h
          cases hs : sweep lib Tr_cam_road popped point_type min_track_length max_dist min_angle
              ts fr1 (points ++ cand.toList) with
          | none => rw [hs] at h; exact absurd h (by simp)
          | some r =>
            obtain ⟨k2, f2, p2, l2⟩ := r
            rw [hs] at h
            simp only [Option.some.injEq, Prod.mk.injEq] at h
            obtain ⟨rfl, _, _, rfl⟩ := h
            obtain ⟨hk, hl⟩ := ih fr1 _ hs
            have hb : backAddr fr1 popped = backAddr frames popped := by
              unfold backAddr
              rw [addCount_length hfr]
            rw [hb] at hl
            simp [href, hk, hl, ht1]

theorem reachable_refreshed {lib : Lib F} {max_track_length : Nat} {s : Reconstruction F}
    (h : Reachable lib max_track_length s) : ∀ t ∈ s.tracks, t.refreshed = false := by
  cases h with
  | init K Tr => intro t ht; simp [emptyState] at ht
  | step p_matched rev_Tr point_type min_track_length max_dist min_angle _ hu =>
    unfold update at hu
    simp only [Option.map_eq_some', Prod.exists, exists_and_right, exists_eq_right] at hu
    obtain ⟨lost, hl⟩ := hu
    unfold updateLog at hl
    split at hl
    · exact absurd hl (by simp)
    · split at hl
      · exact absurd hl (by simp)
      · rename_i hsw
        simp only [Option.some.injEq, Prod.mk.injEq] at hl
        obtain ⟨rfl, _⟩ := hl
        obtain ⟨hk, _⟩ := sweep_partition _ _ _ _ _ _ _ _ _ _ hsw
        intro t ht
        simp only [hk, List.mem_map] at ht
        obtain ⟨t0, _, rfl⟩ := ht
        rfl

theorem reachable_stateA_cap2 : Reachable qlib 2 stateA :=
  Reachable.step [mA] 1 (-1) 2 100 0 (Reachable.init 1 1)
    (rfl : update qlib 2 (emptyState 1 1) [mA] 1 (-1) 2 100 0 = some stateA)

theorem prepare_stateA_mB :
    prepare qlib 2 stateA [mB] 1 = some ([trackB], framesB, 0, []) := rfl

theorem updateLog_stateA_mB :
    updateLog qlib 2 stateA [mB] 1 (-1) 2 100 0 = some (stateB, [trackB1]) := by
  unfold updateLog
  rw [prepare_stateA_mB]
  simp only
  rw [show stateA.Tr_cam_road = 1 from rfl, sweep_trackB]
  rfl

theorem pointTypeCore_bands (z1 z2 y : F) :
    (pointTypeCore z1 z2 y = -1 ↔ (z1 ≤ 1 ∨ z2 ≤ 1)) ∧
      (pointTypeCore z1 z2 y = 0 ↔ (1 < z1 ∧ 1 < z2 ∧ 1 / 2 < y)) ∧
      (pointTypeCore z1 z2 y = 1 ↔ (1 < z1 ∧ 1 < z2 ∧ -1 < y ∧ y ≤ 1 / 2)) ∧
      (pointTypeCore z1 z2 y = 2 ↔ (1 < z1 ∧ 1 < z2 ∧ y ≤ -1)) ∧
      (pointTypeCore z1 z2 y = -1 ∨ pointTypeCore z1 z2 y = 0 ∨ pointTypeCore z1 z2 y = 1 ∨
        pointTypeCore z1 z2 y = 2) := by
  have hhalf : (-1 : F) < 1 / 2 := by norm_num
  unfold pointTypeCore
  by_cases hz : z1 ≤ 1 ∨ z2 ≤ 1
  · have hnv : ∀ {P : Prop}, (1 < z1 ∧ 1 < z2 ∧ P) → False := by
      rintro P ⟨h1, h2, _⟩
      rcases hz with h | h
      · exact absurd h1 (not_lt.mpr h)
      · exact absurd h2 (not_lt.mpr h)
    rw [if_pos hz]
    refine ⟨⟨fun _ => hz, fun _ => rfl⟩, ⟨fun h => absurd h (by decide), fun h => (hnv h).elim⟩,
      ⟨fun h => absurd h (by decide), fun h => (hnv h).elim⟩,
      ⟨fun h => absurd h (by decide), fun h => (hnv h).elim⟩, Or.inl rfl⟩
  · rw [if_neg hz]
    have hv1 : 1 < z1 := not_le.mp fun h => hz (Or.inl h)
    have hv2 : 1 < z2 := not_le.mp fun h => hz (Or.inr h)
    by_cases h0 : y > 1 / 2
    · rw [if_pos h0]
      refine ⟨⟨fun h => absurd h (by decide), fun h => absurd h hz⟩,
        ⟨fun _ => ⟨hv1, hv2, h0⟩, fun _ => rfl⟩,
        ⟨fun h => absurd h (by decide), fun h => absurd h0 (not_lt.mpr h.2.2.2)⟩,
        ⟨fun h => absurd h (by decide),
          fun h => absurd (lt_of_lt_of_le h0 h.2.2) (not_lt.mpr hhalf.le)⟩,
        Or.inr (Or.inl rfl)⟩
    · rw [if_neg h0]
      by_cases h1 : y > -1
      · rw [if_pos h1]
        refine ⟨⟨fun h => absurd h (by decide), fun h => absurd h hz⟩,
          ⟨fun h => absurd h (by decide), fun h => absurd h.2.2 h0⟩,
          ⟨fun _ => ⟨hv1, hv2, h1, not_lt.mp h0⟩, fun _ => rfl⟩,
          ⟨fun h => absurd h (by decide), fun h => absurd h1 (not_lt.mpr h.2.2)⟩,
          Or.inr (Or.inr (Or.inl rfl))⟩
      · rw [if_neg h1]
        refine ⟨⟨fun h => absurd h (by decide), fun h => absurd h hz⟩,
          ⟨fun h => absurd h (by decide), fun h => absurd h.2.2 h0⟩,
          ⟨fun h => absurd h (by decide), fun h => absurd h.2.2.1 h1⟩,
          ⟨fun _ => ⟨hv1, hv2, not_lt.mp h1⟩, fun _ => rfl⟩,
          Or.inr (Or.inr (Or.inr rfl))⟩

/-- C7. For a track whose two frame pointers are valid, `pointType` returns
`-1` exactly when the depth of the point in the first-frame or in the
last-frame camera coordinates is at most 1; otherwise, with `y` the second
coordinate of the last-frame camera point mapped through `Tr_cam_road`, it
returns 0 when `y > 0.5`, 1 when `-1 < y <= 0.5` and 2 when `y <= -1`; it
returns no other value. -/
theorem C7_classification_bands (Tr_cam_road : Mat4 F) (frames : List (frame_state_t F))
    (popped : Nat) (t : track F) (p : Point3d F) (f1 f2 : frame_state_t F) (a2 : Nat)
    (h1 : deref frames popped t.first_frame = some f1) (hl : t.last_frame = some a2)
    (h2 : deref frames popped a2 = some f2) :
    ∃ ty : Int, pointType Tr_cam_road frames popped t p = some ty ∧
      (ty = -1 ↔ ((affineTransform f1.inv p).z ≤ 1 ∨ (affineTransform f2.inv p).z ≤ 1)) ∧
      (ty = 0 ↔ (1 < (affineTransform f1.inv p).z ∧ 1 < (affineTransform f2.inv p).z ∧
        1 / 2 < (affineTransform Tr_cam_road (affineTransform f2.inv p)).y)) ∧
      (ty = 1 ↔ (1 < (affineTransform f1.inv p).z ∧ 1 < (affineTransform f2.inv p).z ∧
        -1 < (affineTransform Tr_cam_road (affineTransform f2.inv p)).y ∧
        (affineTransform Tr_cam_road (affineTransform f2.inv p)).y ≤ 1 / 2)) ∧
      (ty = 2 ↔ (1 < (affineTransform f1.inv p).z ∧ 1 < (affineTransform f2.inv p).z ∧
        (affineTransform Tr_cam_road (affineTransform f2.inv p)).y ≤ -1)) ∧
      (ty = -1 ∨ ty = 0 ∨ ty = 1 ∨ ty = 2) := by
  refine ⟨pointTypeCore (affineTransform f1.inv p).z (affineTransform f2.inv p).z
    (affineTransform Tr_cam_road (affineTransform f2.inv p)).y, ?_, pointTypeCore_bands _ _ _⟩
  unfold pointType
  rw [h1, hl]
  simp only
  rw [h2]

/-- C7 for the finalized track `trackB1` in the window `framesB`. -/
theorem C7_classification_bands_witness :
    ∃ ty : Int, pointType 1 framesB 0 trackB1 ⟨0, 0, 5⟩ = some ty ∧
      (ty = -1 ↔ ((affineTransform (ageFrame qlib 1 1 (newFrame 1)).inv ⟨0, 0, 5⟩).z ≤ 1 ∨
        (affineTransform (newFrame (1 : Mat3 ℚ)).inv ⟨0, 0, 5⟩).z ≤ 1)) ∧
      (ty = 0 ↔ (1 < (affineTransform (ageFrame qlib 1 1 (newFrame 1)).inv ⟨0, 0, 5⟩).z ∧
        1 < (affineTransform (newFrame (1 : Mat3 ℚ)).inv ⟨0, 0, 5⟩).z ∧
        1 / 2 < (affineTransform 1 (affineTransform (newFrame (1 : Mat3 ℚ)).inv ⟨0, 0, 5⟩)).y)) ∧
      (ty = 1 ↔ (1 < (affineTransform (ageFrame qlib 1 1 (newFrame 1)).inv ⟨0, 0, 5⟩).z ∧
        1 < (affineTransform (newFrame (1 : Mat3 ℚ)).inv ⟨0, 0, 5⟩).z ∧
        -1 < (affineTransform 1 (affineTransform (newFrame (1 : Mat3 ℚ)).inv ⟨0, 0, 5⟩)).y ∧
        (affineTransform 1 (affineTransform (newFrame (1 : Mat3 ℚ)).inv ⟨0, 0, 5⟩)).y ≤ 1 / 2)) ∧
      (ty = 2 ↔ (1 < (affineTransform (ageFrame qlib 1 1 (newFrame 1)).inv ⟨0, 0, 5⟩).z ∧
        1 < (affineTransform (newFrame (1 : Mat3 ℚ)).inv ⟨0, 0, 5⟩).z ∧
        (affineTransform 1 (affineTransform (newFrame (1 : Mat3 ℚ)).inv ⟨0, 0, 5⟩)).y ≤ -1)) ∧
      (ty = -1 ∨ ty = 0 ∨ ty = 1 ∨ ty = 2) :=
  C7_classification_bands 1 framesB 0 trackB1 ⟨0, 0, 5⟩
    { ageFrame qlib 1 1 (newFrame 1) with track_count := 1 } (newFrame 1) 1 rfl rfl rfl

/-! ## C8: classification and height -/

theorem pointTypeCore_antitone (z1 z2 y z1' z2' y' : F) (hv : 1 < z1 ∧ 1 < z2)
    (hv' : 1 < z1' ∧ 1 < z2') (hy : y ≤ y') :
    pointTypeCore z1' z2' y' ≤ pointTypeCore z1 z2 y := by
  have hn : ¬ (z1 ≤ 1 ∨ z2 ≤ 1) := by
    rintro (h | h)
    · exact absurd hv.1 (not_lt.mpr h)
    · exact absurd hv.2 (not_lt.mpr h)
  have hn' : ¬ (z1' ≤ 1 ∨ z2' ≤ 1) := by
    rintro (h | h)
    · exact absurd hv'.1 (not_lt.mpr h)
    · exact absurd hv'.2 (not_lt.mpr h)
  unfold pointTypeCore
  rw [if_neg hn, if_neg hn']
  split_ifs with h1 h2 h3 h4 h5 h6 <;> first
    | decide
    | (exfalso; linarith)

theorem pointType_eq (Tr_cam_road : Mat4 F) (frames : List (frame_state_t F))
    (popped : Nat) (t : track F) (p : Point3d F) (f1 f2 : frame_state_t F) (a2 : Nat)
    (h1 : deref frames popped t.first_frame = some f1) (hl : t.last_frame = some a2)
    (h2 : deref frames popped a2 = some f2) :
    pointType Tr_cam_road frames popped t p =
      some (pointTypeCore (affineTransform f1.inv p).z (affineTransform f2.inv p).z
        (affineTransform Tr_cam_road (affineTransform f2.inv p)).y) := by
  unfold pointType
  rw [h1, hl]
  simp only
  rw [h2]

/-- C8 (amended). For a fixed camera-to-ground transform and two points that
are both visible in both end frames of a track (depth above 1), if the
ground-frame coordinate `y` that `pointType` buckets is at least as large for
the second point as for the first, the band `pointType` returns for the second
point is at most the band of the first: increasing `y` never increases the
band. -/
theorem C8_classification_antitone (Tr_cam_road : Mat4 F) (frames : List (frame_state_t F))
    (popped : Nat) (t : track F) (p p' : Point3d F) (f1 f2 : frame_state_t F) (a2 : Nat)
    (h1 : deref frames popped t.first_frame = some f1) (hl : t.last_frame = some a2)
    (h2 : deref frames popped a2 = some f2)
    (hv : 1 < (affineTransform f1.inv p).z ∧ 1 < (affineTransform f2.inv p).z)
    (hv' : 1 < (affineTransform f1.inv p').z ∧ 1 < (affineTransform f2.inv p').z)
    (hy : (affineTransform Tr_cam_road (affineTransform f2.inv p)).y ≤
      (affineTransform Tr_cam_road (affineTransform f2.inv p')).y) :
    ∃ ty ty' : Int, pointType Tr_cam_road frames popped t p = some ty ∧
      pointType Tr_cam_road frames popped t p' = some ty' ∧ ty' ≤ ty := by
  refine ⟨_, _, pointType_eq Tr_cam_road frames popped t p f1 f2 a2 h1 hl h2,
    pointType_eq Tr_cam_road frames popped t p' f1 f2 a2 h1 hl h2, ?_⟩
  exact pointTypeCore_antitone _ _ _ _ _ _ hv hv' hy

theorem affineTransform_one (p : Point3d F) : affineTransform 1 p = p := by
  simp [affineTransform, Matrix.one_apply]

theorem pointType_framesB (p : Point3d ℚ) :
    pointType 1 framesB 0 trackB1 p = some (pointTypeCore p.z p.z p.y) := by
  rw [pointType_eq 1 framesB 0 trackB1 p
    { ageFrame qlib 1 1 (newFrame 1) with track_count := 1 } (newFrame 1) 1 rfl rfl rfl]
  have e1 : ({ ageFrame qlib 1 1 (newFrame 1) with track_count := 1 } :
      frame_state_t ℚ).inv = 1 := by
    simp [ageFrame, newFrame, qlib]
  have e2 : (newFrame (1 : Mat3 ℚ)).inv = 1 := rfl
  rw [e1, e2, affineTransform_one, affineTransform_one]

/-- C8 (amended) for the points `(0, -2, 5)` and `(0, 1, 5)` seen by the track
`trackB1`. -/
theorem C8_classification_antitone_witness :
    ∃ ty ty' : Int, pointType 1 framesB 0 trackB1 ⟨0, -2, 5⟩ = some ty ∧
      pointType 1 framesB 0 trackB1 ⟨0, 1, 5⟩ = some ty' ∧ ty' ≤ ty :=
  have e1 : ({ ageFrame qlib 1 1 (newFrame 1) with track_count := 1 } :
      frame_state_t ℚ).inv = 1 := by
    simp [ageFrame, newFrame, qlib]
  have e2 : (newFrame (1 : Mat3 ℚ)).inv = 1 := rfl
  C8_classification_antitone 1 framesB 0 trackB1 ⟨0, -2, 5⟩ ⟨0, 1, 5⟩
    { ageFrame qlib 1 1 (newFrame 1) with track_count := 1 } (newFrame 1) 1 rfl rfl rfl
    (by rw [e1, e2, affineTransform_one]; norm_num)
    (by rw [e1, e2, affineTransform_one]; norm_num)
    (by simp only [e2, affineTransform_one]; norm_num)

/-- C8 fails as stated: the points `(0, -2, 5)` and `(0, 1, 5)` are visible in
both end frames of `trackB1` (depth 5), their ground-frame coordinates differ
in `y` only, which increases from -2 to 1, and the band returned by
`pointType` decreases from 2 (obstacle) to 0 (below ground). -/
theorem C8_counterexample :
    affineTransform 1 (affineTransform (newFrame (1 : Mat3 ℚ)).inv ⟨0, -2, 5⟩) = ⟨0, -2, 5⟩ ∧
      affineTransform 1 (affineTransform (newFrame (1 : Mat3 ℚ)).inv ⟨0, 1, 5⟩) = ⟨0, 1, 5⟩ ∧
      pointType 1 framesB 0 trackB1 ⟨0, -2, 5⟩ = some 2 ∧
      pointType 1 framesB 0 trackB1 ⟨0, 1, 5⟩ = some 0 := by
  have e2 : (newFrame (1 : Mat3 ℚ)).inv = 1 := rfl
  refine ⟨by rw [e2, affineTransform_one, affineTransform_one],
    by rw [e2, affineTransform_one, affineTransform_one], ?_, ?_⟩
  · rw [pointType_framesB]
    simp [pointTypeCore]
    norm_num
  · rw [pointType_framesB]
    simp [pointTypeCore]
    norm_num

/-! ## C9: parallel rays -/

theorem rayAngleCore_eq (lib : Lib F) (c1 c2 : Fin 3 → F) (p : Point3d F) :
    rayAngleCore lib c1 c2 p =
      if lib.sqrt (normSq (ray c1 p)) < 1 / 10 ^ 10 ∨ lib.sqrt (normSq (ray c2 p)) < 1 / 10 ^ 10
      then 1000
      else lib.acos |ray c1 p 0 / lib.sqrt (normSq (ray c1 p)) *
            (ray c2 p 0 / lib.sqrt (normSq (ray c2 p))) +
          ray c1 p 1 / lib.sqrt (normSq (ray c1 p)) *
            (ray c2 p 1 / lib.sqrt (normSq (ray c2 p))) +
          ray c1 p 2 / lib.sqrt (normSq (ray c1 p)) *
            (ray c2 p 2 / lib.sqrt (normSq (ray c2 p)))| * 180 / lib.pi := rfl

theorem normSq_nonneg (v : Fin 3 → F) : 0 ≤ normSq v := by
  unfold normSq
  nlinarith [mul_self_nonneg (v 0), mul_self_nonneg (v 1), mul_self_nonneg (v 2)]

theorem rayAngleCore_parallel (lib : Lib F) (hlib : MathOK lib) (c1 c2 : Fin 3 → F)
    (p : Point3d F) (k : F) (hpar : ∀ i, ray c1 p i = k * ray c2 p i)
    (hn1 : 1 / 10 ^ 10 ≤ lib.sqrt (normSq (ray c1 p)))
    (hn2 : 1 / 10 ^ 10 ≤ lib.sqrt (normSq (ray c2 p))) :
    rayAngleCore lib c1 c2 p = 0 := by
  have heps : (0 : F) < 1 / 10 ^ 10 := by positivity
  obtain ⟨hsqrt, hacos⟩ := hlib
  have h1 := (hsqrt _ (normSq_nonneg (ray c1 p))).2
  have h2 := (hsqrt _ (normSq_nonneg (ray c2 p))).2
  have hs1 : normSq (ray c1 p) = k * k * normSq (ray c2 p) := by
    unfold normSq
    rw [hpar 0, hpar 1, hpar 2]
    ring
  rw [rayAngleCore_eq, if_neg (by
    rintro (h | h)
    · exact absurd h (not_lt.mpr hn1)
    · exact absurd h (not_lt.mpr hn2))]
  generalize lib.sqrt (normSq (ray c1 p)) = n1 at *
  generalize lib.sqrt (normSq (ray c2 p)) = n2 at *
  have hp1 : 0 < n1 := lt_of_lt_of_le heps hn1
  have hp2 : 0 < n2 := lt_of_lt_of_le heps hn2
  have hdot : ray c1 p 0 / n1 * (ray c2 p 0 / n2) + ray c1 p 1 / n1 * (ray c2 p 1 / n2) +
      ray c1 p 2 / n1 * (ray c2 p 2 / n2) = k * normSq (ray c2 p) / (n1 * n2) := by
    rw [hpar 0, hpar 1, hpar 2]
    unfold normSq
    field_simp
    ring
  have hsq : (k * normSq (ray c2 p) / (n1 * n2)) ^ 2 = 1 ^ 2 := by
    rw [div_pow, mul_pow]
    have e1 : (n1 * n2) ^ 2 = (n1 * n1) * (n2 * n2) := by ring
    rw [e1, h1, h2, hs1]
    have hne : k * k * normSq (ray c2 p) * normSq (ray c2 p) ≠ 0 := by
      rw [← hs1, ← h1, ← h2]
      positivity
    rw [one_pow, div_eq_one_iff_eq hne]
    ring
  rw [hdot, (sq_eq_sq_iff_abs_eq_abs _ _).mp hsq, abs_one, hacos]
  simp

/-- C9 (amended). For a finalized track and a candidate point `q` whose two
viewing rays (from `q` to the camera centres of the first and of the last
frame) are parallel and both at least `1e-10` long, `rayAngle` is 0 and the
candidate `q` is not stored for any minimum parallax angle `min_angle >= 0`,
whatever the other stages return.  (The library is assumed to compute the
square root of a non-negative number and `acos 1 = 0`.) -/
theorem C9_degenerate_rejection (lib : Lib F) (Tr_cam_road : Mat4 F)
    (frames : List (frame_state_t F)) (popped : Nat) (point_type : Int) (max_dist min_angle : F)
    (t : track F) (q : Point3d F) (f1 f2 : frame_state_t F) (a2 : Nat) (k : F)
    (hlib : MathOK lib)
    (h1 : deref frames popped t.first_frame = some f1) (hl : t.last_frame = some a2)
    (h2 : deref frames popped a2 = some f2)
    (hpar : ∀ i, ray (translation f1.fwd) q i = k * ray (translation f2.fwd) q i)
    (hn1 : 1 / 10 ^ 10 ≤ lib.sqrt (normSq (ray (translation f1.fwd) q)))
    (hn2 : 1 / 10 ^ 10 ≤ lib.sqrt (normSq (ray (translation f2.fwd) q)))
    (hmin : 0 ≤ min_angle) :
    rayAngle lib frames popped t q = some 0 ∧
      reconstruct lib Tr_cam_road frames popped point_type max_dist min_angle t ≠
        some (some q) := by
  have hra : rayAngle lib frames popped t q = some 0 := by
    unfold rayAngle
    rw [h1, hl]
    simp only
    rw [h2]
    simp only
    rw [rayAngleCore_parallel lib hlib _ _ q k hpar hn1 hn2]
  refine ⟨hra, ?_⟩
  intro hrec
  obtain ⟨_, _, _, _, _, a, ha, hlt⟩ :=
    (reconstruct_eq_some_iff lib Tr_cam_road frames popped point_type max_dist min_angle t q).mp
      hrec
  rw [hra] at ha
  simp only [Option.some.injEq] at ha
  subst ha
  exact absurd hlt (not_lt.mpr hmin)

theorem mathOK_realMath : MathOK realMath :=
  ⟨fun x hx => ⟨Real.sqrt_nonneg x, Real.mul_self_sqrt hx⟩, Real.arccos_one⟩

theorem ray_shiftZ (d : ℝ) (p : Point3d ℝ) :
    ray (translation (shiftZ d)) p = ![-p.x, -p.y, d - p.z] := by
  funext i
  fin_cases i <;> simp +decide [ray, translation, shiftZ]

/-- C9 (amended) over the reals: the older camera at `(0, 0, 1)`, the newest at
the origin, the candidate `(0, 0, 5)` on the common optical axis. -/
theorem C9_degenerate_rejection_witness :
    rayAngle realMath (framesAxis 1 0) 0 trackAxis ⟨0, 0, 5⟩ = some 0 ∧
      reconstruct realMath 1 (framesAxis 1 0) 0 (-1) 100 0 trackAxis ≠ some (some ⟨0, 0, 5⟩) :=
  C9_degenerate_rejection realMath 1 (framesAxis 1 0) 0 (-1) 100 0 trackAxis ⟨0, 0, 5⟩
    { fwd := shiftZ 1, inv := shiftZ (-1), proj := getMat34 (shiftZ (-1)), frames_ago := 1,
      track_count := 1 }
    { fwd := shiftZ 0, inv := shiftZ (-0), proj := getMat34 (shiftZ (-0)), frames_ago := 0,
      track_count := 0 }
    1 (4 / 5) mathOK_realMath rfl rfl rfl
    (by
      intro i
      simp only [ray_shiftZ]
      fin_cases i <;> simp <;> norm_num)
    (by
      simp only [ray_shiftZ, realMath]
      rw [Real.le_sqrt' (by positivity)]
      simp [normSq]
      norm_num)
    (by
      simp only [ray_shiftZ, realMath]
      rw [Real.le_sqrt' (by positivity)]
      simp [normSq]
      norm_num)
    le_rfl

/-- C9 fails as stated: over the reals, with camera centres `2e-11` and `1e-11`
away from the candidate point on one line through it, the two rays are
parallel and non-zero, yet `rayAngle` is the sentinel 1000, not 0, which passes
the parallax test for `min_angle = 0`. -/
theorem C9_counterexample :
    (∀ i, ray (translation (shiftZ (2 / 10 ^ 11 : ℝ))) ⟨0, 0, 0⟩ i =
        2 * ray (translation (shiftZ (1 / 10 ^ 11 : ℝ))) ⟨0, 0, 0⟩ i) ∧
      ray (translation (shiftZ (1 / 10 ^ 11 : ℝ))) ⟨0, 0, 0⟩ 2 ≠ 0 ∧
      rayAngle realMath (framesAxis (2 / 10 ^ 11) (1 / 10 ^ 11)) 0 trackAxis ⟨0, 0, 0⟩ =
        some 1000 ∧
      (1000 : ℝ) > 0 := by
  refine ⟨?_, ?_, ?_, by norm_num⟩
  · intro i
    simp only [ray_shiftZ]
    fin_cases i <;> simp
    norm_num
  · simp only [ray_shiftZ]
    simp
  · have hd : deref (framesAxis (2 / 10 ^ 11 : ℝ) (1 / 10 ^ 11)) 0
        (trackAxis : track ℝ).first_frame =
        some { fwd := shiftZ (2 / 10 ^ 11), inv := shiftZ (-(2 / 10 ^ 11)),
               proj := getMat34 (shiftZ (-(2 / 10 ^ 11))), frames_ago := 1,
               track_count := 1 } := rfl
    have hd2 : deref (framesAxis (2 / 10 ^ 11 : ℝ) (1 / 10 ^ 11)) 0 1 =
        some { fwd := shiftZ (1 / 10 ^ 11), inv := shiftZ (-(1 / 10 ^ 11)),
               proj := getMat34 (shiftZ (-(1 / 10 ^ 11))), frames_ago := 0,
               track_count := 0 } := rfl
    unfold rayAngle
    rw [hd, show (trackAxis : track ℝ).last_frame = some 1 from rfl]
    simp only
    rw [hd2]
    simp only
    rw [rayAngleCore_eq, if_pos]
    left
    simp only [ray_shiftZ, realMath]
    rw [Real.sqrt_lt' (by positivity)]
    simp [normSq]
    norm_num

/-! ## Lemmas: the three-cycle scenario -/

theorem modify_length_append (g : frame_state_t F → frame_state_t F)
    (l : List (frame_state_t F)) (f : frame_state_t F) :
    List.modify g l.length (l ++ [f]) = l ++ [g f] := by
  induction l with
  | nil => rfl
  | cons a l ih => simp [List.modify_succ_cons, ih]

theorem addCount_back (l : List (frame_state_t F)) (f : frame_state_t F) (popped : Nat)
    (d : Int) :
    addCount (l ++ [f]) popped (backAddr (l ++ [f]) popped) d =
      some (l ++ [{ f with track_count := f.track_count + d }]) := by
  have hb : backAddr (l ++ [f]) popped = popped + l.length := by
    unfold backAddr
    simp
  unfold addCount
  rw [hb, if_pos (by simp)]
  simp only [Nat.add_sub_cancel_left]
  rw [modify_length_append]

theorem foldl_max_le (l : List (track F)) (a : Int) :
    a ≤ l.foldl (fun acc t => if t.last_idx > acc then t.last_idx else acc) a ∧
      ∀ t ∈ l, t.last_idx ≤
        l.foldl (fun acc t => if t.last_idx > acc then t.last_idx else acc) a := by
  induction l generalizing a with
  | nil => simp
  | cons t l ih =>
    simp only [List.foldl_cons, List.mem_cons]
    obtain ⟨h1, h2⟩ := ih (if t.last_idx > a then t.last_idx else a)
    by_cases hc : t.last_idx > a
    · simp only [hc, if_true] at h1 h2 ⊢
      constructor
      · omega
      · rintro x (rfl | hx)
        · exact h1
        · exact h2 x hx
    · simp only [hc, if_false] at h1 h2 ⊢
      constructor
      · exact h1
      · rintro x (rfl | hx)
        · omega
        · exact h2 x hx

theorem track_idx_max_single (m : p_match F) (ts : List (track F)) :
    m.i1p ≤ track_idx_max [m] ts ∧ 0 ≤ track_idx_max [m] ts ∧
      ∀ t ∈ ts, t.last_idx ≤ track_idx_max [m] ts := by
  unfold track_idx_max
  simp only [List.foldl_cons, List.foldl_nil]
  obtain ⟨h1, h2⟩ := foldl_max_le ts (if m.i1p > 0 then m.i1p else 0)
  refine ⟨?_, ?_, h2⟩
  · by_cases hc : m.i1p > 0
    · simp only [hc, if_true] at h1 ⊢
      exact h1
    · simp only [hc, if_false] at h1 ⊢
      omega
  · by_cases hc : m.i1p > 0
    · simp only [hc, if_true] at h1 ⊢
      omega
    · simp only [hc, if_false] at h1 ⊢
      exact h1

theorem build_track_map_nil (m : p_match F) :
    ∃ track_map, build_track_map [m] ([] : List (track F)) = some track_map ∧
      track_map[m.i1p.toNat]? = some none := by
  obtain ⟨h1, h2, _⟩ := track_idx_max_single m ([] : List (track F))
  refine ⟨_, rfl, ?_⟩
  rw [List.getElem?_replicate, if_pos]
  omega

theorem build_track_map_one (m : p_match F) (t : track F) (hm : 0 ≤ m.i1p)
    (ht : 0 ≤ t.last_idx) (hne : m.i1p ≠ t.last_idx) :
    ∃ track_map, build_track_map [m] [t] = some track_map ∧
      track_map[m.i1p.toNat]? = some none := by
  obtain ⟨h1, h2, h3⟩ := track_idx_max_single m [t]
  have h4 := h3 t (List.mem_singleton.mpr rfl)
  unfold build_track_map fill_track_map
  rw [if_pos ⟨ht, by simp only [List.length_replicate]; omega⟩]
  refine ⟨_, rfl, ?_⟩
  rw [List.getElem?_set_ne (by omega), List.getElem?_replicate, if_pos]
  omega

theorem prepare_create (lib : Lib F) (max_track_length : Nat) (s : Reconstruction F)
    (m : p_match F) (rev_Tr : Mat4 F) (track_map : List (Option Nat))
    (hmap : build_track_map [m] s.tracks = some track_map)
    (hlook : track_map[m.i1p.toNat]? = some none) (hm : 0 ≤ m.i1p) :
    prepare lib max_track_length s [m] rev_Tr =
      some (s.tracks ++ [extendTrack max_track_length m
          (freshTrack ((evict s.frames s.popped).1.map (ageFrame lib s.K rev_Tr) ++ [newFrame s.K])
            (evict s.frames s.popped).2 m)],
        (evict s.frames s.popped).1.map (ageFrame lib s.K rev_Tr) ++
          [{ newFrame s.K with track_count := (newFrame s.K).track_count + 1 }],
        (evict s.frames s.popped).2, s.points.map (affineTransform rev_Tr)) := by
  unfold prepare
  simp only
  rw [hmap]
  simp only [associate, associateStep]
  rw [if_pos hm, hlook]
  simp only
  rw [addCount_back]

theorem scenario_cycle1 (lib : Lib F) (K : Mat3 F) (Tr_cam_road : Mat4 F)
    (max_track_length : Nat) (m : p_match F) (point_type min_track_length : Int)
    (max_dist min_angle : F)
    (hcap : 2 ≤ max_track_length) (ha : 0 ≤ m.i1p) :
    updateLog lib max_track_length (emptyState K Tr_cam_road) [m] 1 point_type min_track_length
      max_dist min_angle = some (scenarioState1 K Tr_cam_road m, []) := by
  obtain ⟨track_map, hmap, hlook⟩ := build_track_map_nil m
  unfold updateLog
  rw [prepare_create lib max_track_length (emptyState K Tr_cam_road) m 1 track_map hmap hlook ha]
  have h1 : 1 < max_track_length := by omega
  simp [emptyState, evict, sweep, extendTrack, freshTrack, backAddr, h1, scenarioState1,
    scenarioTrack, newFrame]

theorem scenario_cycle2 (lib : Lib F) (K : Mat3 F) (Tr_cam_road : Mat4 F)
    (max_track_length : Nat) (m : p_match F) (point_type : Int) (max_dist min_angle : F)
    (hcap : 2 ≤ max_track_length) (ha : 0 ≤ m.i1p) (hb : 0 ≤ m.i1c) (hab : m.i1p ≠ m.i1c) :
    updateLog lib max_track_length (scenarioState1 K Tr_cam_road m) [m] 1 point_type 2
        max_dist min_angle =
      (reconstruct lib Tr_cam_road (scenarioWindow lib K) 0 point_type max_dist min_angle
        (scenarioTrack m 0 (some 1))).map
        fun c2 => (scenarioState2 lib K Tr_cam_road m c2, [scenarioTrack m 0 (some 1)]) := by
  obtain ⟨track_map, hmap, hlook⟩ :=
    build_track_map_one m (scenarioTrack m 0 none) ha hb hab
  unfold updateLog
  rw [prepare_create lib max_track_length (scenarioState1 K Tr_cam_road m) m 1 track_map hmap
    hlook ha]
  have h1 : 1 < max_track_length := by omega
  have hev : evict (scenarioState1 K Tr_cam_road m).frames (scenarioState1 K Tr_cam_road m).popped
      = ([{ newFrame K with track_count := 1 }], 0) := by
    simp [scenarioState1, evict]
  rw [hev]
  have hw : List.map (ageFrame lib (scenarioState1 K Tr_cam_road m).K 1)
        ([{ newFrame K with track_count := 1 }], 0).1 ++
      [{ newFrame (scenarioState1 K Tr_cam_road m).K with
          track_count := (newFrame (scenarioState1 K Tr_cam_road m).K).track_count + 1 }] =
      scenarioWindow lib K := by
    simp [scenarioWindow, scenarioState1, newFrame]
  rw [hw]
  simp only [scenarioState1, List.singleton_append, List.map_nil]
  unfold sweep
  rw [if_neg (by simp [scenarioTrack])]
  have hfin : finalize lib Tr_cam_road (scenarioWindow lib K) 0 point_type 2 max_dist min_angle
      (scenarioTrack m 0 none) =
      (scenarioTrack m 0 (some 1), reconstruct lib Tr_cam_road (scenarioWindow lib K) 0
        point_type max_dist min_angle (scenarioTrack m 0 (some 1))) := by
    simp [finalize, scenarioTrack, backAddr, scenarioWindow]
  rw [hfin]
  cases hrec : reconstruct lib Tr_cam_road (scenarioWindow lib K) 0 point_type max_dist min_angle
      (scenarioTrack m 0 (some 1)) with
  | none => rfl
  | some c2 =>
    have hadd : addCount (scenarioWindow lib K) 0 (scenarioTrack m 0 (some 1)).first_frame (-1) =
        some (scenarioWindowAfter lib K) := by
      simp [addCount, scenarioWindow, scenarioWindowAfter, scenarioTrack, ageFrame]
    simp only [hadd, Option.map_some']
    simp [sweep, extendTrack, freshTrack, backAddr, h1, scenarioState2, scenarioTrack, newFrame,
      scenarioWindow]

theorem scenario_cycle3 (lib : Lib F) (K : Mat3 F) (Tr_cam_road : Mat4 F)
    (max_track_length : Nat) (m m3 : p_match F) (point_type : Int) (max_dist min_angle : F)
    (c2 : Option (Point3d F))
    (hcap : 2 ≤ max_track_length) (ha : 0 ≤ m.i1p) (hb : 0 ≤ m.i1c) (hab : m.i1p ≠ m.i1c)
    (h3 : m3.i1p = m.i1p) :
    updateLog lib max_track_length (scenarioState2 lib K Tr_cam_road m c2) [m3] 1 point_type 2
        max_dist min_angle =
      (reconstruct lib Tr_cam_road (scenarioWindow lib K) 1 point_type max_dist min_angle
        (scenarioTrack m 1 (some 2))).map
        fun c3 => (scenarioState3 lib K Tr_cam_road m3 c2 c3, [scenarioTrack m 1 (some 2)]) := by
  obtain ⟨track_map, hmap, hlook⟩ :=
    build_track_map_one m3 (scenarioTrack m 1 none) (h3 ▸ ha) hb (h3 ▸ hab)
  unfold updateLog
  rw [prepare_create lib max_track_length (scenarioState2 lib K Tr_cam_road m c2) m3 1 track_map
    hmap hlook (h3 ▸ ha)]
  have h1 : 1 < max_track_length := by omega
  have hev : evict (scenarioState2 lib K Tr_cam_road m c2).frames
      (scenarioState2 lib K Tr_cam_road m c2).popped
      = ([{ newFrame K with track_count := 1 }], 1) := by
    simp [scenarioState2, scenarioWindowAfter, evict]
  rw [hev]
  have hw : List.map (ageFrame lib (scenarioState2 lib K Tr_cam_road m c2).K 1)
        ([{ newFrame K with track_count := 1 }], 1).1 ++
      [{ newFrame (scenarioState2 lib K Tr_cam_road m c2).K with
          track_count := (newFrame (scenarioState2 lib K Tr_cam_road m c2).K).track_count + 1 }] =
      scenarioWindow lib K := by
    simp [scenarioWindow, scenarioState2, newFrame]
  rw [hw]
  simp only [scenarioState2, List.singleton_append, List.map_nil]
  unfold sweep
  rw [if_neg (by simp [scenarioTrack])]
  have hfin : finalize lib Tr_cam_road (scenarioWindow lib K) 1 point_type 2 max_dist min_angle
      (scenarioTrack m 1 none) =
      (scenarioTrack m 1 (some 2), reconstruct lib Tr_cam_road (scenarioWindow lib K) 1
        point_type max_dist min_angle (scenarioTrack m 1 (some 2))) := by
    simp [finalize, scenarioTrack, backAddr, scenarioWindow]
  rw [hfin]
  cases hrec : reconstruct lib Tr_cam_road (scenarioWindow lib K) 1 point_type max_dist min_angle
      (scenarioTrack m 1 (some 2)) with
  | none => rfl
  | some c3 =>
    have hadd : addCount (scenarioWindow lib K) 1 (scenarioTrack m 1 (some 2)).first_frame (-1) =
        some (scenarioWindowAfter lib K) := by
      simp [addCount, scenarioWindow, scenarioWindowAfter, scenarioTrack, ageFrame]
    simp only [hadd, Option.map_some']
    simp [sweep, extendTrack, freshTrack, backAddr, h1, scenarioState3, scenarioTrack, newFrame,
      scenarioWindow]

theorem initPoint_scenario (p : Nat) :
    initPoint qlib (scenarioWindow qlib 1) p (scenarioTrack mA p (some (p + 1))) =
      some (some ⟨0, 0, 5⟩) := by
  simp [initPoint, deref, scenarioWindow, scenarioTrack, initPointCore, qlib, abs_lt]
  norm_num

theorem pointType_scenario (p : Nat) :
    pointType 1 (scenarioWindow qlib 1) p (scenarioTrack mA p (some (p + 1))) ⟨0, 0, 5⟩ =
      some 1 := by
  simp [pointType, deref, scenarioWindow, scenarioTrack, qlib, affineTransform, pointTypeCore,
    ageFrame, newFrame, Matrix.one_apply]

theorem updatePoint_scenario (p : Nat) :
    updatePoint qlib (scenarioWindow qlib 1) p (scenarioTrack mA p (some (p + 1))) ⟨0, 0, 5⟩ 1
      (1 / 10 ^ 5) = some (result.CONVERGED, ⟨0, 0, 5⟩) := by
  simp +decide [updatePoint, deref, scenarioWindow, scenarioTrack, qlib, ageFrame, newFrame,
    computePredictionsAndJacobian, predictFrame, getMat34_one_apply]
  norm_num

theorem refinePoint_scenario (p : Nat) :
    refinePoint qlib (scenarioWindow qlib 1) p (scenarioTrack mA p (some (p + 1))) ⟨0, 0, 5⟩ =
      some (true, ⟨0, 0, 5⟩, 1) := by
  unfold refinePoint refineLoop
  simp only [updatePoint_scenario]
  simp

theorem pointDistance_scenario (p : Nat) :
    pointDistance qlib (scenarioWindow qlib 1) p (scenarioTrack mA p (some (p + 1))) ⟨0, 0, 5⟩ =
      some 0 := by
  simp [pointDistance, deref, scenarioWindow, scenarioTrack, qlib, ageFrame, newFrame]

theorem rayAngle_scenario (p : Nat) :
    rayAngle qlib (scenarioWindow qlib 1) p (scenarioTrack mA p (some (p + 1))) ⟨0, 0, 5⟩ =
      some 1000 := by
  simp [rayAngle, rayAngleCore, deref, scenarioWindow, scenarioTrack, qlib]

theorem reconstruct_scenario (p : Nat) :
    reconstruct qlib 1 (scenarioWindow qlib 1) p (-1) 100 0 (scenarioTrack mA p (some (p + 1))) =
      some (some ⟨0, 0, 5⟩) := by
  simp [reconstruct, initPoint_scenario, pointType_scenario, refinePoint_scenario,
    pointDistance_scenario, rayAngle_scenario]

/-! ## C11: the point store -/

theorem prepare_points {lib : Lib F} {max_track_length : Nat} {s : Reconstruction F}
    {p_matched : List (p_match F)} {rev_Tr : Mat4 F} {tracks1 : List (track F)}
    {frames1 : List (frame_state_t F)} {popped : Nat} {points : List (Point3d F)}
    (h : prepare lib max_track_length s p_matched rev_Tr = some (tracks1, frames1, popped, points)) :
    points = s.points.map (affineTransform rev_Tr) ∧ popped = (evict s.frames s.popped).2 := by
  unfold prepare at h
  simp only at h
  split at h
  · exact absurd h (by simp)
  · split at h
    · exact absurd h (by simp)
    · simp only [Option.some.injEq, Prod.mk.injEq] at h
      obtain ⟨_, _, rfl, rfl⟩ := h
      exact ⟨rfl, rfl⟩

theorem sweep_points_append (lib : Lib F) (Tr_cam_road : Mat4 F) (popped : Nat)
    (point_type min_track_length : Int) (max_dist min_angle : F)
    (ts : List (track F)) (frames : List (frame_state_t F)) (points : List (Point3d F))
    {kept lost : List (track F)} {frames1 : List (frame_state_t F)} {points1 : List (Point3d F)}
    (h : sweep lib Tr_cam_road popped point_type min_track_length max_dist min_angle ts frames
      points = some (kept, frames1, points1, lost)) :
    ∃ added : List (Point3d F), points1 = points ++ added ∧ added.length ≤ lost.length := by
  induction ts generalizing frames points kept lost frames1 points1 with
  | nil =>
    simp only [sweep, Option.some.injEq, Prod.mk.injEq] at h
    obtain ⟨_, _, rfl, rfl⟩ := h
    exact ⟨[], by simp, le_refl _⟩
  | cons t ts ih =>
    unfold sweep at h
    split at h
    · cases hs : sweep lib Tr_cam_road popped point_type min_track_length max_dist min_angle
          ts frames points with
      | none => rw [hs] at h; exact absurd h (by simp)
      | some r =>
        obtain ⟨k2, f2, p2, l2⟩ := r
        rw [hs] at h
        simp only [Option.some.injEq, Prod.mk.injEq] at h
        obtain ⟨_, _, rfl, rfl⟩ := h
        exact ih frames points hs
    · split at h
      · exact absurd h (by simp)
      · rename_i t1 cand hfin
        cases hfr : addCount frames popped t1.first_frame (-1) with
        | none => rw [hfr] at h; exact absurd h (by simp)
        | some fr1 =>
          rw [hfr] at h
          simp only at h
          cases hs : sweep lib Tr_cam_road popped point_type min_track_length max_dist min_angle
              ts fr1 (points ++ cand.toList) with
          | none => rw [hs] at h; exact absurd h (by simp)
          | some r =>
            obtain ⟨k2, f2, p2, l2⟩ := r
            rw [hs] at h
            simp only [Option.some.injEq, Prod.mk.injEq] at h
            obtain ⟨_, _, rfl, rfl⟩ := h
            obtain ⟨added, hadd, hlen⟩ := ih fr1 _ hs
            refine ⟨cand.toList ++ added, by rw [hadd, List.append_assoc], ?_⟩
            have : cand.toList.length ≤ 1 := by cases cand <;> simp
            simp only [List.length_append, List.length_cons]
            omega

/-- C11. An `update` with motion `rev_Tr` on a store of `n` points leaves a
store of at least `n` points whose first `n` points are `affineTransform rev_Tr`
of the old points, in the same order; the points accepted in the cycle follow
them, at most one for each finalized track.  No stored point is removed or
estimated again. -/
theorem C11_point_store (lib : Lib F) (max_track_length : Nat) (s s1 : Reconstruction F)
    (p_matched : List (p_match F)) (rev_Tr : Mat4 F) (point_type min_track_length : Int)
    (max_dist min_angle : F) (lost : List (track F))
    (hu : updateLog lib max_track_length s p_matched rev_Tr point_type min_track_length max_dist
      min_angle = some (s1, lost)) :
    s.points.length ≤ s1.points.length ∧
      (∀ (i : Nat) (p : Point3d F), s.points[i]? = some p →
        s1.points[i]? = some (affineTransform rev_Tr p)) ∧
      ∃ added : List (Point3d F),
        s1.points = s.points.map (affineTransform rev_Tr) ++ added ∧
          added.length ≤ lost.length := by
  unfold updateLog at hu
  cases hp : prepare lib max_track_length s p_matched rev_Tr with
  | none => rw [hp] at hu; exact absurd hu (by simp)
  | some r =>
    obtain ⟨tracks1, frames1, popped, points⟩ := r
    rw [hp] at hu
    simp only at hu
    cases hsw : sweep lib s.Tr_cam_road popped point_type min_track_length
        max_dist min_angle tracks1 frames1 points with
    | none => rw [hsw] at hu; exact absurd hu (by simp)
    | some r =>
      obtain ⟨kept, frames2, points2, lost2⟩ := r
      rw [hsw] at hu
      simp only [Option.some.injEq, Prod.mk.injEq] at hu
      obtain ⟨rfl, rfl⟩ := hu
      obtain ⟨added, hadd, hlen⟩ := sweep_points_append _ _ _ _ _ _ _ _ _ _ hsw
      rw [(prepare_points hp).1] at hadd
      simp only
      refine ⟨?_, ?_, added, hadd, hlen⟩
      · rw [hadd]
        simp
      · intro i p hi
        have hlt : i < s.points.length := by
          by_contra hn
          rw [List.getElem?_eq_none (by omega)] at hi
          exact absurd hi (by simp)
        rw [hadd, List.getElem?_append_left (by simpa using hlt), List.getElem?_map, hi]
        rfl

/-- C11 for the third cycle of the scenario: the stored point `(0, 0, 5)` is
re-expressed and one point is appended. -/
theorem C11_point_store_witness :
    (scenarioState2 qlib 1 1 mA (some ⟨0, 0, 5⟩)).points.length ≤
        (scenarioState3 qlib 1 1 mC (some ⟨0, 0, 5⟩) (some ⟨0, 0, 5⟩)).points.length ∧
      (∀ (i : Nat) (p : Point3d ℚ),
        (scenarioState2 qlib 1 1 mA (some ⟨0, 0, 5⟩)).points[i]? = some p →
        (scenarioState3 qlib 1 1 mC (some ⟨0, 0, 5⟩) (some ⟨0, 0, 5⟩)).points[i]? =
          some (affineTransform 1 p)) ∧
      ∃ added : List (Point3d ℚ),
        (scenarioState3 qlib 1 1 mC (some ⟨0, 0, 5⟩) (some ⟨0, 0, 5⟩)).points =
            (scenarioState2 qlib 1 1 mA (some ⟨0, 0, 5⟩)).points.map (affineTransform 1) ++
              added ∧
          added.length ≤ [scenarioTrack mA 1 (some 2)].length :=
  C11_point_store qlib 10 (scenarioState2 qlib 1 1 mA (some ⟨0, 0, 5⟩))
    (scenarioState3 qlib 1 1 mC (some ⟨0, 0, 5⟩) (some ⟨0, 0, 5⟩)) [mC] 1 (-1) 2 100 0
    [scenarioTrack mA 1 (some 2)]
    (by
      rw [scenario_cycle3 qlib 1 1 10 mA mC (-1) 100 0 (some ⟨0, 0, 5⟩) (by decide) (by decide)
        (by decide) (by decide) rfl, reconstruct_scenario 1]
      rfl)
/-! ## Lemmas: track lengths along `update` -/

theorem mem_modify_cases (g : track F → track F) (l : List (track F)) (j : Nat) (x : track F)
    (hx : x ∈ l.modify g j) : x ∈ l ∨ ∃ t, l[j]? = some t ∧ x = g t := by
  obtain ⟨i, hi⟩ := List.mem_iff_getElem?.mp hx
  rw [List.getElem?_modify] at hi
  cases hl : l[i]? with
  | none => rw [hl] at hi; exact absurd hi (by simp)
  | some t =>
    rw [hl] at hi
    simp only [Option.map_eq_map, Option.map_some', Option.some.injEq] at hi
    by_cases hji : j = i
    · subst hji
      right
      exact ⟨t, hl, by simpa using hi.symm⟩
    · left
      simp only [hji, if_false] at hi
      rw [← hi]
      exact List.mem_iff_getElem?.mpr ⟨i, hl⟩

theorem evict_end (frames : List (frame_state_t F)) (popped : Nat) :
    (evict frames popped).2 + (evict frames popped).1.length = popped + frames.length := by
  induction frames generalizing popped with
  | nil => rfl
  | cons f fs ih =>
    unfold evict
    split
    · rw [ih]
      simp only [List.length_cons]
      omega
    · rfl

theorem evict_front (frames : List (frame_state_t F)) (popped : Nat) (f : frame_state_t F)
    (rest : List (frame_state_t F)) (h : (evict frames popped).1 = f :: rest) :
    f.track_count ≠ 0 := by
  induction frames generalizing popped with
  | nil => simp [evict] at h
  | cons g gs ih =>
    unfold evict at h
    split at h
    · exact ih _ h
    · rename_i hg
      simp only [List.cons.injEq] at h
      rw [← h.1]
      exact hg

theorem extendTrack_lenOK (max_track_length : Nat) (m : p_match F) (t : track F)
    (h : 1 ≤ t.pixels.length ∧ t.pixels.length ≤ max_track_length) :
    1 ≤ (extendTrack max_track_length m t).pixels.length ∧
      (extendTrack max_track_length m t).pixels.length ≤ max_track_length := by
  unfold extendTrack
  split
  · simp only [List.length_append, List.length_singleton]
    omega
  · exact h

theorem extendTrack_ageLen (max_track_length : Nat) (m : p_match F) (t : track F) (e : Nat)
    (hr : t.refreshed = false) (h : t.pixels.length + t.first_frame = e) :
    ((extendTrack max_track_length m t).refreshed = true →
        (extendTrack max_track_length m t).pixels.length +
          (extendTrack max_track_length m t).first_frame = e + 1) ∧
      ((extendTrack max_track_length m t).refreshed = false →
        (extendTrack max_track_length m t).pixels.length +
          (extendTrack max_track_length m t).first_frame = e) := by
  unfold extendTrack
  split
  · simp only [List.length_append, List.length_singleton]
    exact ⟨fun _ => by omega, fun h => absurd h (by simp)⟩
  · exact ⟨fun h => absurd h (by simp [hr]), fun _ => h⟩

theorem associateStep_len {max_track_length : Nat} {track_map : List (Option Nat)} {popped : Nat}
    {tracks tracks1 : List (track F)} {frames frames1 : List (frame_state_t F)} {m : p_match F}
    (h : associateStep max_track_length track_map popped tracks frames m = some (tracks1, frames1))
    (hne : 0 < frames.length) :
    (1 ≤ max_track_length → LenOK max_track_length tracks → LenOK max_track_length tracks1) ∧
      (AgeLenMid (popped + frames.length) tracks → AgeLenMid (popped + frames.length) tracks1) := by
  have hfresh : ∀ x, x ∈ tracks ++ [extendTrack max_track_length m (freshTrack frames popped m)] →
      x ∈ tracks ∨ x = extendTrack max_track_length m (freshTrack frames popped m) := by
    intro x hx
    rcases List.mem_append.mp hx with hx | hx
    · exact Or.inl hx
    · exact Or.inr (List.mem_singleton.mp hx)
  have hcreate :
      (1 ≤ max_track_length → LenOK max_track_length tracks → LenOK max_track_length
        (tracks ++ [extendTrack max_track_length m (freshTrack frames popped m)])) ∧
      (AgeLenMid (popped + frames.length) tracks → AgeLenMid (popped + frames.length)
        (tracks ++ [extendTrack max_track_length m (freshTrack frames popped m)])) := by
    constructor
    · intro hcap hl x hx
      rcases hfresh x hx with hx | rfl
      · exact hl x hx
      · exact extendTrack_lenOK _ _ _ ⟨by simp [freshTrack], by simpa [freshTrack] using hcap⟩
    · intro ha x hx
      rcases hfresh x hx with hx | rfl
      · exact ha x hx
      · apply extendTrack_ageLen _ _ _ _ rfl
        simp only [freshTrack, backAddr, List.length_singleton]
        omega
  unfold associateStep at h
  split at h
  · split at h
    · exact absurd h (by simp)
    · rename_i cell _
      cases cell with
      | none =>
        simp only at h
        cases hfr : addCount frames popped (backAddr frames popped) 1 with
        | none => rw [hfr] at h; exact absurd h (by simp)
        | some fr1 =>
          rw [hfr] at h
          simp only [Option.some.injEq, Prod.mk.injEq] at h
          obtain ⟨rfl, _⟩ := h
          exact hcreate
      | some j =>
        simp only at h
        cases htj : tracks[j]? with
        | none => rw [htj] at h; exact absurd h (by simp)
        | some t =>
          rw [htj] at h
          simp only at h
          split at h
          · cases hfr : addCount frames popped (backAddr frames popped) 1 with
            | none => rw [hfr] at h; exact absurd h (by simp)
            | some fr1 =>
              rw [hfr] at h
              simp only [Option.some.injEq, Prod.mk.injEq] at h
              obtain ⟨rfl, _⟩ := h
              exact hcreate
          · rename_i hnr
            simp only [Option.some.injEq, Prod.mk.injEq] at h
            obtain ⟨rfl, _⟩ := h
            have htm : t ∈ tracks := List.mem_iff_getElem?.mpr ⟨j, htj⟩
            constructor
            · intro _ hl x hx
              rcases mem_modify_cases _ _ _ _ hx with hx | ⟨t2, ht2, rfl⟩
              · exact hl x hx
              · rw [htj] at ht2
                simp only [Option.some.injEq] at ht2
                subst ht2
                exact extendTrack_lenOK _ _ _ (hl t htm)
            · intro ha x hx
              rcases mem_modify_cases _ _ _ _ hx with hx | ⟨t2, ht2, rfl⟩
              · exact ha x hx
              · rw [htj] at ht2
                simp only [Option.some.injEq] at ht2
                subst ht2
                have hrf : t.refreshed = false := by simpa using hnr
                exact extendTrack_ageLen _ _ _ _ hrf ((ha t htm).2 hrf)
  · exact absurd h (by simp)

theorem associate_len {max_track_length : Nat} {track_map : List (Option Nat)} {popped : Nat}
    (ms : List (p_match F)) {tracks tracks1 : List (track F)}
    {frames frames1 : List (frame_state_t F)}
    (h : associate max_track_length track_map popped ms tracks frames = some (tracks1, frames1))
    (hc : CountOK frames popped (firstFrames tracks))
    (hw : InWindow frames popped (firstFrames tracks))
    (hne : 0 < frames.length) :
    (1 ≤ max_track_length → LenOK max_track_length tracks → LenOK max_track_length tracks1) ∧
      (AgeLenMid (popped + frames.length) tracks → AgeLenMid (popped + frames.length) tracks1) := by
  induction ms generalizing tracks frames with
  | nil =>
    simp only [associate, Option.some.injEq, Prod.mk.injEq] at h
    obtain ⟨rfl, rfl⟩ := h
    exact ⟨fun _ h => h, fun h => h⟩
  | cons m ms ih =>
    unfold associate at h
    cases hs : associateStep max_track_length track_map popped tracks frames m with
    | none => rw [hs] at h; exact absurd h (by simp)
    | some r =>
      obtain ⟨tr2, fr2⟩ := r
      rw [hs] at h
      simp only at h
      obtain ⟨hc2, hw2, hl2, _⟩ := associateStep_inv hs hc hw hne
      obtain ⟨h1, h2⟩ := associateStep_len hs hne
      obtain ⟨h3, h4⟩ := ih h hc2 hw2 (by omega)
      rw [hl2] at h4
      exact ⟨fun hcap hl => h3 hcap (h1 hcap hl), fun ha => h4 (h2 ha)⟩

theorem prepare_len {lib : Lib F} {max_track_length : Nat} {s : Reconstruction F}
    {p_matched : List (p_match F)} {rev_Tr : Mat4 F} {tracks1 : List (track F)}
    {frames1 : List (frame_state_t F)} {popped : Nat} {points : List (Point3d F)}
    (h : prepare lib max_track_length s p_matched rev_Tr = some (tracks1, frames1, popped, points))
    (hI : Inv s) (href : ∀ t ∈ s.tracks, t.refreshed = false)
    (hA : AgeLen (s.popped + s.frames.length) s.tracks) :
    AgeLenMid (popped + frames1.length) tracks1 ∧
      (1 ≤ max_track_length → LenOK max_track_length s.tracks →
        LenOK max_track_length tracks1) ∧
      frames1.length = (evict s.frames s.popped).1.length + 1 ∧
      popped + frames1.length = s.popped + s.frames.length + 1 := by
  obtain ⟨hc, hw, _⟩ := hI
  unfold prepare at h
  simp only at h
  cases hm : build_track_map p_matched s.tracks with
  | none => rw [hm] at h; exact absurd h (by simp)
  | some track_map =>
    rw [hm] at h
    simp only at h
    obtain ⟨hc1, hw1⟩ := evict_inv s.frames s.popped _ hc hw
    obtain ⟨hc2, hw2⟩ := age_push_inv lib s.K rev_Tr _ _ _ hc1 hw1
    cases has : associate max_track_length track_map (evict s.frames s.popped).2 p_matched
        s.tracks ((evict s.frames s.popped).1.map (ageFrame lib s.K rev_Tr) ++ [newFrame s.K]) with
    | none => rw [has] at h; exact absurd h (by simp)
    | some r =>
      obtain ⟨tr1, fr1⟩ := r
      rw [has] at h
      simp only [Option.some.injEq, Prod.mk.injEq] at h
      obtain ⟨rfl, rfl, rfl, rfl⟩ := h
      obtain ⟨_, _, hl3, _⟩ := associate_inv p_matched has hc2 hw2 (by simp)
      obtain ⟨h1, h2⟩ := associate_len p_matched has hc2 hw2 (by simp)
      have hend := evict_end s.frames s.popped
      have hlen : ((evict s.frames s.popped).1.map (ageFrame lib s.K rev_Tr) ++
          [newFrame s.K]).length = (evict s.frames s.popped).1.length + 1 := by simp
      rw [hlen] at h2 hl3
      rw [hl3]
      refine ⟨h2 ?_, h1, rfl, by omega⟩
      intro t ht
      constructor
      · intro hr
        rw [href t ht] at hr
        exact absurd hr (by simp)
      · intro _
        have := hA t ht
        omega

theorem updateLog_len {lib : Lib F} {max_track_length : Nat} {s s1 : Reconstruction F}
    {p_matched : List (p_match F)} {rev_Tr : Mat4 F} {point_type min_track_length : Int}
    {max_dist min_angle : F} {lost : List (track F)}
    (h : updateLog lib max_track_length s p_matched rev_Tr point_type min_track_length max_dist
      min_angle = some (s1, lost))
    (hI : Inv s) (href : ∀ t ∈ s.tracks, t.refreshed = false)
    (hA : AgeLen (s.popped + s.frames.length) s.tracks) :
    AgeLen (s1.popped + s1.frames.length) s1.tracks ∧
      (∀ t ∈ lost, t.pixels.length + t.first_frame = s1.popped + s1.frames.length ∧
        t.last_frame = some (backAddr s1.frames s1.popped)) ∧
      (1 ≤ max_track_length → LenOK max_track_length s.tracks →
        LenOK max_track_length (s1.tracks ++ lost) ∧ s1.frames.length ≤ max_track_length) := by
  unfold updateLog at h
  cases hp : prepare lib max_track_length s p_matched rev_Tr with
  | none => rw [hp] at h; exact absurd h (by simp)
  | some r =>
    obtain ⟨tracks1, frames1, popped, points⟩ := r
    rw [hp] at h
    simp only at h
    obtain ⟨hmid, hlen, hfl, hend⟩ := prepare_len hp hI href hA
    obtain ⟨hc3, _, _, _⟩ := prepare_inv hp hI
    cases hsw : sweep lib s.Tr_cam_road popped point_type min_track_length
        max_dist min_angle tracks1 frames1 points with
    | none => rw [hsw] at h; exact absurd h (by simp)
    | some r =>
      obtain ⟨kept, frames2, points2, lost2⟩ := r
      rw [hsw] at h
      simp only [Option.some.injEq, Prod.mk.injEq] at h
      obtain ⟨rfl, rfl⟩ := h
      obtain ⟨hk, hl⟩ := sweep_partition _ _ _ _ _ _ _ _ _ _ hsw
      obtain ⟨_, hl4, _, _⟩ := sweep_inv lib s.Tr_cam_road _ point_type
        min_track_length max_dist min_angle tracks1 frames1 _ [] hsw (by simpa using hc3)
      have hb : backAddr frames2 popped = backAddr frames1 popped := by
        unfold backAddr
        rw [hl4]
      simp only [hl4, hb]
      refine ⟨?_, ?_, ?_⟩
      · intro t ht
        rw [hk] at ht
        obtain ⟨t0, ht0, rfl⟩ := List.mem_map.mp ht
        obtain ⟨ht0m, ht0r⟩ := List.mem_filter.mp ht0
        exact (hmid t0 ht0m).1 ht0r
      · intro t ht
        rw [hl] at ht
        obtain ⟨t0, ht0, rfl⟩ := List.mem_map.mp ht
        obtain ⟨ht0m, ht0r⟩ := List.mem_filter.mp ht0
        exact ⟨(hmid t0 ht0m).2 (by simpa using ht0r), rfl⟩
      · intro hcap hL
        constructor
        · intro t ht
          rw [hk, hl] at ht
          rcases List.mem_append.mp ht with ht | ht
          · obtain ⟨t0, ht0, rfl⟩ := List.mem_map.mp ht
            exact hlen hcap hL t0 (List.mem_filter.mp ht0).1
          · obtain ⟨t0, ht0, rfl⟩ := List.mem_map.mp ht
            exact hlen hcap hL t0 (List.mem_filter.mp ht0).1
        · rw [hfl]
          cases hw : (evict s.frames s.popped).1 with
          | nil => simpa using hcap
          | cons f rest =>
            have hf0 := evict_front s.frames s.popped f rest hw
            obtain ⟨hc1, _⟩ := evict_inv s.frames s.popped _ hI.1 hI.2.1
            have hcnt := hc1 0 f (by rw [hw]; simp)
            have hmem : (evict s.frames s.popped).2 ∈ firstFrames s.tracks := by
              by_contra hn
              rw [Nat.add_zero, List.count_eq_zero.mpr hn] at hcnt
              exact hf0 (by simpa using hcnt)
            obtain ⟨t, ht, hff⟩ := List.mem_map.mp hmem
            have h1 := hA t ht
            have h2 := evict_end s.frames s.popped
            have h3 := (hL t ht).2
            rw [hw] at h2
            simp only [List.length_cons] at h2 ⊢
            omega

theorem reachable_len {lib : Lib F} {max_track_length : Nat} {s : Reconstruction F}
    (h : Reachable lib max_track_length s) :
    AgeLen (s.popped + s.frames.length) s.tracks ∧
      (1 ≤ max_track_length →
        LenOK max_track_length s.tracks ∧ s.frames.length ≤ max_track_length) := by
  induction h with
  | init K Tr =>
    refine ⟨?_, fun _ => ⟨?_, ?_⟩⟩
    · intro t ht
      simp [emptyState] at ht
    · intro t ht
      simp [emptyState] at ht
    · simp [emptyState]
  | step p_matched rev_Tr point_type min_track_length max_dist min_angle hr hu ih =>
    unfold update at hu
    simp only [Option.map_eq_some', Prod.exists, exists_and_right, exists_eq_right] at hu
    obtain ⟨lost, hl⟩ := hu
    obtain ⟨h1, _, h3⟩ := updateLog_len hl (reachable_inv hr) (reachable_refreshed hr) ih.1
    refine ⟨h1, fun hcap => ?_⟩
    obtain ⟨h4, h5⟩ := h3 hcap (ih.2 hcap).1
    exact ⟨fun t ht => h4 t (List.mem_append_left _ ht), h5⟩

theorem ages_get {frames : List (frame_state_t F)} (hA : AgesOK frames) (i : Nat)
    (f : frame_state_t F) (hf : frames[i]? = some f) : f.frames_ago + i + 1 = frames.length := by
  have hi : i < frames.length := by
    by_contra hn
    rw [List.getElem?_eq_none (by omega)] at hf
    exact absurd hf (by simp)
  unfold AgesOK at hA
  have h2 : frames.map frame_state_t.frames_ago = (List.range frames.length).reverse := by
    rw [← hA, List.map_reverse, List.reverse_reverse]
  have h3 : (frames.map frame_state_t.frames_ago)[i]? = some f.frames_ago := by
    rw [List.getElem?_map, hf]
    rfl
  rw [h2, List.getElem?_reverse (by simpa using hi)] at h3
  simp only [List.length_range] at h3
  rw [List.getElem?_range (by omega)] at h3
  simp only [Option.some.injEq] at h3
  omega

theorem deref_of_window {frames : List (frame_state_t F)} {popped a : Nat}
    (h1 : popped ≤ a) (h2 : a < popped + frames.length) :
    ∃ f, deref frames popped a = some f ∧ frames[a - popped]? = some f := by
  have hlt : a - popped < frames.length := by omega
  refine ⟨frames[a - popped], ?_, List.getElem?_eq_getElem hlt⟩
  unfold deref
  rw [if_pos h1, List.getElem?_eq_getElem hlt]

/-- C20. With `max_track_length >= 1`, in every state reached from the empty
state by calls of `update`, every live track has `frames_ago + 2` observations,
`frames_ago` being the age of its first frame, and is not marked refreshed, and
the window holds at most `max_track_length` frames. -/
theorem C20_bounded_window (lib : Lib F) (max_track_length : Nat) (s : Reconstruction F)
    (hcap : 1 ≤ max_track_length) (h : Reachable lib max_track_length s) :
    (∀ t ∈ s.tracks, ∃ f, deref s.frames s.popped t.first_frame = some f ∧
        t.pixels.length = f.frames_ago + 2 ∧ t.refreshed = false) ∧
      s.frames.length ≤ max_track_length := by
  obtain ⟨hA, hL⟩ := reachable_len h
  obtain ⟨_, hw, hages⟩ := reachable_inv h
  refine ⟨?_, (hL hcap).2⟩
  intro t ht
  obtain ⟨h1, h2⟩ := hw t.first_frame (List.mem_map_of_mem _ ht)
  obtain ⟨f, hd, hf⟩ := deref_of_window h1 h2
  refine ⟨f, hd, ?_, reachable_refreshed h t ht⟩
  have := ages_get hages _ f hf
  have := hA t ht
  omega

/-- C20 at the state reached by one update with one match. -/
theorem C20_bounded_window_witness :
    (∀ t ∈ stateA.tracks, ∃ f, deref stateA.frames stateA.popped t.first_frame = some f ∧
        t.pixels.length = f.frames_ago + 2 ∧ t.refreshed = false) ∧
      stateA.frames.length ≤ 10 :=
  C20_bounded_window qlib 10 stateA (by decide) reachable_stateA

/-! ## Lemmas: the sweep changes track counts only -/

theorem addCount_pose {frames frames1 : List (frame_state_t F)} {popped a : Nat} {d : Int}
    (h : addCount frames popped a d = some frames1) : frames1.map pose = frames.map pose := by
  unfold addCount at h
  split at h
  · simp only [Option.some.injEq] at h
    subst h
    apply List.ext_getElem?
    intro i
    simp only [List.getElem?_map, List.getElem?_modify]
    cases frames[i]? with
    | none => rfl
    | some f => by_cases hi : a - popped = i <;> simp [hi, pose]
  · exact absurd h (by simp)

theorem associate_pose {max_track_length : Nat} {track_map : List (Option Nat)} {popped : Nat}
    (ms : List (p_match F)) {tracks tracks1 : List (track F)}
    {frames frames1 : List (frame_state_t F)}
    (h : associate max_track_length track_map popped ms tracks frames = some (tracks1, frames1)) :
    frames1.map pose = frames.map pose := by
  induction ms generalizing tracks frames with
  | nil =>
    simp only [associate, Option.some.injEq, Prod.mk.injEq] at h
    obtain ⟨_, rfl⟩ := h
    rfl
  | cons m ms ih =>
    unfold associate at h
    cases hs : associateStep max_track_length track_map popped tracks frames m with
    | none => rw [hs] at h; exact absurd h (by simp)
    | some r =>
      obtain ⟨tr2, fr2⟩ := r
      rw [hs] at h
      simp only at h
      rw [ih h]
      unfold associateStep at hs
      split at hs
      · split at hs
        · exact absurd hs (by simp)
        · rename_i cell _
          cases cell with
          | none =>
            simp only at hs
            cases hfr : addCount frames popped (backAddr frames popped) 1 with
            | none => rw [hfr] at hs; exact absurd hs (by simp)
            | some fr1 =>
              rw [hfr] at hs
              simp only [Option.some.injEq, Prod.mk.injEq] at hs
              obtain ⟨_, rfl⟩ := hs
              exact addCount_pose hfr
          | some j =>
            simp only at hs
            cases htj : tracks[j]? with
            | none => rw [htj] at hs; exact absurd hs (by simp)
            | some t =>
              rw [htj] at hs
              simp only at hs
              split at hs
              · cases hfr : addCount frames popped (backAddr frames popped) 1 with
                | none => rw [hfr] at hs; exact absurd hs (by simp)
                | some fr1 =>
                  rw [hfr] at hs
                  simp only [Option.some.injEq, Prod.mk.injEq] at hs
                  obtain ⟨_, rfl⟩ := hs
                  exact addCount_pose hfr
              · simp only [Option.some.injEq, Prod.mk.injEq] at hs
                obtain ⟨_, rfl⟩ := hs
                rfl
      · exact absurd hs (by simp)

theorem sweep_pose (lib : Lib F) (Tr_cam_road : Mat4 F) (popped : Nat)
    (point_type min_track_length : Int) (max_dist min_angle : F)
    (ts : List (track F)) (frames : List (frame_state_t F)) (points : List (Point3d F))
    {kept lost : List (track F)} {frames1 : List (frame_state_t F)} {points1 : List (Point3d F)}
    (h : sweep lib Tr_cam_road popped point_type min_track_length max_dist min_angle ts frames
      points = some (kept, frames1, points1, lost)) :
    frames1.map pose = frames.map pose := by
  induction ts generalizing frames points kept lost frames1 points1 with
  | nil =>
    simp only [sweep, Option.some.injEq, Prod.mk.injEq] at h
    obtain ⟨_, rfl, _, _⟩ := h
    rfl
  | cons t ts ih =>
    unfold sweep at h
    split at h
    · cases hs : sweep lib Tr_cam_road popped point_type min_track_length max_dist min_angle
          ts frames points with
      | none => rw [hs] at h; exact absurd h (by simp)
      | some r =>
        obtain ⟨k2, f2, p2, l2⟩ := r
        rw [hs] at h
        simp only [Option.some.injEq, Prod.mk.injEq] at h
        obtain ⟨_, rfl, _, _⟩ := h
        exact ih frames points hs
    · split at h
      · exact absurd h (by simp)
      · rename_i t1 cand hfin
        cases hfr : addCount frames popped t1.first_frame (-1) with
        | none => rw [hfr] at h; exact absurd h (by simp)
        | some fr1 =>
          rw [hfr] at h
          simp only at h
          cases hs : sweep lib Tr_cam_road popped point_type min_track_length max_dist min_angle
              ts fr1 (points ++ cand.toList) with
          | none => rw [hs] at h; exact absurd h (by simp)
          | some r =>
            obtain ⟨k2, f2, p2, l2⟩ := r
            rw [hs] at h
            simp only [Option.some.injEq, Prod.mk.injEq] at h
            obtain ⟨_, rfl, _, _⟩ := h
            rw [ih fr1 _ hs, addCount_pose hfr]

theorem pose_length {fr frames : List (frame_state_t F)} (h : fr.map pose = frames.map pose) :
    fr.length = frames.length := by
  have := congrArg List.length h
  simpa using this

theorem pose_ago {fr frames : List (frame_state_t F)} (h : fr.map pose = frames.map pose) :
    fr.map frame_state_t.frames_ago = frames.map frame_state_t.frames_ago := by
  have := congrArg (List.map fun x : Mat4 F × Mat4 F × Mat34 F × Nat => x.2.2.2) h
  simpa [List.map_map, Function.comp_def, pose] using this

theorem ages_reverse_get {frames : List (frame_state_t F)} (hA : AgesOK frames) (i : Nat)
    (f : frame_state_t F) (hf : frames.reverse[i]? = some f) : f.frames_ago = i := by
  unfold AgesOK at hA
  have h1 : (frames.reverse.map frame_state_t.frames_ago)[i]? = some f.frames_ago := by
    rw [List.getElem?_map, hf]
    rfl
  rw [hA] at h1
  have hi : i < frames.length := by
    by_contra hn
    rw [List.getElem?_eq_none (by simpa using hn)] at h1
    exact absurd h1 (by simp)
  rw [List.getElem?_eq_getElem (by simpa using hi)] at h1
  simpa using h1.symm

theorem updateLog_lost {lib : Lib F} {max_track_length : Nat} {s s1 : Reconstruction F}
    {p_matched : List (p_match F)} {rev_Tr : Mat4 F} {point_type min_track_length : Int}
    {max_dist min_angle : F} {lost : List (track F)}
    (h : updateLog lib max_track_length s p_matched rev_Tr point_type min_track_length max_dist
      min_angle = some (s1, lost))
    (hI : Inv s) :
    ∀ t ∈ lost, s1.popped ≤ t.first_frame ∧ t.first_frame < s1.popped + s1.frames.length := by
  unfold updateLog at h
  cases hp : prepare lib max_track_length s p_matched rev_Tr with
  | none => rw [hp] at h; exact absurd h (by simp)
  | some r =>
    obtain ⟨tracks1, frames1, popped, points⟩ := r
    rw [hp] at h
    simp only at h
    obtain ⟨hc3, hw3, _, _⟩ := prepare_inv hp hI
    cases hsw : sweep lib s.Tr_cam_road popped point_type min_track_length
        max_dist min_angle tracks1 frames1 points with
    | none => rw [hsw] at h; exact absurd h (by simp)
    | some r =>
      obtain ⟨kept, frames2, points2, lost2⟩ := r
      rw [hsw] at h
      simp only [Option.some.injEq, Prod.mk.injEq] at h
      obtain ⟨rfl, rfl⟩ := h
      obtain ⟨_, hl⟩ := sweep_partition _ _ _ _ _ _ _ _ _ _ hsw
      obtain ⟨_, hl4, _, _⟩ := sweep_inv lib s.Tr_cam_road _ point_type
        min_track_length max_dist min_angle tracks1 frames1 _ [] hsw (by simpa using hc3)
      intro t ht
      rw [hl] at ht
      obtain ⟨t0, ht0, rfl⟩ := List.mem_map.mp ht
      have := hw3 t0.first_frame (List.mem_map_of_mem _ (List.mem_filter.mp ht0).1)
      simp only [hl4]
      exact this

theorem computePredictionsAndJacobian_defined (frames : List (frame_state_t F)) (p : Point3d F)
    (i n : Nat) (h : i + n ≤ frames.length) :
    ∃ r, computePredictionsAndJacobian frames p i n = some r := by
  induction n generalizing i with
  | zero => exact ⟨_, rfl⟩
  | succ n ih =>
    have hi : i < frames.length := by omega
    unfold computePredictionsAndJacobian
    rw [List.getElem?_eq_getElem hi]
    simp only
    cases predictFrame frames[i].proj p with
    | none => exact ⟨_, rfl⟩
    | some r =>
      obtain ⟨Jk, pk⟩ := r
      obtain ⟨r2, hr2⟩ := ih (i + 1) (by omega)
      simp only [hr2]
      cases r2 with
      | none => exact ⟨_, rfl⟩
      | some x => exact ⟨_, rfl⟩

/-! ## C16: the slice of the window used by the refinement -/

/-- C16. For every track `t` finalized by an `update` issued in a state reached
from the empty state, and every window `fr` with the poses of the window the
call leaves (the sweep changes track counts only): the `first_frame` pointer of
`t` dereferences to a frame `f1`, the `last_frame` pointer is the newest frame,
and the number of observations is `f1.frames_ago + 1`.  Hence the iterator
`f_begin = frames.end() - 1 - f1.frames_ago` of `updatePoint` is inside the
window and is the first frame of the track, `f_end = f_begin + num_frames - 1`
is the newest frame (the last frame of the track), the range holds one frame
per observation, and `computePredictionsAndJacobian` reads no frame outside the
window. -/
theorem C16_refinement_slice (lib : Lib F) (max_track_length : Nat) (s s1 : Reconstruction F)
    (p_matched : List (p_match F)) (rev_Tr : Mat4 F) (point_type min_track_length : Int)
    (max_dist min_angle : F) (lost : List (track F)) (t : track F)
    (fr : List (frame_state_t F))
    (hr : Reachable lib max_track_length s)
    (hu : updateLog lib max_track_length s p_matched rev_Tr point_type min_track_length max_dist
      min_angle = some (s1, lost))
    (ht : t ∈ lost) (hfr : fr.map pose = s1.frames.map pose) :
    ∃ f1, deref fr s1.popped t.first_frame = some f1 ∧
      t.last_frame = some (backAddr fr s1.popped) ∧
      t.pixels.length = f1.frames_ago + 1 ∧
      1 + f1.frames_ago ≤ fr.length ∧
      s1.popped + (fr.length - 1 - f1.frames_ago) = t.first_frame ∧
      s1.popped + (fr.length - 1 - f1.frames_ago + t.pixels.length - 1) =
        backAddr fr s1.popped ∧
      fr.length - 1 - f1.frames_ago + t.pixels.length - 1 < fr.length ∧
      (fr.length - 1 - f1.frames_ago + t.pixels.length - 1) + 1 -
        (fr.length - 1 - f1.frames_ago) = t.pixels.length ∧
      ∀ p, ∃ r, computePredictionsAndJacobian fr p (fr.length - 1 - f1.frames_ago)
        t.pixels.length = some r := by
  have hI := reachable_inv hr
  have hL := pose_length hfr
  have hA1 : AgesOK fr :=
    agesOK_of_map_eq (pose_ago hfr) (updateLog_inv hu hI).1.2.2
  obtain ⟨hw1, hw2⟩ := updateLog_lost hu hI t ht
  obtain ⟨hlen, hlast⟩ :=
    (updateLog_len hu hI (reachable_refreshed hr) (reachable_len hr).1).2.1 t ht
  rw [← hL] at hw2 hlen
  obtain ⟨f1, hd, hg⟩ := deref_of_window hw1 hw2
  have hago := ages_get hA1 _ _ hg
  refine ⟨f1, hd, ?_, ?_, ?_, ?_, ?_, ?_, ?_, ?_⟩
  · rw [hlast]
    unfold backAddr
    rw [hL]
  · omega
  · omega
  · omega
  · unfold backAddr
    omega
  · omega
  · omega
  · intro p
    exact computePredictionsAndJacobian_defined fr p _ _ (by omega)

theorem C16_refinement_slice_witness :
    ∃ f1, deref stateB.frames stateB.popped trackB1.first_frame = some f1 ∧
      trackB1.last_frame = some (backAddr stateB.frames stateB.popped) ∧
      trackB1.pixels.length = f1.frames_ago + 1 ∧
      1 + f1.frames_ago ≤ stateB.frames.length ∧
      stateB.popped + (stateB.frames.length - 1 - f1.frames_ago) = trackB1.first_frame ∧
      stateB.popped + (stateB.frames.length - 1 - f1.frames_ago + trackB1.pixels.length - 1) =
        backAddr stateB.frames stateB.popped ∧
      stateB.frames.length - 1 - f1.frames_ago + trackB1.pixels.length - 1 <
        stateB.frames.length ∧
      (stateB.frames.length - 1 - f1.frames_ago + trackB1.pixels.length - 1) + 1 -
        (stateB.frames.length - 1 - f1.frames_ago) = trackB1.pixels.length ∧
      ∀ p, ∃ r, computePredictionsAndJacobian stateB.frames p
        (stateB.frames.length - 1 - f1.frames_ago) trackB1.pixels.length = some r :=
  C16_refinement_slice qlib 2 stateA stateB [mB] 1 (-1) 2 100 0 [trackB1] trackB1 stateB.frames
    reachable_stateA_cap2 updateLog_stateA_mB (List.mem_singleton.mpr rfl) rfl

/-! ## C18: the midpoint frame of `pointDistance` -/

/-- C18. For every track `t` finalized by an `update` issued in a state reached
from the empty state, and every window `fr` with the poses of the window the
call leaves: with `f1` and `f2` the frames of the `first_frame` and `last_frame`
pointers and `mid = (f1.frames_ago + f2.frames_ago + 1) / 2`, the lookup
`frames.rbegin()[mid]` is inside the window and yields the frame of age `mid`,
`f2.frames_ago <= mid <= max(f1.frames_ago, 0)`, `mid` is smaller than the
window size, and `pointDistance` returns the square root of the squared
distance between the point and the translation column of that frame. -/
theorem C18_midpoint_frame (lib : Lib F) (max_track_length : Nat) (s s1 : Reconstruction F)
    (p_matched : List (p_match F)) (rev_Tr : Mat4 F) (point_type min_track_length : Int)
    (max_dist min_angle : F) (lost : List (track F)) (t : track F)
    (fr : List (frame_state_t F))
    (hr : Reachable lib max_track_length s)
    (hu : updateLog lib max_track_length s p_matched rev_Tr point_type min_track_length max_dist
      min_angle = some (s1, lost))
    (ht : t ∈ lost) (hfr : fr.map pose = s1.frames.map pose) :
    ∃ f1 f2 mid a2, deref fr s1.popped t.first_frame = some f1 ∧
      t.last_frame = some a2 ∧ deref fr s1.popped a2 = some f2 ∧
      fr.reverse[(f1.frames_ago + f2.frames_ago + 1) / 2]? = some mid ∧
      mid.frames_ago = (f1.frames_ago + f2.frames_ago + 1) / 2 ∧
      f2.frames_ago ≤ (f1.frames_ago + f2.frames_ago + 1) / 2 ∧
      (f1.frames_ago + f2.frames_ago + 1) / 2 ≤ max f1.frames_ago 0 ∧
      (f1.frames_ago + f2.frames_ago + 1) / 2 < fr.length ∧
      ∀ p, pointDistance lib fr s1.popped t p =
        some (lib.sqrt ((mid.fwd 0 3 - p.x) * (mid.fwd 0 3 - p.x) +
          (mid.fwd 1 3 - p.y) * (mid.fwd 1 3 - p.y) +
          (mid.fwd 2 3 - p.z) * (mid.fwd 2 3 - p.z))) := by
  have hI := reachable_inv hr
  have hL := pose_length hfr
  have hA1 : AgesOK fr :=
    agesOK_of_map_eq (pose_ago hfr) (updateLog_inv hu hI).1.2.2
  obtain ⟨hw1, hw2⟩ := updateLog_lost hu hI t ht
  obtain ⟨hlen, hlast⟩ :=
    (updateLog_len hu hI (reachable_refreshed hr) (reachable_len hr).1).2.1 t ht
  rw [← hL] at hw2 hlen
  obtain ⟨f1, hd, hg⟩ := deref_of_window hw1 hw2
  have hago := ages_get hA1 _ _ hg
  have hb1 : s1.popped ≤ backAddr fr s1.popped := by unfold backAddr; omega
  have hb2 : backAddr fr s1.popped < s1.popped + fr.length := by unfold backAddr; omega
  obtain ⟨f2, hd2, hg2⟩ := deref_of_window hb1 hb2
  have hago2 := ages_get hA1 _ _ hg2
  have h20 : f2.frames_ago = 0 := by
    unfold backAddr at hago2
    omega
  have hmid : (f1.frames_ago + f2.frames_ago + 1) / 2 < fr.reverse.length := by
    rw [List.length_reverse]
    omega
  have hlast2 : t.last_frame = some (backAddr fr s1.popped) := by
    rw [hlast]
    unfold backAddr
    rw [hL]
  refine ⟨f1, f2, fr.reverse[(f1.frames_ago + f2.frames_ago + 1) / 2], _, hd, hlast2, hd2,
    List.getElem?_eq_getElem hmid,
    ages_reverse_get hA1 _ _ (List.getElem?_eq_getElem hmid), ?_, ?_, ?_, ?_⟩
  · omega
  · rw [Nat.max_eq_left (Nat.zero_le _)]
    omega
  · rw [List.length_reverse] at hmid
    exact hmid
  · intro p
    unfold pointDistance
    rw [hd, hlast2]
    simp only [hd2, List.getElem?_eq_getElem hmid]

theorem C18_midpoint_frame_witness :
    ∃ f1 f2 mid a2, deref stateB.frames stateB.popped trackB1.first_frame = some f1 ∧
      trackB1.last_frame = some a2 ∧ deref stateB.frames stateB.popped a2 = some f2 ∧
      stateB.frames.reverse[(f1.frames_ago + f2.frames_ago + 1) / 2]? = some mid ∧
      mid.frames_ago = (f1.frames_ago + f2.frames_ago + 1) / 2 ∧
      f2.frames_ago ≤ (f1.frames_ago + f2.frames_ago + 1) / 2 ∧
      (f1.frames_ago + f2.frames_ago + 1) / 2 ≤ max f1.frames_ago 0 ∧
      (f1.frames_ago + f2.frames_ago + 1) / 2 < stateB.frames.length ∧
      ∀ p, pointDistance qlib stateB.frames stateB.popped trackB1 p =
        some (qlib.sqrt ((mid.fwd 0 3 - p.x) * (mid.fwd 0 3 - p.x) +
          (mid.fwd 1 3 - p.y) * (mid.fwd 1 3 - p.y) +
          (mid.fwd 2 3 - p.z) * (mid.fwd 2 3 - p.z))) :=
  C18_midpoint_frame qlib 2 stateA stateB [mB] 1 (-1) 2 100 0 [trackB1] trackB1 stateB.frames
    reachable_stateA_cap2 updateLog_stateA_mB (List.mem_singleton.mpr rfl) rfl

/-! ## C14: the growth of the tracks -/

theorem extendTrack_cases (max_track_length : Nat) (m : p_match F) (t : track F) :
    extendTrack max_track_length m t = t ∨
      (t.pixels.length < max_track_length ∧
        extendTrack max_track_length m t =
          { t with pixels := t.pixels ++ [⟨m.u1c, m.v1c⟩], last_idx := m.i1c,
                   refreshed := true }) := by
  unfold extendTrack
  by_cases h : t.pixels.length < max_track_length
  · rw [if_pos h]
    exact Or.inr ⟨h, rfl⟩
  · rw [if_neg h]
    exact Or.inl rfl

theorem associateStep_growth {max_track_length : Nat} {track_map : List (Option Nat)}
    {popped : Nat} {tracks tracks1 : List (track F)} {frames frames1 : List (frame_state_t F)}
    {m : p_match F}
    (h : associateStep max_track_length track_map popped tracks frames m =
      some (tracks1, frames1)) :
    (∀ (j : Nat) (t : track F), tracks[j]? = some t →
        ∃ t1, tracks1[j]? = some t1 ∧
          (t1 = t ∨ (t.refreshed = false ∧ t.pixels.length < max_track_length ∧
            t1 = { t with pixels := t.pixels ++ [⟨m.u1c, m.v1c⟩], last_idx := m.i1c,
                          refreshed := true }))) ∧
      (tracks1.length = tracks.length ∨
        tracks1 = tracks ++ [extendTrack max_track_length m (freshTrack frames popped m)]) := by
  have hcreate : ∀ x : track F,
      (∀ (j : Nat) (t : track F), tracks[j]? = some t →
        ∃ t1, (tracks ++ [x])[j]? = some t1 ∧
          (t1 = t ∨ (t.refreshed = false ∧ t.pixels.length < max_track_length ∧
            t1 = { t with pixels := t.pixels ++ [⟨m.u1c, m.v1c⟩], last_idx := m.i1c,
                          refreshed := true }))) := by
    intro x j t hj
    have hlt : j < tracks.length := by
      by_contra hn
      rw [List.getElem?_eq_none (by omega)] at hj
      exact absurd hj (by simp)
    exact ⟨t, by rw [List.getElem?_append_left hlt, hj], Or.inl rfl⟩
  unfold associateStep at h
  split at h
  · split at h
    · exact absurd h (by simp)
    · rename_i cell _
      cases cell with
      | none =>
        simp only at h
        cases hfr : addCount frames popped (backAddr frames popped) 1 with
        | none => rw [hfr] at h; exact absurd h (by simp)
        | some fr1 =>
          rw [hfr] at h
          simp only [Option.some.injEq, Prod.mk.injEq] at h
          obtain ⟨rfl, _⟩ := h
          exact ⟨hcreate _, Or.inr rfl⟩
      | some j0 =>
        simp only at h
        cases htj : tracks[j0]? with
        | none => rw [htj] at h; exact absurd h (by simp)
        | some t0 =>
          rw [htj] at h
          simp only at h
          split at h
          · cases hfr : addCount frames popped (backAddr frames popped) 1 with
            | none => rw [hfr] at h; exact absurd h (by simp)
            | some fr1 =>
              rw [hfr] at h
              simp only [Option.some.injEq, Prod.mk.injEq] at h
              obtain ⟨rfl, _⟩ := h
              exact ⟨hcreate _, Or.inr rfl⟩
          · rename_i hnr
            simp only [Option.some.injEq, Prod.mk.injEq] at h
            obtain ⟨rfl, _⟩ := h
            refine ⟨?_, Or.inl (by simp)⟩
            intro j t hj
            rw [List.getElem?_modify, hj]
            by_cases hjj : j0 = j
            · subst hjj
              rw [htj] at hj
              simp only [Option.some.injEq] at hj
              subst hj
              simp only [if_true, Option.map_some']
              refine ⟨_, rfl, ?_⟩
              rcases extendTrack_cases max_track_length m t0 with he | ⟨hlt, he⟩
              · exact Or.inl he
              · exact Or.inr ⟨by simpa using hnr, hlt, he⟩
            · simp only [if_neg hjj, Option.map_some', id]
              exact ⟨t, rfl, Or.inl rfl⟩
  · exact absurd h (by simp)

theorem freshTrack_pixels (max_track_length : Nat) (frames : List (frame_state_t F))
    (popped : Nat) (m : p_match F) :
    (extendTrack max_track_length m (freshTrack frames popped m)).pixels =
        ⟨m.u1p, m.v1p⟩ :: (if 1 < max_track_length then [⟨m.u1c, m.v1c⟩] else []) ∧
      ((extendTrack max_track_length m (freshTrack frames popped m)).refreshed = true ∨
        max_track_length ≤
          (extendTrack max_track_length m (freshTrack frames popped m)).pixels.length) := by
  unfold extendTrack freshTrack
  by_cases h : 1 < max_track_length
  · simp [h]
  · simp [h]
    omega

theorem associate_growth {max_track_length : Nat} {track_map : List (Option Nat)} {popped : Nat}
    (ms : List (p_match F)) {tracks tracks1 : List (track F)}
    {frames frames1 : List (frame_state_t F)}
    (h : associate max_track_length track_map popped ms tracks frames = some (tracks1, frames1)) :
    (∀ (j : Nat) (t : track F), tracks[j]? = some t →
        ∃ t1, tracks1[j]? = some t1 ∧
          (t1 = t ∨ (t.refreshed = false ∧ t.pixels.length < max_track_length ∧
            t1.refreshed = true ∧
            ∃ m ∈ ms, t1.pixels = t.pixels ++ [⟨m.u1c, m.v1c⟩]))) ∧
      (∀ (j : Nat) (t1 : track F), tracks.length ≤ j → tracks1[j]? = some t1 →
        ∃ m ∈ ms, t1.pixels =
          ⟨m.u1p, m.v1p⟩ :: (if 1 < max_track_length then [⟨m.u1c, m.v1c⟩] else [])) := by
  induction ms generalizing tracks frames with
  | nil =>
    simp only [associate, Option.some.injEq, Prod.mk.injEq] at h
    obtain ⟨rfl, _⟩ := h
    refine ⟨fun j t hj => ⟨t, hj, Or.inl rfl⟩, ?_⟩
    intro j t1 hj ht
    rw [List.getElem?_eq_none hj] at ht
    exact absurd ht (by simp)
  | cons m ms ih =>
    unfold associate at h
    cases hs : associateStep max_track_length track_map popped tracks frames m with
    | none => rw [hs] at h; exact absurd h (by simp)
    | some r =>
      obtain ⟨tr2, fr2⟩ := r
      rw [hs] at h
      simp only at h
      obtain ⟨ih1, ih2⟩ := ih h
      obtain ⟨hs1, hs2⟩ := associateStep_growth hs
      constructor
      · intro j t hj
        obtain ⟨t2, ht2, hc2⟩ := hs1 j t hj
        obtain ⟨t1, ht1, hc1⟩ := ih1 j t2 ht2
        refine ⟨t1, ht1, ?_⟩
        rcases hc2 with rfl | ⟨hr, hlt, rfl⟩
        · rcases hc1 with rfl | ⟨hr1, hlt1, hr2, m1, hm1, hp1⟩
          · exact Or.inl rfl
          · exact Or.inr ⟨hr1, hlt1, hr2, m1, List.mem_cons_of_mem _ hm1, hp1⟩
        · rcases hc1 with rfl | ⟨hr1, _⟩
          · exact Or.inr ⟨hr, hlt, rfl, m, List.mem_cons_self _ _, rfl⟩
          · exact absurd hr1 (by simp)
      · intro j t1 hj ht1
        rcases hs2 with hlen | rfl
        · obtain ⟨m1, hm1, hp1⟩ := ih2 j t1 (by omega) ht1
          exact ⟨m1, List.mem_cons_of_mem _ hm1, hp1⟩
        · by_cases hjj : j = tracks.length
          · subst hjj
            obtain ⟨hpix, hflag⟩ := freshTrack_pixels max_track_length frames popped m
            obtain ⟨t1b, ht1b, hc1⟩ := ih1 tracks.length
              (extendTrack max_track_length m (freshTrack frames popped m)) (by simp)
            rw [ht1] at ht1b
            simp only [Option.some.injEq] at ht1b
            subst ht1b
            rcases hc1 with rfl | ⟨hr1, hlt1, _⟩
            · exact ⟨m, List.mem_cons_self _ _, hpix⟩
            · rcases hflag with hf | hf
              · rw [hf] at hr1
                exact absurd hr1 (by simp)
              · omega
          · obtain ⟨m1, hm1, hp1⟩ := ih2 j t1 (by simp; omega) ht1
            exact ⟨m1, List.mem_cons_of_mem _ hm1, hp1⟩

/-- C14. With `max_track_length >= 1`, for an `update` issued in a state reached
from the empty state: every live track of the state, and every track the call
leaves live or finalizes, holds at least 1 and at most `max_track_length`
observations.  With `tracks1` the list of tracks when the association loop
(lines 82-104) ends, the call keeps the refreshed tracks of `tracks1` and
finalizes the others; a track that was live before the call is at its position
in `tracks1` with the same observations or with the successor pixel of one
match appended; a track created by the call holds the predecessor pixel of a
match, followed by the successor pixel exactly when `1 < max_track_length`. -/
theorem C14_max_track_length (lib : Lib F) (max_track_length : Nat) (s s1 : Reconstruction F)
    (p_matched : List (p_match F)) (rev_Tr : Mat4 F) (point_type min_track_length : Int)
    (max_dist min_angle : F) (lost : List (track F))
    (hcap : 1 ≤ max_track_length) (hr : Reachable lib max_track_length s)
    (hu : updateLog lib max_track_length s p_matched rev_Tr point_type min_track_length max_dist
      min_angle = some (s1, lost)) :
    LenOK max_track_length s.tracks ∧ LenOK max_track_length (s1.tracks ++ lost) ∧
      ∃ tracks1 frames1 popped points,
        prepare lib max_track_length s p_matched rev_Tr =
          some (tracks1, frames1, popped, points) ∧
        s1.tracks = (tracks1.filter fun t => t.refreshed).map
          (fun t => { t with refreshed := false }) ∧
        lost = (tracks1.filter fun t => !t.refreshed).map
          (fun t => { t with last_frame := some (backAddr frames1 popped) }) ∧
        (∀ (j : Nat) (t : track F), s.tracks[j]? = some t →
          ∃ t1, tracks1[j]? = some t1 ∧
            (t1.pixels = t.pixels ∨
              ∃ m ∈ p_matched, t1.pixels = t.pixels ++ [⟨m.u1c, m.v1c⟩])) ∧
        (∀ (j : Nat) (t1 : track F), s.tracks.length ≤ j → tracks1[j]? = some t1 →
          ∃ m ∈ p_matched, t1.pixels =
            ⟨m.u1p, m.v1p⟩ :: (if 1 < max_track_length then [⟨m.u1c, m.v1c⟩] else [])) := by
  have hI := reachable_inv hr
  have hlen := reachable_len hr
  refine ⟨(hlen.2 hcap).1,
    ((updateLog_len hu hI (reachable_refreshed hr) hlen.1).2.2 hcap (hlen.2 hcap).1).1, ?_⟩
  unfold updateLog at hu
  cases hp : prepare lib max_track_length s p_matched rev_Tr with
  | none => rw [hp] at hu; exact absurd hu (by simp)
  | some r =>
    obtain ⟨tracks1, frames1, popped, points⟩ := r
    rw [hp] at hu
    simp only at hu
    cases hsw : sweep lib s.Tr_cam_road popped point_type min_track_length
        max_dist min_angle tracks1 frames1 points with
    | none => rw [hsw] at hu; exact absurd hu (by simp)
    | some r =>
      obtain ⟨kept, frames2, points2, lost2⟩ := r
      rw [hsw] at hu
      simp only [Option.some.injEq, Prod.mk.injEq] at hu
      obtain ⟨rfl, rfl⟩ := hu
      obtain ⟨hk, hl⟩ := sweep_partition _ _ _ _ _ _ _ _ _ _ hsw
      refine ⟨tracks1, frames1, popped, points, rfl, hk, hl, ?_⟩
      unfold prepare at hp
      simp only at hp
      cases hm : build_track_map p_matched s.tracks with
      | none => rw [hm] at hp; exact absurd hp (by simp)
      | some track_map =>
        rw [hm] at hp
        simp only at hp
        cases ha : associate max_track_length track_map (evict s.frames s.popped).2 p_matched
            s.tracks ((evict s.frames s.popped).1.map (ageFrame lib s.K rev_Tr) ++
              [newFrame s.K]) with
        | none => rw [ha] at hp; exact absurd hp (by simp)
        | some r =>
          obtain ⟨tr, fr⟩ := r
          rw [ha] at hp
          simp only [Option.some.injEq, Prod.mk.injEq] at hp
          obtain ⟨rfl, _, _, _⟩ := hp
          obtain ⟨hg1, hg2⟩ := associate_growth p_matched ha
          refine ⟨?_, hg2⟩
          intro j t hj
          obtain ⟨t1, ht1, hc⟩ := hg1 j t hj
          refine ⟨t1, ht1, ?_⟩
          rcases hc with rfl | ⟨_, _, _, hm⟩
          · exact Or.inl rfl
          · exact Or.inr hm

theorem C14_max_track_length_witness :
    LenOK 2 stateA.tracks ∧ LenOK 2 (stateB.tracks ++ [trackB1]) ∧
      ∃ tracks1 frames1 popped points,
        prepare qlib 2 stateA [mB] 1 = some (tracks1, frames1, popped, points) ∧
        stateB.tracks = (tracks1.filter fun t => t.refreshed).map
          (fun t => { t with refreshed := false }) ∧
        [trackB1] = (tracks1.filter fun t => !t.refreshed).map
          (fun t => { t with last_frame := some (backAddr frames1 popped) }) ∧
        (∀ (j : Nat) (t : track ℚ), stateA.tracks[j]? = some t →
          ∃ t1, tracks1[j]? = some t1 ∧
            (t1.pixels = t.pixels ∨
              ∃ m ∈ [mB], t1.pixels = t.pixels ++ [⟨m.u1c, m.v1c⟩])) ∧
        (∀ (j : Nat) (t1 : track ℚ), stateA.tracks.length ≤ j → tracks1[j]? = some t1 →
          ∃ m ∈ [mB], t1.pixels =
            ⟨m.u1p, m.v1p⟩ :: (if 1 < 2 then [⟨m.u1c, m.v1c⟩] else [])) :=
  C14_max_track_length qlib 2 stateA stateB [mB] 1 (-1) 2 100 0 [trackB1] (by decide)
    reachable_stateA_cap2 updateLog_stateA_mB

/-! ## Lemmas: predictions and Jacobian of a slice -/

theorem predictFrame_fail (P : Mat34 F) (p : Point3d F) (h : depthSq P p < 1 / 10 ^ 10) :
    predictFrame P p = none := by
  unfold depthSq rowTerm at h
  unfold predictFrame
  simp only
  rw [if_pos h]

theorem predictFrame_ok (P : Mat34 F) (p : Point3d F) (h : ¬ depthSq P p < 1 / 10 ^ 10) :
    predictFrame P p =
      some (jacobianBlock P p, [(project P p).u, (project P p).v]) := by
  unfold depthSq rowTerm at h
  unfold predictFrame
  simp only
  rw [if_neg h]
  rfl

theorem drop_take_succ (frames : List (frame_state_t F)) (i n : Nat) (hi : i < frames.length) :
    (frames.drop i).take (n + 1) = frames[i] :: (frames.drop (i + 1)).take n := by
  rw [List.drop_eq_getElem_cons hi, List.take_succ_cons]

theorem computePredictionsAndJacobian_ok (frames : List (frame_state_t F)) (p : Point3d F)
    (i n : Nat) (h : i + n ≤ frames.length)
    (hok : ∀ f ∈ (frames.drop i).take n, ¬ depthSq f.proj p < 1 / 10 ^ 10) :
    computePredictionsAndJacobian frames p i n =
      some (some (sliceJacobian ((frames.drop i).take n) p,
        slicePrediction ((frames.drop i).take n) p)) := by
  induction n generalizing i with
  | zero => simp [computePredictionsAndJacobian, sliceJacobian, slicePrediction]
  | succ n ih =>
    have hi : i < frames.length := by omega
    rw [drop_take_succ frames i n hi] at hok ⊢
    unfold computePredictionsAndJacobian
    rw [List.getElem?_eq_getElem hi]
    simp only
    rw [predictFrame_ok _ _ (hok _ (List.mem_cons_self _ _))]
    simp only
    rw [ih (i + 1) (by omega) fun f hf => hok f (List.mem_cons_of_mem _ hf)]
    simp [sliceJacobian, slicePrediction]

theorem computePredictionsAndJacobian_fail (frames : List (frame_state_t F)) (p : Point3d F)
    (i n : Nat) (h : i + n ≤ frames.length)
    (hbad : ∃ f ∈ (frames.drop i).take n, depthSq f.proj p < 1 / 10 ^ 10) :
    computePredictionsAndJacobian frames p i n = some none := by
  induction n generalizing i with
  | zero =>
    obtain ⟨f, hf, _⟩ := hbad
    simp at hf
  | succ n ih =>
    have hi : i < frames.length := by omega
    rw [drop_take_succ frames i n hi] at hbad
    unfold computePredictionsAndJacobian
    rw [List.getElem?_eq_getElem hi]
    simp only
    by_cases h0 : depthSq frames[i].proj p < 1 / 10 ^ 10
    · rw [predictFrame_fail _ _ h0]
    · rw [predictFrame_ok _ _ h0]
      simp only
      obtain ⟨f, hf, hlt⟩ := hbad
      rcases List.mem_cons.mp hf with rfl | hf
      · exact absurd hlt h0
      · rw [ih (i + 1) (by omega) ⟨f, hf, hlt⟩]

theorem updatePoint_of_solve (lib : Lib F) (frames : List (frame_state_t F)) (popped : Nat)
    (t : track F) (p : Point3d F) (step_size eps : F) (f1 : frame_state_t F)
    (J p_predict : List F)
    (hd : deref frames popped t.first_frame = some f1)
    (hin : 1 + f1.frames_ago ≤ frames.length)
    (hc : computePredictionsAndJacobian frames p (frames.length - 1 - f1.frames_ago)
      t.pixels.length = some (some (J, p_predict))) :
    updatePoint lib frames popped t p step_size eps =
      match lib.solve (normalA J t.pixels.length)
          (normalB J (computeObservations t.pixels) p_predict t.pixels.length) with
      | some B =>
        some (if |B 0| < eps ∧ |B 1| < eps ∧ |B 2| < eps then result.CONVERGED
          else result.UPDATED, stepPoint p step_size B)
      | none => some (result.FAILED, p) := by
  unfold updatePoint
  simp only [hd]
  rw [if_neg (by omega), hc]
  simp only
  cases lib.solve (normalA J t.pixels.length)
      (normalB J (computeObservations t.pixels) p_predict t.pixels.length) with
  | none => rfl
  | some B =>
    simp only [stepPoint]
    split <;> rfl

/-! ## C15: the outcome of a Gauss-Newton step -/

theorem normalB_self (J p_observe : List F) (n : Nat) : normalB J p_observe p_observe n = 0 := by
  funext m
  simp [normalB]

theorem slicePrediction_eq (fs : List (frame_state_t F)) (p : Point3d F) :
    slicePrediction fs p = computeObservations (fs.map fun f => project f.proj p) := by
  induction fs with
  | nil => rfl
  | cons f fs ih =>
    simp only [slicePrediction, computeObservations, List.flatMap_cons, List.map_cons] at ih ⊢
    rw [ih]

theorem updatePoint_fixed (lib : Lib F) (frames : List (frame_state_t F)) (popped : Nat)
    (t : track F) (p : Point3d F) (step_size eps : F) (f1 : frame_state_t F) (δ : Fin 3 → F)
    (hd : deref frames popped t.first_frame = some f1)
    (hin : 1 + f1.frames_ago ≤ frames.length)
    (hn : t.pixels.length ≤ 1 + f1.frames_ago)
    (hdepth : ∀ f ∈ sliceOf frames f1 t.pixels.length, ¬ depthSq f.proj p < 1 / 10 ^ 10)
    (hobs : (sliceOf frames f1 t.pixels.length).map (fun f => project f.proj p) = t.pixels)
    (hsolve : lib.solve
      (normalA (sliceJacobian (sliceOf frames f1 t.pixels.length) p) t.pixels.length)
      (normalB (sliceJacobian (sliceOf frames f1 t.pixels.length) p)
        (computeObservations t.pixels)
        (slicePrediction (sliceOf frames f1 t.pixels.length) p) t.pixels.length) = some δ)
    (hsol : (normalA (sliceJacobian (sliceOf frames f1 t.pixels.length) p)
        t.pixels.length).mulVec δ =
      normalB (sliceJacobian (sliceOf frames f1 t.pixels.length) p)
        (computeObservations t.pixels)
        (slicePrediction (sliceOf frames f1 t.pixels.length) p) t.pixels.length)
    (hdet : (normalA (sliceJacobian (sliceOf frames f1 t.pixels.length) p)
      t.pixels.length).det ≠ 0)
    (heps : 0 < eps) :
    δ = 0 ∧ updatePoint lib frames popped t p step_size eps = some (result.CONVERGED, p) := by
  have hrange : frames.length - 1 - f1.frames_ago + t.pixels.length ≤ frames.length := by omega
  have hpred : slicePrediction (sliceOf frames f1 t.pixels.length) p =
      computeObservations t.pixels := by
    rw [slicePrediction_eq, hobs]
  rw [hpred, normalB_self] at hsol
  have hδ : δ = 0 := Matrix.eq_zero_of_mulVec_eq_zero hdet hsol
  refine ⟨hδ, ?_⟩
  have hc := computePredictionsAndJacobian_ok frames p _ _ hrange hdepth
  have hu := updatePoint_of_solve lib frames popped t p step_size eps f1 _ _ hd hin hc
  unfold sliceOf at hsolve
  rw [hsolve] at hu
  rw [hu, hδ]
  simp [stepPoint, heps]

theorem refinePoint_fixed (lib : Lib F) (frames : List (frame_state_t F)) (popped : Nat)
    (t : track F) (p : Point3d F)
    (h : updatePoint lib frames popped t p 1 (1 / 10 ^ 5) = some (result.CONVERGED, p)) :
    refinePoint lib frames popped t p = some (true, p, 1) := by
  unfold refinePoint
  rw [refineLoop_succ, h]
  simp

/-- C19. Let the frames `f_begin .. f_end` of the track lie inside the window,
let the squared depth term of `p` be at least `1e-10` in each of them and the
pixel predicted for `p` in each of them be the observed pixel.  If the solve of
the normal equations returns a solution `δ` of `A δ = B` with `A` non-singular,
then `δ = 0`, `updatePoint` returns `CONVERGED` and leaves `p` unchanged (for
every step size and every positive `eps`), and `refinePoint` returns `true`
after one call of `updatePoint`, leaving `p` unchanged. -/
theorem C19_fixed_point (lib : Lib F) (frames : List (frame_state_t F)) (popped : Nat)
    (t : track F) (p : Point3d F) (step_size eps : F) (f1 : frame_state_t F) (δ : Fin 3 → F)
    (hd : deref frames popped t.first_frame = some f1)
    (hin : 1 + f1.frames_ago ≤ frames.length)
    (hn : t.pixels.length ≤ 1 + f1.frames_ago)
    (hdepth : ∀ f ∈ sliceOf frames f1 t.pixels.length, ¬ depthSq f.proj p < 1 / 10 ^ 10)
    (hobs : (sliceOf frames f1 t.pixels.length).map (fun f => project f.proj p) = t.pixels)
    (hsolve : lib.solve
      (normalA (sliceJacobian (sliceOf frames f1 t.pixels.length) p) t.pixels.length)
      (normalB (sliceJacobian (sliceOf frames f1 t.pixels.length) p)
        (computeObservations t.pixels)
        (slicePrediction (sliceOf frames f1 t.pixels.length) p) t.pixels.length) = some δ)
    (hsol : (normalA (sliceJacobian (sliceOf frames f1 t.pixels.length) p)
        t.pixels.length).mulVec δ =
      normalB (sliceJacobian (sliceOf frames f1 t.pixels.length) p)
        (computeObservations t.pixels)
        (slicePrediction (sliceOf frames f1 t.pixels.length) p) t.pixels.length)
    (hdet : (normalA (sliceJacobian (sliceOf frames f1 t.pixels.length) p)
      t.pixels.length).det ≠ 0)
    (heps : 0 < eps) :
    δ = 0 ∧ updatePoint lib frames popped t p step_size eps = some (result.CONVERGED, p) ∧
      refinePoint lib frames popped t p = some (true, p, 1) := by
  refine ⟨(updatePoint_fixed lib frames popped t p step_size eps f1 δ hd hin hn hdepth hobs
    hsolve hsol hdet heps).1,
    (updatePoint_fixed lib frames popped t p step_size eps f1 δ hd hin hn hdepth hobs
      hsolve hsol hdet heps).2, ?_⟩
  exact refinePoint_fixed lib frames popped t p
    (updatePoint_fixed lib frames popped t p 1 (1 / 10 ^ 5) f1 δ hd hin hn hdepth hobs
      hsolve hsol hdet (by positivity)).2

/-! ## Lemmas: the sideways example over the reals -/

theorem deref_real_first : deref framesReal 0 trackReal.first_frame = some frameLeft := rfl

theorem deref_real_last : deref framesReal 0 1 = some (newFrame 1) := rfl

theorem proj_frameLeft : frameLeft.proj = !![1, 0, 0, 1; 0, 1, 0, 0; 0, 0, 1, 0] := by
  ext i j
  fin_cases i <;> fin_cases j <;>
    simp +decide [frameLeft, getMat34, shiftX, Matrix.vecHead, Matrix.vecTail]

theorem proj_newFrame_real :
    (newFrame (1 : Mat3 ℝ)).proj = !![1, 0, 0, 0; 0, 1, 0, 0; 0, 0, 1, 0] := by
  ext i j
  fin_cases i <;> fin_cases j <;>
    simp +decide [newFrame, getMat34, Matrix.one_apply, Matrix.vecHead, Matrix.vecTail]

theorem kernel_side :
    (triangulationMatrix frameLeft.proj (newFrame (1 : Mat3 ℝ)).proj ⟨3 / 4, 0⟩ ⟨0, 0⟩).mulVec
        (fun i => svdSide i 3) = 0 ∧
      svdSide 0 3 ^ 2 + svdSide 1 3 ^ 2 + svdSide 2 3 ^ 2 + svdSide 3 3 ^ 2 = 1 := by
  rw [proj_frameLeft, proj_newFrame_real]
  constructor
  · funext i
    fin_cases i <;>
      simp [triangulationMatrix, Matrix.mulVec, Matrix.dotProduct, Fin.sum_univ_four, svdSide,
        Matrix.vecHead, Matrix.vecTail] <;> norm_num
  · simp [svdSide, Matrix.vecHead, Matrix.vecTail]
    norm_num

theorem initPoint_real : initPoint realLib framesReal 0 trackReal = some (some pointReal) := by
  unfold initPoint
  rw [deref_real_first]
  simp only [trackReal, deref_real_last, List.head?_cons, List.getLast?_cons_cons,
    List.getLast?_singleton]
  simp [initPointCore, realLib, svdSide, pointReal, Matrix.vecHead, Matrix.vecTail]
  norm_num [abs_of_pos]

theorem pointType_real : pointType 1 framesReal 0 trackReal pointReal = some 1 := by
  unfold pointType
  rw [deref_real_first]
  simp only [trackReal, deref_real_last]
  simp +decide [affineTransform, frameLeft, newFrame, shiftX, pointReal, pointTypeCore,
    Matrix.one_apply]
  norm_num

theorem slice_real : sliceOf framesReal frameLeft trackReal.pixels.length = framesReal := rfl

theorem depth_real :
    ∀ f ∈ sliceOf framesReal frameLeft trackReal.pixels.length,
      ¬ depthSq f.proj pointReal < 1 / 10 ^ 10 := by
  rw [slice_real]
  intro f hf
  simp only [framesReal, List.mem_cons, List.mem_singleton, List.not_mem_nil, or_false] at hf
  rcases hf with rfl | rfl
  · rw [proj_frameLeft]
    simp [depthSq, rowTerm, pointReal, Matrix.vecHead, Matrix.vecTail]
    norm_num
  · rw [proj_newFrame_real]
    simp [depthSq, rowTerm, pointReal, Matrix.vecHead, Matrix.vecTail]
    norm_num

theorem observed_real :
    (sliceOf framesReal frameLeft trackReal.pixels.length).map
      (fun f => project f.proj pointReal) = trackReal.pixels := by
  rw [slice_real]
  simp only [framesReal, List.map_cons, List.map_nil, proj_frameLeft, proj_newFrame_real]
  simp [project, rowTerm, pointReal, trackReal, Matrix.vecHead, Matrix.vecTail]

theorem jacobian_real :
    sliceJacobian (sliceOf framesReal frameLeft trackReal.pixels.length) pointReal =
      [3 / 4, 0, -(9 / 16), 0, 3 / 4, 0, 3 / 4, 0, 0, 0, 3 / 4, 0] := by
  have h2 : (Fin.castSucc (2 : Fin 3) : Fin 4) = 2 := rfl
  rw [slice_real]
  simp only [framesReal, sliceJacobian, List.flatMap_cons, List.flatMap_nil, proj_frameLeft,
    proj_newFrame_real]
  simp +decide [jacobianBlock, jacobianEntry, depthSq, rowTerm, pointReal, Matrix.vecHead,
    Matrix.vecTail, h2]
  norm_num

theorem normalA_real :
    normalA (sliceJacobian (sliceOf framesReal frameLeft trackReal.pixels.length) pointReal)
        trackReal.pixels.length =
      !![9 / 8, 0, -(27 / 64); 0, 9 / 8, 0; -(27 / 64), 0, 81 / 256] := by
  rw [jacobian_real]
  ext i j
  fin_cases i <;> fin_cases j <;>
    simp [normalA, trackReal, List.range_succ, Matrix.vecHead, Matrix.vecTail] <;> norm_num

theorem det_real :
    (normalA (sliceJacobian (sliceOf framesReal frameLeft trackReal.pixels.length) pointReal)
      trackReal.pixels.length).det ≠ 0 := by
  rw [normalA_real, Matrix.det_fin_three]
  simp [Matrix.vecHead, Matrix.vecTail]
  norm_num

theorem normalB_real :
    normalB (sliceJacobian (sliceOf framesReal frameLeft trackReal.pixels.length) pointReal)
      (computeObservations trackReal.pixels)
      (slicePrediction (sliceOf framesReal frameLeft trackReal.pixels.length) pointReal)
      trackReal.pixels.length = 0 := by
  rw [slicePrediction_eq, observed_real, normalB_self]

theorem solve_real :
    realLib.solve
      (normalA (sliceJacobian (sliceOf framesReal frameLeft trackReal.pixels.length) pointReal)
        trackReal.pixels.length)
      (normalB (sliceJacobian (sliceOf framesReal frameLeft trackReal.pixels.length) pointReal)
        (computeObservations trackReal.pixels)
        (slicePrediction (sliceOf framesReal frameLeft trackReal.pixels.length) pointReal)
        trackReal.pixels.length) = some 0 := by
  rw [normalB_real]
  have h := exactSolve_eq _ (0 : Fin 3 → ℝ) det_real
  rw [Matrix.mulVec_zero] at h
  exact h

theorem solution_real :
    (normalA (sliceJacobian (sliceOf framesReal frameLeft trackReal.pixels.length) pointReal)
        trackReal.pixels.length).mulVec 0 =
      normalB (sliceJacobian (sliceOf framesReal frameLeft trackReal.pixels.length) pointReal)
        (computeObservations trackReal.pixels)
        (slicePrediction (sliceOf framesReal frameLeft trackReal.pixels.length) pointReal)
        trackReal.pixels.length := by
  rw [normalB_real, Matrix.mulVec_zero]

theorem refinePoint_real :
    refinePoint realLib framesReal 0 trackReal pointReal = some (true, pointReal, 1) :=
  refinePoint_fixed realLib framesReal 0 trackReal pointReal
    (updatePoint_fixed realLib framesReal 0 trackReal pointReal 1 (1 / 10 ^ 5) frameLeft 0
      deref_real_first (by decide) (by decide) depth_real observed_real solve_real
      solution_real det_real (by positivity)).2

theorem pointDistance_real :
    pointDistance realLib framesReal 0 trackReal pointReal = some (5 / 3) := by
  unfold pointDistance
  rw [deref_real_first]
  simp only [trackReal, deref_real_last]
  have hmid : framesReal.reverse[(frameLeft.frames_ago + (newFrame (1 : Mat3 ℝ)).frames_ago + 1)
      / 2]? = some frameLeft := rfl
  rw [hmid]
  simp +decide [frameLeft, shiftX, pointReal, realLib]
  rw [Real.sqrt_eq_iff_mul_self_eq (by norm_num) (by norm_num)]
  norm_num

theorem rayAngle_real :
    rayAngle realLib framesReal 0 trackReal pointReal =
      some (Real.arccos (4 / 5) * 180 / Real.pi) := by
  have h1 : Real.sqrt (1 + 4 / 3 * (4 / 3)) = 5 / 3 := by
    rw [Real.sqrt_eq_iff_mul_self_eq (by norm_num) (by norm_num)]
    norm_num
  have h2 : Real.sqrt (4 / 3 * (4 / 3)) = 4 / 3 := by
    rw [Real.sqrt_eq_iff_mul_self_eq (by norm_num) (by norm_num)]
  unfold rayAngle
  rw [deref_real_first]
  simp only [trackReal, deref_real_last]
  simp +decide [rayAngleCore, translation, frameLeft, newFrame, shiftX, pointReal, realLib,
    Matrix.one_apply, h1, h2]
  norm_num
  rw [abs_of_pos (by norm_num)]

/-- C19 for the sideways example: the point `(0, 0, 4/3)` observed exactly in
both frames. -/
theorem C19_fixed_point_witness :
    (0 : Fin 3 → ℝ) = 0 ∧
      updatePoint realLib framesReal 0 trackReal pointReal 1 (1 / 10 ^ 5) =
        some (result.CONVERGED, pointReal) ∧
      refinePoint realLib framesReal 0 trackReal pointReal = some (true, pointReal, 1) :=
  C19_fixed_point realLib framesReal 0 trackReal pointReal 1 (1 / 10 ^ 5) frameLeft 0
    deref_real_first (by decide) (by decide) depth_real observed_real solve_real
    solution_real det_real (by positivity)

/-! ## C13: the thresholds of the quality filter -/

theorem reconstruct_filter (lib : Lib F) (Tr_cam_road : Mat4 F)
    (frames : List (frame_state_t F)) (popped : Nat) (point_type : Int) (max_dist min_angle : F)
    (t : track F) (p0 q : Point3d F) (ty : Int) (n : Nat) (d a : F)
    (hi : initPoint lib frames popped t = some (some p0))
    (hty : pointType Tr_cam_road frames popped t p0 = some ty) (hge : point_type ≤ ty)
    (hr : refinePoint lib frames popped t p0 = some (true, q, n))
    (hd : pointDistance lib frames popped t q = some d)
    (ha : rayAngle lib frames popped t q = some a) :
    (reconstruct lib Tr_cam_road frames popped point_type max_dist min_angle t = some (some q) ↔
        d < max_dist ∧ min_angle < a) ∧
      (reconstruct lib Tr_cam_road frames popped point_type max_dist min_angle t = some none ↔
        max_dist ≤ d ∨ a ≤ min_angle) := by
  unfold reconstruct
  rw [hi]
  simp only [hty, ge_iff_le, hge, if_true, hr, hd, ha, gt_iff_lt]
  by_cases h1 : d < max_dist
  · by_cases h2 : min_angle < a
    · simp [h1, h2, not_le.mpr h1, not_le.mpr h2]
    · simp [h1, h2, not_lt.mp h2]
  · simp [h1, not_lt.mp h1]

/-- C13 (amended). For a finalized track whose candidate `p0` has been
triangulated, classified with a type at least `point_type` and refined
successfully to `q`, with `d` the value of `pointDistance` and `a` the value of
`rayAngle` for `q`: the point `q` is stored exactly when `d < max_dist` and
`a > min_angle`, and it is rejected exactly when `d >= max_dist` or
`a <= min_angle`; in particular a candidate whose distance equals `max_dist`,
or whose angle equals `min_angle`, is rejected. -/
theorem C13_quality_filter (lib : Lib F) (Tr_cam_road : Mat4 F)
    (frames : List (frame_state_t F)) (popped : Nat) (point_type : Int) (max_dist min_angle : F)
    (t : track F) (p0 q : Point3d F) (ty : Int) (n : Nat) (d a : F)
    (hi : initPoint lib frames popped t = some (some p0))
    (hty : pointType Tr_cam_road frames popped t p0 = some ty) (hge : point_type ≤ ty)
    (hr : refinePoint lib frames popped t p0 = some (true, q, n))
    (hd : pointDistance lib frames popped t q = some d)
    (ha : rayAngle lib frames popped t q = some a) :
    (reconstruct lib Tr_cam_road frames popped point_type max_dist min_angle t = some (some q) ↔
        d < max_dist ∧ min_angle < a) ∧
      (reconstruct lib Tr_cam_road frames popped point_type max_dist min_angle t = some none ↔
        max_dist ≤ d ∨ a ≤ min_angle) ∧
      (d = max_dist ∨ a = min_angle →
        reconstruct lib Tr_cam_road frames popped point_type max_dist min_angle t =
          some none) := by
  obtain ⟨h1, h2⟩ := reconstruct_filter lib Tr_cam_road frames popped point_type max_dist
    min_angle t p0 q ty n d a hi hty hge hr hd ha
  refine ⟨h1, h2, ?_⟩
  intro h
  rcases h with h | h
  · exact h2.mpr (Or.inl (le_of_eq h.symm))
  · exact h2.mpr (Or.inr (le_of_eq h))

/-- C13 (amended) for the sideways example with the thresholds `max_dist = 2`
and `min_angle = 0`. -/
theorem C13_quality_filter_witness :
    (reconstruct realLib 1 framesReal 0 1 2 0 trackReal = some (some pointReal) ↔
        (5 / 3 : ℝ) < 2 ∧ 0 < Real.arccos (4 / 5) * 180 / Real.pi) ∧
      (reconstruct realLib 1 framesReal 0 1 2 0 trackReal = some none ↔
        (2 : ℝ) ≤ 5 / 3 ∨ Real.arccos (4 / 5) * 180 / Real.pi ≤ 0) ∧
      ((5 / 3 : ℝ) = 2 ∨ Real.arccos (4 / 5) * 180 / Real.pi = 0 →
        reconstruct realLib 1 framesReal 0 1 2 0 trackReal = some none) :=
  C13_quality_filter realLib 1 framesReal 0 1 2 0 trackReal pointReal pointReal 1 1 (5 / 3)
    (Real.arccos (4 / 5) * 180 / Real.pi) initPoint_real pointType_real (le_refl _)
    refinePoint_real pointDistance_real rayAngle_real

/-- C13 fails as stated: in the sideways example the candidate `(0, 0, 4/3)`
is triangulated, classified (type 1) and refined successfully; its distance is
`5/3` and its angle `acos(4/5) * 180 / pi`.  With `max_dist = 5/3` and
`min_angle = acos(4/5) * 180 / pi`, both equal to the measured values, the
candidate is rejected, as it is when only one of the two thresholds equals the
measured value; with `max_dist = 2` and `min_angle = 0` it is stored. -/
theorem C13_counterexample :
    initPoint realLib framesReal 0 trackReal = some (some pointReal) ∧
      pointType 1 framesReal 0 trackReal pointReal = some 1 ∧
      refinePoint realLib framesReal 0 trackReal pointReal = some (true, pointReal, 1) ∧
      pointDistance realLib framesReal 0 trackReal pointReal = some (5 / 3) ∧
      rayAngle realLib framesReal 0 trackReal pointReal =
        some (Real.arccos (4 / 5) * 180 / Real.pi) ∧
      reconstruct realLib 1 framesReal 0 1 (5 / 3) (Real.arccos (4 / 5) * 180 / Real.pi)
        trackReal = some none ∧
      reconstruct realLib 1 framesReal 0 1 (5 / 3) 0 trackReal = some none ∧
      reconstruct realLib 1 framesReal 0 1 2 (Real.arccos (4 / 5) * 180 / Real.pi)
        trackReal = some none ∧
      reconstruct realLib 1 framesReal 0 1 2 0 trackReal = some (some pointReal) := by
  have hpos : 0 < Real.arccos (4 / 5) * 180 / Real.pi := by
    have h := Real.arccos_pos.mpr (by norm_num : (4 / 5 : ℝ) < 1)
    have hpi := Real.pi_pos
    positivity
  refine ⟨initPoint_real, pointType_real, refinePoint_real, pointDistance_real, rayAngle_real,
    ?_, ?_, ?_, ?_⟩
  · exact (reconstruct_filter realLib 1 framesReal 0 1 _ _ trackReal pointReal pointReal 1 1 _ _
      initPoint_real pointType_real (le_refl _) refinePoint_real pointDistance_real
      rayAngle_real).2.mpr (Or.inl (le_refl _))
  · exact (reconstruct_filter realLib 1 framesReal 0 1 _ _ trackReal pointReal pointReal 1 1 _ _
      initPoint_real pointType_real (le_refl _) refinePoint_real pointDistance_real
      rayAngle_real).2.mpr (Or.inl (le_refl _))
  · exact (reconstruct_filter realLib 1 framesReal 0 1 _ _ trackReal pointReal pointReal 1 1 _ _
      initPoint_real pointType_real (le_refl _) refinePoint_real pointDistance_real
      rayAngle_real).2.mpr (Or.inr (le_refl _))
  · exact (reconstruct_filter realLib 1 framesReal 0 1 _ _ trackReal pointReal pointReal 1 1 _ _
      initPoint_real pointType_real (le_refl _) refinePoint_real pointDistance_real
      rayAngle_real).1.mpr ⟨by norm_num, hpos⟩

/-! ## C12: projection consistency under ageing -/

theorem prepare_pose {lib : Lib F} {max_track_length : Nat} {s : Reconstruction F}
    {p_matched : List (p_match F)} {rev_Tr : Mat4 F} {tracks1 : List (track F)}
    {frames1 : List (frame_state_t F)} {popped : Nat} {points : List (Point3d F)}
    (h : prepare lib max_track_length s p_matched rev_Tr =
      some (tracks1, frames1, popped, points)) :
    frames1.map pose =
      ((evict s.frames s.popped).1.map (ageFrame lib s.K rev_Tr) ++ [newFrame s.K]).map pose := by
  unfold prepare at h
  simp only at h
  cases hm : build_track_map p_matched s.tracks with
  | none => rw [hm] at h; exact absurd h (by simp)
  | some track_map =>
    rw [hm] at h
    simp only at h
    cases ha : associate max_track_length track_map (evict s.frames s.popped).2 p_matched
        s.tracks ((evict s.frames s.popped).1.map (ageFrame lib s.K rev_Tr) ++
          [newFrame s.K]) with
    | none => rw [ha] at h; exact absurd h (by simp)
    | some r =>
      obtain ⟨tr, fr⟩ := r
      rw [ha] at h
      simp only [Option.some.injEq, Prod.mk.injEq] at h
      obtain ⟨_, rfl, _, _⟩ := h
      exact associate_pose p_matched ha

theorem updateLog_pose {lib : Lib F} {max_track_length : Nat} {s s1 : Reconstruction F}
    {p_matched : List (p_match F)} {rev_Tr : Mat4 F} {point_type min_track_length : Int}
    {max_dist min_angle : F} {lost : List (track F)}
    (h : updateLog lib max_track_length s p_matched rev_Tr point_type min_track_length max_dist
      min_angle = some (s1, lost)) :
    s1.K = s.K ∧ s1.frames.map pose =
      ((evict s.frames s.popped).1.map (ageFrame lib s.K rev_Tr) ++ [newFrame s.K]).map pose := by
  unfold updateLog at h
  cases hp : prepare lib max_track_length s p_matched rev_Tr with
  | none => rw [hp] at h; exact absurd h (by simp)
  | some r =>
    obtain ⟨tracks1, frames1, popped, points⟩ := r
    rw [hp] at h
    simp only at h
    cases hsw : sweep lib s.Tr_cam_road popped point_type min_track_length
        max_dist min_angle tracks1 frames1 points with
    | none => rw [hsw] at h; exact absurd h (by simp)
    | some r =>
      obtain ⟨kept, frames2, points2, lost2⟩ := r
      rw [hsw] at h
      simp only [Option.some.injEq, Prod.mk.injEq] at h
      obtain ⟨rfl, _⟩ := h
      refine ⟨rfl, ?_⟩
      simp only
      rw [sweep_pose lib s.Tr_cam_road _ point_type min_track_length max_dist min_angle
        tracks1 frames1 points hsw, prepare_pose hp]

theorem getMat34_mul (A B : Mat4 F) : getMat34 (A * B) = getMat34 A * B := by
  ext i j
  simp [getMat34, Matrix.mul_apply]

theorem rowTerm_eq_mulVec (P : Mat34 F) (r : Fin 3) (X : Point3d F) :
    rowTerm P r X = P.mulVec (homog X) r := by
  simp [rowTerm, homog, Matrix.mulVec, Matrix.dotProduct, Fin.sum_univ_four]

theorem homog_affineTransform (M : Mat4 F) (p : Point3d F)
    (hrow : ∀ j : Fin 4, M 3 j = if j = 3 then 1 else 0) :
    homog (affineTransform M p) = M.mulVec (homog p) := by
  funext i
  fin_cases i <;>
    simp [homog, affineTransform, Matrix.mulVec, Matrix.dotProduct, Fin.sum_univ_four, hrow]

theorem aged_projection (lib : Lib F) (K : Mat3 F) (rev_Tr : Mat4 F) (f : frame_state_t F)
    (h1 : f.inv * f.fwd = 1) (h2 : f.proj = K * getMat34 f.inv)
    (h3 : lib.inv (rev_Tr * f.fwd) * (rev_Tr * f.fwd) = 1) :
    (∀ x : Fin 4 → F,
        (K * getMat34 (lib.inv (rev_Tr * f.fwd))).mulVec (rev_Tr.mulVec x) = f.proj.mulVec x) ∧
      ((∀ j : Fin 4, rev_Tr 3 j = if j = 3 then 1 else 0) → ∀ p : Point3d F,
        project (K * getMat34 (lib.inv (rev_Tr * f.fwd))) (affineTransform rev_Tr p) =
          project f.proj p) := by
  have h4 : f.fwd * f.inv = 1 := Matrix.mul_eq_one_comm.mp h1
  have h5 : lib.inv (rev_Tr * f.fwd) * rev_Tr = f.inv := by
    calc lib.inv (rev_Tr * f.fwd) * rev_Tr
        = lib.inv (rev_Tr * f.fwd) * rev_Tr * (f.fwd * f.inv) := by rw [h4, Matrix.mul_one]
      _ = lib.inv (rev_Tr * f.fwd) * (rev_Tr * f.fwd) * f.inv := by
          simp only [Matrix.mul_assoc]
      _ = f.inv := by rw [h3, Matrix.one_mul]
  have h6 : ∀ x : Fin 4 → F,
      (K * getMat34 (lib.inv (rev_Tr * f.fwd))).mulVec (rev_Tr.mulVec x) = f.proj.mulVec x := by
    intro x
    rw [Matrix.mulVec_mulVec, Matrix.mul_assoc, ← getMat34_mul, h5, h2]
  refine ⟨h6, ?_⟩
  intro hrow p
  unfold project
  simp only [rowTerm_eq_mulVec, homog_affineTransform rev_Tr p hrow, h6]

theorem evict_mem (frames : List (frame_state_t F)) (popped : Nat) (f : frame_state_t F)
    (h : f ∈ (evict frames popped).1) : f ∈ frames := by
  induction frames generalizing popped with
  | nil => simp [evict] at h
  | cons g gs ih =>
    unfold evict at h
    split at h
    · exact List.mem_cons_of_mem _ (ih _ h)
    · exact h

theorem reachable_frames {lib : Lib F} {max_track_length : Nat} {s : Reconstruction F}
    (h : Reachable lib max_track_length s) :
    ∀ f ∈ s.frames, f.proj = s.K * getMat34 f.inv ∧
      (f.inv = lib.inv f.fwd ∨ (f.fwd = 1 ∧ f.inv = 1)) := by
  cases h with
  | init K Tr => intro f hf; simp [emptyState] at hf
  | step p_matched rev_Tr point_type min_track_length max_dist min_angle _ hu =>
    rename_i s0
    unfold update at hu
    simp only [Option.map_eq_some', Prod.exists, exists_and_right, exists_eq_right] at hu
    obtain ⟨lost, hl⟩ := hu
    obtain ⟨hK, hp⟩ := updateLog_pose hl
    intro f hf
    have hmem : pose f ∈ s.frames.map pose := List.mem_map_of_mem _ hf
    rw [hp] at hmem
    obtain ⟨g, hg, hpose⟩ := List.mem_map.mp hmem
    simp only [pose, Prod.mk.injEq] at hpose
    obtain ⟨hfw, hiv, hpr, _⟩ := hpose
    rcases List.mem_append.mp hg with hg | hg
    · obtain ⟨g0, _, rfl⟩ := List.mem_map.mp hg
      simp only [ageFrame] at hfw hiv hpr
      refine ⟨by rw [← hpr, ← hiv, hK], Or.inl (by rw [← hiv, ← hfw])⟩
    · rw [List.mem_singleton.mp hg] at hfw hiv hpr
      simp only [newFrame] at hfw hiv hpr
      refine ⟨by rw [← hpr, ← hiv, hK], Or.inr ⟨hfw.symm, hiv.symm⟩⟩

/-- C12. For an `update` issued in a state reached from the empty state, the
window it leaves is the window left by the eviction loop, aged, followed by the
new frame.  A retained frame `f` becomes `f1` with `f1.fwd = rev_Tr * f.fwd`,
`f1.inv = Matrix::inv(f1.fwd)`, `f1.proj = K * f1.inv.getMat(0,0,2,3)` and the
age of `f` plus one.  When `Matrix::inv` returns a left inverse of `f.fwd` and
of `rev_Tr * f.fwd` (both are invertible and the routine is right on them),
`f1.inv` is the inverse of `f1.fwd`, and `f1.proj` applied to `rev_Tr * x` is
`f.proj` applied to `x` for every homogeneous `x`; a point re-expressed by
`affineTransform` with a motion whose last row is `(0, 0, 0, 1)` keeps its
pixel in the frame.  The newest frame has `fwd` and `inv` the identity,
`proj = K * [I | 0]` and age 0. -/
theorem C12_projection_consistency (lib : Lib F) (max_track_length : Nat)
    (s s1 : Reconstruction F) (p_matched : List (p_match F)) (rev_Tr : Mat4 F)
    (point_type min_track_length : Int) (max_dist min_angle : F) (lost : List (track F))
    (hr : Reachable lib max_track_length s)
    (hu : updateLog lib max_track_length s p_matched rev_Tr point_type min_track_length max_dist
      min_angle = some (s1, lost)) :
    s1.K = s.K ∧ s1.frames.length = (evict s.frames s.popped).1.length + 1 ∧
      (∀ (i : Nat) (f : frame_state_t F), (evict s.frames s.popped).1[i]? = some f →
        ∃ f1, s1.frames[i]? = some f1 ∧ f1.fwd = rev_Tr * f.fwd ∧
          f1.inv = lib.inv f1.fwd ∧ f1.proj = s.K * getMat34 f1.inv ∧
          f1.frames_ago = f.frames_ago + 1 ∧
          (lib.inv f.fwd * f.fwd = 1 →
            lib.inv (rev_Tr * f.fwd) * (rev_Tr * f.fwd) = 1 →
            f1.inv * f1.fwd = 1 ∧
              (∀ x : Fin 4 → F, f1.proj.mulVec (rev_Tr.mulVec x) = f.proj.mulVec x) ∧
              ((∀ j : Fin 4, rev_Tr 3 j = if j = 3 then 1 else 0) → ∀ p : Point3d F,
                project f1.proj (affineTransform rev_Tr p) = project f.proj p))) ∧
      ∃ fn, s1.frames[(evict s.frames s.popped).1.length]? = some fn ∧ fn.fwd = 1 ∧
        fn.inv = 1 ∧ fn.proj = s.K * getMat34 1 ∧ fn.frames_ago = 0 := by
  obtain ⟨hK, hp⟩ := updateLog_pose hu
  have hlen : s1.frames.length = (evict s.frames s.popped).1.length + 1 := by
    have := congrArg List.length hp
    simpa using this
  have hget : ∀ i : Nat, (s1.frames[i]?).map pose =
      (((evict s.frames s.popped).1.map (ageFrame lib s.K rev_Tr) ++ [newFrame s.K])[i]?).map
        pose := by
    intro i
    rw [← List.getElem?_map, ← List.getElem?_map, hp]
  refine ⟨hK, hlen, ?_, ?_⟩
  · intro i f hf
    have hi : i < (evict s.frames s.popped).1.length := by
      by_contra hn
      rw [List.getElem?_eq_none (by omega)] at hf
      exact absurd hf (by simp)
    obtain ⟨h2, hcase⟩ := reachable_frames hr f
      (evict_mem _ _ _ (List.mem_iff_getElem?.mpr ⟨i, hf⟩))
    have h := hget i
    rw [List.getElem?_append_left (by simpa using hi), List.getElem?_map, hf] at h
    cases hs : s1.frames[i]? with
    | none => rw [hs] at h; exact absurd h (by simp)
    | some f1 =>
      rw [hs] at h
      simp only [Option.map_some', Option.some.injEq, pose, ageFrame, Prod.mk.injEq] at h
      obtain ⟨hfw, hiv, hpr, hag⟩ := h
      refine ⟨f1, rfl, hfw, by rw [hiv, hfw], by rw [hpr, hiv], hag, ?_⟩
      intro h0 h3
      have h1 : f.inv * f.fwd = 1 := by
        rcases hcase with hc | ⟨hc1, hc2⟩
        · rw [hc]
          exact h0
        · rw [hc1, hc2, Matrix.one_mul]
      obtain ⟨h6, h7⟩ := aged_projection lib s.K rev_Tr f h1 h2 h3
      rw [hiv, hfw, hpr]
      exact ⟨h3, h6, h7⟩
  · have h := hget (evict s.frames s.popped).1.length
    rw [List.getElem?_append_right (by simp)] at h
    simp only [List.length_map, Nat.sub_self, List.getElem?_cons_zero] at h
    cases hs : s1.frames[(evict s.frames s.popped).1.length]? with
    | none => rw [hs] at h; exact absurd h (by simp)
    | some fn =>
      rw [hs] at h
      simp only [Option.map_some', Option.some.injEq, pose, newFrame, Prod.mk.injEq] at h
      obtain ⟨hfw, hiv, hpr, hag⟩ := h
      exact ⟨fn, rfl, hfw, hiv, hpr, hag⟩

theorem reachable_stateLeft : Reachable realLib 10 stateLeft :=
  Reachable.step [matchLeft] 1 (-1) 2 100 0 (Reachable.init 1 1)
    (rfl : update realLib 10 (emptyState 1 1) [matchLeft] 1 (-1) 2 100 0 = some stateLeft)

theorem updateLog_stateLeft :
    updateLog realLib 10 stateLeft [] (shiftX (-1)) (-1) 100 100 0 =
      some (stateLeftAfter, [{ trackLeft with last_frame := some 1 }]) := by
  rfl

theorem shiftX_left_inverse : shiftX (1 : ℝ) * (shiftX (-1) * 1) = 1 := by
  rw [Matrix.mul_one]
  ext i j
  fin_cases i <;> fin_cases j <;> simp +decide [Matrix.mul_apply, Fin.sum_univ_four, shiftX]

theorem shiftX_last_row (d : ℝ) (j : Fin 4) : shiftX d 3 j = if j = 3 then 1 else 0 := by
  fin_cases j <;> simp +decide [shiftX]

/-- C12 for the sideways example: the frame pushed with identity pose, aged by
the motion `shiftX (-1)` with the true matrix inverse. -/
theorem C12_projection_consistency_witness :
    ∃ f1, stateLeftAfter.frames[0]? = some f1 ∧ f1.fwd = shiftX (-1) * (1 : Mat4 ℝ) ∧
      f1.inv * f1.fwd = 1 ∧
      (∀ x : Fin 4 → ℝ, f1.proj.mulVec ((shiftX (-1 : ℝ)).mulVec x) =
        ((1 : Mat3 ℝ) * getMat34 1).mulVec x) ∧
      ∀ p : Point3d ℝ, project f1.proj (affineTransform (shiftX (-1)) p) =
        project ((1 : Mat3 ℝ) * getMat34 1) p := by
  obtain ⟨_, _, h, _⟩ := C12_projection_consistency realLib 10 stateLeft stateLeftAfter []
    (shiftX (-1)) (-1) 100 100 0 _ reachable_stateLeft updateLog_stateLeft
  obtain ⟨f1, hf, hfw, _, _, _, hrest⟩ := h 0 { newFrame 1 with track_count := 1 } rfl
  have hone : realLib.inv (1 : Mat4 ℝ) * 1 = 1 := by
    show (1 : Mat4 ℝ)⁻¹ * 1 = 1
    rw [inv_one, Matrix.one_mul]
  have hinv : realLib.inv (shiftX (-1) * (1 : Mat4 ℝ)) * (shiftX (-1) * (1 : Mat4 ℝ)) = 1 := by
    show (shiftX (-1) * (1 : Mat4 ℝ))⁻¹ * (shiftX (-1) * (1 : Mat4 ℝ)) = 1
    rw [Matrix.inv_eq_left_inv shiftX_left_inverse]
    exact shiftX_left_inverse
  obtain ⟨a, b, c⟩ := hrest hone hinv
  exact ⟨f1, hf, hfw, a, b, c (shiftX_last_row (-1))⟩

/-! ## C17: the Jacobian -/

theorem flatMap_getD {α : Type} (g : α → List F) (L : Nat) (hL : ∀ a, (g a).length = L)
    (fs : List α) (k m : Nat) (a : α) (hk : fs[k]? = some a) (hm : m < L) :
    (fs.flatMap g).getD (L * k + m) 0 = (g a).getD m 0 := by
  induction fs generalizing k with
  | nil => exact absurd hk (by simp)
  | cons b bs ih =>
    rw [List.flatMap_cons]
    cases k with
    | zero =>
      simp only [List.getElem?_cons_zero, Option.some.injEq] at hk
      subst hk
      rw [Nat.mul_zero, Nat.zero_add, List.getD_append _ _ _ _ (by rw [hL]; exact hm)]
    | succ k =>
      simp only [List.getElem?_cons_succ] at hk
      rw [List.getD_append_right _ _ _ _ (by rw [hL, Nat.mul_succ]; omega), hL]
      have : L * (k + 1) + m - L = L * k + m := by
        rw [Nat.mul_succ]
        omega
      rw [this]
      exact ih k hk

theorem flatMap_length {α : Type} (g : α → List F) (L : Nat) (hL : ∀ a, (g a).length = L)
    (fs : List α) : (fs.flatMap g).length = L * fs.length := by
  induction fs with
  | nil => simp
  | cons b bs ih =>
    rw [List.flatMap_cons, List.length_append, ih, hL, List.length_cons, Nat.mul_succ]
    omega

theorem slice_get (frames : List (frame_state_t F)) (i n k : Nat) (hk : k < n) :
    ((frames.drop i).take n)[k]? = frames[i + k]? := by
  rw [List.getElem?_take, if_pos hk, List.getElem?_drop]

theorem jacobianBlock_getD (P : Mat34 F) (p : Point3d F) (r : Fin 2) (j : Fin 3) :
    (jacobianBlock P p).getD (3 * r.val + j.val) 0 = jacobianEntry P p r j := by
  fin_cases r <;> fin_cases j <;> rfl

theorem prediction_getD (P : Mat34 F) (p : Point3d F) (r : Fin 2) :
    [(project P p).u, (project P p).v].getD r.val 0 =
      rowTerm P (Fin.castSucc r) p / rowTerm P 2 p := by
  fin_cases r <;> rfl

theorem rowTerm_setCoord (P : Mat34 F) (r : Fin 3) (p : Point3d F) (j : Fin 3) (x : F) :
    rowTerm P r (setCoord p j x) =
      P r (Fin.castSucc j) * x + (rowTerm P r p - P r (Fin.castSucc j) * coord p j) := by
  have h2 : (Fin.castSucc (2 : Fin 3) : Fin 4) = 2 := rfl
  fin_cases j <;> simp +decide [rowTerm, setCoord, coord, h2] <;> ring

theorem hasDerivAt_ratio (a1 a0 c1 c0 x0 : ℝ) (h : c1 * x0 + c0 ≠ 0) :
    HasDerivAt (fun x => (a1 * x + a0) / (c1 * x + c0))
      ((a1 * (c1 * x0 + c0) - c1 * (a1 * x0 + a0)) / ((c1 * x0 + c0) * (c1 * x0 + c0))) x0 := by
  have h1 : HasDerivAt (fun x : ℝ => a1 * x + a0) a1 x0 := by
    simpa using ((hasDerivAt_id x0).const_mul a1).add_const a0
  have h2 : HasDerivAt (fun x : ℝ => c1 * x + c0) c1 x0 := by
    simpa using ((hasDerivAt_id x0).const_mul c1).add_const c0
  have h3 := h1.div h2 h
  convert h3 using 1
  ring

theorem jacobianEntry_deriv (P : Mat34 ℝ) (p : Point3d ℝ) (r : Fin 2) (j : Fin 3)
    (hc : ¬ depthSq P p < 1 / 10 ^ 10) :
    HasDerivAt
      (fun x => rowTerm P (Fin.castSucc r) (setCoord p j x) / rowTerm P 2 (setCoord p j x))
      (jacobianEntry P p r j) (coord p j) := by
  have hne : rowTerm P 2 p ≠ 0 := by
    intro h0
    apply hc
    unfold depthSq
    rw [h0]
    norm_num
  have hfun : (fun x => rowTerm P (Fin.castSucc r) (setCoord p j x) /
        rowTerm P 2 (setCoord p j x)) =
      fun x => (P (Fin.castSucc r) (Fin.castSucc j) * x +
          (rowTerm P (Fin.castSucc r) p - P (Fin.castSucc r) (Fin.castSucc j) * coord p j)) /
        (P 2 (Fin.castSucc j) * x + (rowTerm P 2 p - P 2 (Fin.castSucc j) * coord p j)) := by
    funext x
    rw [rowTerm_setCoord, rowTerm_setCoord]
  rw [hfun]
  have hd := hasDerivAt_ratio (P (Fin.castSucc r) (Fin.castSucc j))
    (rowTerm P (Fin.castSucc r) p - P (Fin.castSucc r) (Fin.castSucc j) * coord p j)
    (P 2 (Fin.castSucc j)) (rowTerm P 2 p - P 2 (Fin.castSucc j) * coord p j) (coord p j)
    (by
      have : P 2 (Fin.castSucc j) * coord p j +
          (rowTerm P 2 p - P 2 (Fin.castSucc j) * coord p j) = rowTerm P 2 p := by ring
      rw [this]
      exact hne)
  convert hd using 1
  unfold jacobianEntry depthSq
  congr 1
  · ring
  · ring

/-- C17. For a projection matrix `P` and a point `p` whose squared depth term
is at least `1e-10`, the pass over one frame stores the block `jacobianBlock`
and the predicted pixel `(a/c, b/c)`; the entry `(r, j)` of the block,
`(P[r][j] * c - P[2][j] * a_r) / (c * c)`, is the derivative of the predicted
coordinate `r` (`u` or `v`) with respect to the coordinate `j` of the point.
For a pass over `n` frames inside the window with all depth terms in range,
`computePredictionsAndJacobian` succeeds with buffers of `6 n` and `2 n`
entries; for the frame `f` at position `k` of the pass, `p_predict[2k + r]` is
the predicted coordinate `r` in `f`, and `J[(2k + r) * 3 + j]`, the entry `j`
of row `2k + r`, is the entry `(r, j)` of the block of `f`, the derivative of
that prediction with respect to the coordinate `j`. -/
theorem C17_jacobian (frames : List (frame_state_t ℝ)) (p : Point3d ℝ) (i n : Nat)
    (hin : i + n ≤ frames.length)
    (hok : ∀ f ∈ (frames.drop i).take n, ¬ depthSq f.proj p < 1 / 10 ^ 10) :
    (∀ P : Mat34 ℝ, ¬ depthSq P p < 1 / 10 ^ 10 →
        predictFrame P p = some (jacobianBlock P p,
          [rowTerm P 0 p / rowTerm P 2 p, rowTerm P 1 p / rowTerm P 2 p]) ∧
        ∀ (r : Fin 2) (j : Fin 3),
          jacobianEntry P p r j =
            (P (Fin.castSucc r) (Fin.castSucc j) * rowTerm P 2 p -
              P 2 (Fin.castSucc j) * rowTerm P (Fin.castSucc r) p) /
              (rowTerm P 2 p * rowTerm P 2 p) ∧
          HasDerivAt
            (fun x => rowTerm P (Fin.castSucc r) (setCoord p j x) /
              rowTerm P 2 (setCoord p j x))
            (jacobianEntry P p r j) (coord p j)) ∧
      ∃ J p_predict, computePredictionsAndJacobian frames p i n = some (some (J, p_predict)) ∧
        J.length = 6 * n ∧ p_predict.length = 2 * n ∧
        ∀ (k : Nat) (f : frame_state_t ℝ), k < n → frames[i + k]? = some f →
          ∀ (r : Fin 2) (j : Fin 3),
            p_predict.getD (2 * k + r.val) 0 =
              rowTerm f.proj (Fin.castSucc r) p / rowTerm f.proj 2 p ∧
            J.getD ((2 * k + r.val) * 3 + j.val) 0 = jacobianEntry f.proj p r j ∧
            HasDerivAt
              (fun x => rowTerm f.proj (Fin.castSucc r) (setCoord p j x) /
                rowTerm f.proj 2 (setCoord p j x))
              (J.getD ((2 * k + r.val) * 3 + j.val) 0) (coord p j) := by
  constructor
  · intro P hP
    refine ⟨predictFrame_ok P p hP, fun r j => ⟨rfl, jacobianEntry_deriv P p r j hP⟩⟩
  · have hslen : ((frames.drop i).take n).length = n := by
      rw [List.length_take, List.length_drop]
      omega
    refine ⟨_, _, computePredictionsAndJacobian_ok frames p i n hin hok, ?_, ?_, ?_⟩
    · unfold sliceJacobian
      rw [flatMap_length (fun f : frame_state_t ℝ => jacobianBlock f.proj p) 6 (fun _ => rfl),
        hslen]
    · unfold slicePrediction
      rw [flatMap_length
        (fun f : frame_state_t ℝ => [(project f.proj p).u, (project f.proj p).v]) 2
        (fun _ => rfl), hslen]
    · intro k f hk hf r j
      have hsl : ((frames.drop i).take n)[k]? = some f := by
        rw [slice_get frames i n k hk, hf]
      have hmem : f ∈ (frames.drop i).take n := List.mem_iff_getElem?.mpr ⟨k, hsl⟩
      have hJ : (sliceJacobian ((frames.drop i).take n) p).getD ((2 * k + r.val) * 3 + j.val) 0 =
          jacobianEntry f.proj p r j := by
        have hidx : (2 * k + r.val) * 3 + j.val = 6 * k + (3 * r.val + j.val) := by ring
        rw [hidx]
        unfold sliceJacobian
        rw [flatMap_getD (fun f : frame_state_t ℝ => jacobianBlock f.proj p) 6 (fun _ => rfl)
          _ k _ f hsl (by omega)]
        exact jacobianBlock_getD f.proj p r j
      refine ⟨?_, hJ, ?_⟩
      · unfold slicePrediction
        rw [flatMap_getD (fun f : frame_state_t ℝ => [(project f.proj p).u, (project f.proj p).v])
          2 (fun _ => rfl) _ k _ f hsl r.isLt]
        exact prediction_getD f.proj p r
      · rw [hJ]
        exact jacobianEntry_deriv f.proj p r j (hok f hmem)

/-- C17 for the sideways example: the two frames of `framesReal` and the point
`(0, 0, 4/3)`. -/
theorem C17_jacobian_witness :
    (∀ P : Mat34 ℝ, ¬ depthSq P pointReal < 1 / 10 ^ 10 →
        predictFrame P pointReal = some (jacobianBlock P pointReal,
          [rowTerm P 0 pointReal / rowTerm P 2 pointReal,
            rowTerm P 1 pointReal / rowTerm P 2 pointReal]) ∧
        ∀ (r : Fin 2) (j : Fin 3),
          jacobianEntry P pointReal r j =
            (P (Fin.castSucc r) (Fin.castSucc j) * rowTerm P 2 pointReal -
              P 2 (Fin.castSucc j) * rowTerm P (Fin.castSucc r) pointReal) /
              (rowTerm P 2 pointReal * rowTerm P 2 pointReal) ∧
          HasDerivAt
            (fun x => rowTerm P (Fin.castSucc r) (setCoord pointReal j x) /
              rowTerm P 2 (setCoord pointReal j x))
            (jacobianEntry P pointReal r j) (coord pointReal j)) ∧
      ∃ J p_predict,
        computePredictionsAndJacobian framesReal pointReal 0 2 = some (some (J, p_predict)) ∧
        J.length = 6 * 2 ∧ p_predict.length = 2 * 2 ∧
        ∀ (k : Nat) (f : frame_state_t ℝ), k < 2 → framesReal[0 + k]? = some f →
          ∀ (r : Fin 2) (j : Fin 3),
            p_predict.getD (2 * k + r.val) 0 =
              rowTerm f.proj (Fin.castSucc r) pointReal / rowTerm f.proj 2 pointReal ∧
            J.getD ((2 * k + r.val) * 3 + j.val) 0 = jacobianEntry f.proj pointReal r j ∧
            HasDerivAt
              (fun x => rowTerm f.proj (Fin.castSucc r) (setCoord pointReal j x) /
                rowTerm f.proj 2 (setCoord pointReal j x))
              (J.getD ((2 * k + r.val) * 3 + j.val) 0) (coord pointReal j) :=
  C17_jacobian framesReal pointReal 0 2 (by decide) depth_real

/-! ## C10: the three-cycle scenario -/

theorem rest_proj_col (K : Mat3 F) (r : Fin 3) : (K * getMat34 (1 : Mat4 F)) r 3 = 0 := by
  simp +decide [Matrix.mul_apply, Fin.sum_univ_three, getMat34_one_apply]

theorem rest_proj_apply (K : Mat3 F) (r : Fin 3) (j : Fin 3) :
    (K * getMat34 (1 : Mat4 F)) r (Fin.castSucc j) = K r j := by
  fin_cases j <;> simp +decide [Matrix.mul_apply, Fin.sum_univ_three, getMat34_one_apply]

theorem rest_kernel (K : Mat3 F) (p1 p2 : point2d F) :
    (triangulationMatrix (K * getMat34 1) (K * getMat34 1) p1 p2).mulVec
      (fun i => (1 : Mat4 F) i 3) = 0 := by
  funext i
  fin_cases i <;>
    simp +decide [triangulationMatrix, Matrix.mulVec, Matrix.dotProduct, Fin.sum_univ_four,
      Matrix.one_apply, rest_proj_col]

theorem rest_kernel_only (K : Mat3 F) (p1 p2 : point2d F) (v : Fin 4 → F) (hK : K.det ≠ 0)
    (hpix : p1.u ≠ p2.u ∨ p1.v ≠ p2.v)
    (hv : (triangulationMatrix (K * getMat34 1) (K * getMat34 1) p1 p2).mulVec v = 0) :
    v 0 = 0 ∧ v 1 = 0 ∧ v 2 = 0 := by
  have hc0 : ∀ r : Fin 3, (K * getMat34 (1 : Mat4 F)) r 0 = K r 0 := fun r =>
    rest_proj_apply K r 0
  have hc1 : ∀ r : Fin 3, (K * getMat34 (1 : Mat4 F)) r 1 = K r 1 := fun r =>
    rest_proj_apply K r 1
  have hc2 : ∀ r : Fin 3, (K * getMat34 (1 : Mat4 F)) r 2 = K r 2 := fun r =>
    rest_proj_apply K r 2
  have e0 := congrFun hv 0
  have e1 := congrFun hv 1
  have e2 := congrFun hv 2
  have e3 := congrFun hv 3
  simp +decide [triangulationMatrix, Matrix.mulVec, Matrix.dotProduct, Fin.sum_univ_four,
    rest_proj_col, hc0, hc1, hc2] at e0 e1 e2 e3
  have hy2a : (K 2 0 * v 0 + K 2 1 * v 1 + K 2 2 * v 2) * (p1.u - p2.u) = 0 := by
    linear_combination e0 - e2
  have hy2b : (K 2 0 * v 0 + K 2 1 * v 1 + K 2 2 * v 2) * (p1.v - p2.v) = 0 := by
    linear_combination e1 - e3
  have hy2 : K 2 0 * v 0 + K 2 1 * v 1 + K 2 2 * v 2 = 0 := by
    rcases hpix with h | h
    · exact (mul_eq_zero.mp hy2a).resolve_right (sub_ne_zero.mpr h)
    · exact (mul_eq_zero.mp hy2b).resolve_right (sub_ne_zero.mpr h)
  have hy0 : K 0 0 * v 0 + K 0 1 * v 1 + K 0 2 * v 2 = 0 := by
    linear_combination p1.u * hy2 - e0
  have hy1 : K 1 0 * v 0 + K 1 1 * v 1 + K 1 2 * v 2 = 0 := by
    linear_combination p1.v * hy2 - e1
  have hz : K.mulVec ![v 0, v 1, v 2] = 0 := by
    funext r
    fin_cases r <;>
      simp [Matrix.mulVec, Matrix.dotProduct, Fin.sum_univ_three, hy0, hy1, hy2]
  have h0 := Matrix.eq_zero_of_mulVec_eq_zero hK hz
  refine ⟨?_, ?_, ?_⟩
  · simpa using congrFun h0 0
  · simpa using congrFun h0 1
  · simpa using congrFun h0 2

theorem updatePoint_rest (lib : Lib F) (K : Mat3 F) (popped : Nat) (m : p_match F) :
    updatePoint lib (scenarioWindow lib K) popped (scenarioTrack m popped (some (popped + 1)))
      ⟨0, 0, 0⟩ 1 (1 / 10 ^ 5) = some (result.FAILED, ⟨0, 0, 0⟩) := by
  have hd : deref (scenarioWindow lib K) popped (scenarioTrack m popped (some (popped + 1))).first_frame
      = some (ageFrame lib K 1 { newFrame K with track_count := 1 }) := by
    simp [deref, scenarioWindow, scenarioTrack]
  have hbad : ∃ f ∈ (List.drop ((scenarioWindow lib K).length - 1 -
        (ageFrame lib K 1 { newFrame K with track_count := 1 }).frames_ago)
        (scenarioWindow lib K)).take (scenarioTrack m popped (some (popped + 1))).pixels.length,
      depthSq f.proj (⟨0, 0, 0⟩ : Point3d F) < 1 / 10 ^ 10 := by
    refine ⟨{ newFrame K with track_count := 1 }, ?_, ?_⟩
    · simp [scenarioWindow, scenarioTrack, ageFrame, newFrame]
    · simp [depthSq, rowTerm, newFrame, rest_proj_col]
  unfold updatePoint
  simp only [hd]
  rw [if_neg (by simp [scenarioWindow, ageFrame, newFrame]),
    computePredictionsAndJacobian_fail _ _ _ _
      (by simp [scenarioWindow, scenarioTrack, ageFrame, newFrame]) hbad]

theorem reconstruct_rest (lib : Lib F) (K : Mat3 F) (Tr_cam_road : Mat4 F) (popped : Nat)
    (point_type : Int) (max_dist min_angle : F) (m : p_match F)
    (hinv : lib.inv 1 = 1) (hK : K.det ≠ 0) (hpix : m.u1p ≠ m.u1c ∨ m.v1p ≠ m.v1c)
    (hsvd : (triangulationMatrix (K * getMat34 1) (K * getMat34 1) ⟨m.u1p, m.v1p⟩
        ⟨m.u1c, m.v1c⟩).mulVec
      (fun i => lib.svdV (triangulationMatrix (K * getMat34 1) (K * getMat34 1) ⟨m.u1p, m.v1p⟩
        ⟨m.u1c, m.v1c⟩) i 3) = 0) :
    reconstruct lib Tr_cam_road (scenarioWindow lib K) popped point_type max_dist min_angle
      (scenarioTrack m popped (some (popped + 1))) = some none := by
  obtain ⟨h0, h1, h2⟩ := rest_kernel_only K ⟨m.u1p, m.v1p⟩ ⟨m.u1c, m.v1c⟩ _ hK hpix hsvd
  have hi : initPoint lib (scenarioWindow lib K) popped
      (scenarioTrack m popped (some (popped + 1))) =
      some (initPointCore lib (K * getMat34 1) (K * getMat34 1) ⟨m.u1p, m.v1p⟩
        ⟨m.u1c, m.v1c⟩) := by
    simp [initPoint, deref, scenarioWindow, scenarioTrack, ageFrame, newFrame, hinv]
  have hty : ∃ ty, pointType Tr_cam_road (scenarioWindow lib K) popped
      (scenarioTrack m popped (some (popped + 1))) ⟨0, 0, 0⟩ = some ty := by
    simp [pointType, deref, scenarioWindow, scenarioTrack]
  obtain ⟨ty, hty⟩ := hty
  have hr : refinePoint lib (scenarioWindow lib K) popped
      (scenarioTrack m popped (some (popped + 1))) ⟨0, 0, 0⟩ = some (false, ⟨0, 0, 0⟩, 1) := by
    unfold refinePoint
    rw [refineLoop_succ, updatePoint_rest lib K popped m]
    simp
  unfold reconstruct
  rw [hi]
  unfold initPointCore
  simp only [h0, h1, h2, zero_div]
  by_cases hw : |lib.svdV (triangulationMatrix (K * getMat34 1) (K * getMat34 1)
      ⟨m.u1p, m.v1p⟩ ⟨m.u1c, m.v1c⟩) 3 3| < 1 / 10 ^ 10
  · rw [if_pos hw]
  · rw [if_neg hw]
    simp only [hty, hr]
    split <;> rfl

/-- C10 (amended). From the empty state, with `max_track_length >= 2`,
`min_track_length = 2` and identity motion, feed two cycles with the same
single match `m` whose predecessor id differs from its successor id (both
non-negative) and whose two pixels differ, then a cycle with a match `m3` of
the same predecessor id.  The first cycle finalizes nothing; the second
finalizes the track started in the first, the third the track started in the
second: two tracks over the three cycles, each with the two observations of
`m`, each handed to reconstruction.  When `K` is invertible, `Matrix::inv`
returns the identity on the identity and the last column of the factor `V` of
`svd` is a null vector of the triangulation matrix, both candidates are
rejected for every threshold (the two frames of a track have the same
projection matrix, the triangulated point is the camera centre and the first
refinement step fails), so the store stays empty. -/
theorem C10_scenario (lib : Lib F) (K : Mat3 F) (Tr_cam_road : Mat4 F) (max_track_length : Nat)
    (m m3 : p_match F) (point_type : Int) (max_dist min_angle : F)
    (s1 s2 s3 : Reconstruction F) (l1 l2 l3 : List (track F))
    (hcap : 2 ≤ max_track_length) (ha : 0 ≤ m.i1p) (hb : 0 ≤ m.i1c) (hab : m.i1p ≠ m.i1c)
    (hp : m3.i1p = m.i1p)
    (hinv : lib.inv 1 = 1) (hK : K.det ≠ 0) (hpix : m.u1p ≠ m.u1c ∨ m.v1p ≠ m.v1c)
    (hsvd : (triangulationMatrix (K * getMat34 1) (K * getMat34 1) ⟨m.u1p, m.v1p⟩
        ⟨m.u1c, m.v1c⟩).mulVec
      (fun i => lib.svdV (triangulationMatrix (K * getMat34 1) (K * getMat34 1) ⟨m.u1p, m.v1p⟩
        ⟨m.u1c, m.v1c⟩) i 3) = 0)
    (h1 : updateLog lib max_track_length (emptyState K Tr_cam_road) [m] 1 point_type 2 max_dist
      min_angle = some (s1, l1))
    (h2 : updateLog lib max_track_length s1 [m] 1 point_type 2 max_dist min_angle =
      some (s2, l2))
    (h3 : updateLog lib max_track_length s2 [m3] 1 point_type 2 max_dist min_angle =
      some (s3, l3)) :
    l1 = [] ∧ l2 = [scenarioTrack m 0 (some 1)] ∧ l3 = [scenarioTrack m 1 (some 2)] ∧
      (l1 ++ l2 ++ l3).length = 2 ∧
      (∀ t ∈ l1 ++ l2 ++ l3, t.pixels = [⟨m.u1p, m.v1p⟩, ⟨m.u1c, m.v1c⟩] ∧
        (2 : Int) ≤ (t.pixels.length : Int)) ∧
      reconstruct lib Tr_cam_road (scenarioWindow lib K) 0 point_type max_dist min_angle
        (scenarioTrack m 0 (some 1)) = some none ∧
      reconstruct lib Tr_cam_road (scenarioWindow lib K) 1 point_type max_dist min_angle
        (scenarioTrack m 1 (some 2)) = some none ∧
      s1.points = [] ∧ s2.points = [] ∧ s3.points = [] := by
  have hr0 := reconstruct_rest lib K Tr_cam_road 0 point_type max_dist min_angle m hinv hK hpix
    hsvd
  have hr1 := reconstruct_rest lib K Tr_cam_road 1 point_type max_dist min_angle m hinv hK hpix
    hsvd
  rw [scenario_cycle1 lib K Tr_cam_road max_track_length m point_type 2 max_dist min_angle hcap
    ha] at h1
  simp only [Option.some.injEq, Prod.mk.injEq] at h1
  obtain ⟨rfl, rfl⟩ := h1
  rw [scenario_cycle2 lib K Tr_cam_road max_track_length m point_type max_dist min_angle hcap
    ha hb hab, hr0] at h2
  simp only [Option.map_some', Option.some.injEq, Prod.mk.injEq] at h2
  obtain ⟨rfl, rfl⟩ := h2
  rw [scenario_cycle3 lib K Tr_cam_road max_track_length m m3 point_type max_dist min_angle none
    hcap ha hb hab hp, hr1] at h3
  simp only [Option.map_some', Option.some.injEq, Prod.mk.injEq] at h3
  obtain ⟨rfl, rfl⟩ := h3
  refine ⟨rfl, rfl, rfl, rfl, ?_, hr0, hr1, rfl, rfl, rfl⟩
  intro t ht
  simp only [List.nil_append, List.singleton_append, List.mem_cons, List.mem_singleton,
    List.not_mem_nil, or_false] at ht
  rcases ht with rfl | rfl <;> exact ⟨rfl, by simp [scenarioTrack]⟩

theorem restLib_inv_one : restLib.inv 1 = 1 := by
  show (1 : Mat4 ℝ)⁻¹ = 1
  exact inv_one

theorem cycle2_rest :
    updateLog restLib 10 (scenarioState1 1 1 matchLeft) [matchLeft] 1 (-1) 2 100 0 =
      some (scenarioState2 restLib 1 1 matchLeft none, [scenarioTrack matchLeft 0 (some 1)]) := by
  rw [scenario_cycle2 restLib 1 1 10 matchLeft (-1) 100 0 (by decide) (by decide) (by decide)
      (by decide),
    reconstruct_rest restLib 1 1 0 (-1) 100 0 matchLeft restLib_inv_one (by simp)
      (Or.inl (by norm_num [matchLeft])) (rest_kernel 1 _ _)]
  rfl

theorem cycle3_rest :
    updateLog restLib 10 (scenarioState2 restLib 1 1 matchLeft none) [matchLeft3] 1 (-1) 2 100 0 =
      some (scenarioState3 restLib 1 1 matchLeft3 none none,
        [scenarioTrack matchLeft 1 (some 2)]) := by
  rw [scenario_cycle3 restLib 1 1 10 matchLeft matchLeft3 (-1) 100 0 none (by decide) (by decide)
      (by decide) (by decide) rfl,
    reconstruct_rest restLib 1 1 1 (-1) 100 0 matchLeft restLib_inv_one (by simp)
      (Or.inl (by norm_num [matchLeft])) (rest_kernel 1 _ _)]
  rfl

/-- C10 (amended) over the reals, with `K = I`, the matches `matchLeft`
(feature 0 to feature 1), fed twice, and `matchLeft3` (feature 0 to feature 2):
two tracks are finalized and the store stays empty. -/
theorem C10_scenario_witness :
    ([] : List (track ℝ)) = [] ∧
      [scenarioTrack matchLeft 0 (some 1)] = [scenarioTrack matchLeft 0 (some 1)] ∧
      [scenarioTrack matchLeft 1 (some 2)] = [scenarioTrack matchLeft 1 (some 2)] ∧
      (([] : List (track ℝ)) ++ [scenarioTrack matchLeft 0 (some 1)] ++
        [scenarioTrack matchLeft 1 (some 2)]).length = 2 ∧
      (∀ t ∈ ([] : List (track ℝ)) ++ [scenarioTrack matchLeft 0 (some 1)] ++
          [scenarioTrack matchLeft 1 (some 2)],
        t.pixels = [⟨matchLeft.u1p, matchLeft.v1p⟩, ⟨matchLeft.u1c, matchLeft.v1c⟩] ∧
          (2 : Int) ≤ (t.pixels.length : Int)) ∧
      reconstruct restLib 1 (scenarioWindow restLib 1) 0 (-1) 100 0
        (scenarioTrack matchLeft 0 (some 1)) = some none ∧
      reconstruct restLib 1 (scenarioWindow restLib 1) 1 (-1) 100 0
        (scenarioTrack matchLeft 1 (some 2)) = some none ∧
      (scenarioState1 1 1 matchLeft).points = [] ∧
      (scenarioState2 restLib 1 1 matchLeft none).points = [] ∧
      (scenarioState3 restLib 1 1 matchLeft3 none none).points = [] :=
  C10_scenario restLib 1 1 10 matchLeft matchLeft3 (-1) 100 0 (scenarioState1 1 1 matchLeft)
    (scenarioState2 restLib 1 1 matchLeft none)
    (scenarioState3 restLib 1 1 matchLeft3 none none) []
    [scenarioTrack matchLeft 0 (some 1)] [scenarioTrack matchLeft 1 (some 2)]
    (by decide) (by decide) (by decide) (by decide) rfl restLib_inv_one (by simp)
    (Or.inl (by norm_num [matchLeft])) (rest_kernel 1 _ _)
    (scenario_cycle1 restLib 1 1 10 matchLeft (-1) 2 100 0 (by decide) (by decide))
    cycle2_rest cycle3_rest

/-- C10 fails as stated: over the reals, with `K = I`, the true matrix inverse
and an `svd` that returns the null vector `(0, 0, 0, 1)` of the triangulation
matrix, the match `matchLeft` (feature 0 to feature 1) fed twice and then
`matchLeft3` (feature 0 to feature 2), `max_track_length = 10` and
`min_track_length = 2`: the second cycle finalizes one track of two
observations and the third cycle another one, so two tracks are handed to
reconstruction, and both candidates are rejected: the store is empty. -/
theorem C10_counterexample :
    updateLog restLib 10 (emptyState 1 1) [matchLeft] 1 (-1) 2 100 0 =
        some (scenarioState1 1 1 matchLeft, []) ∧
      updateLog restLib 10 (scenarioState1 1 1 matchLeft) [matchLeft] 1 (-1) 2 100 0 =
        some (scenarioState2 restLib 1 1 matchLeft none,
          [scenarioTrack matchLeft 0 (some 1)]) ∧
      updateLog restLib 10 (scenarioState2 restLib 1 1 matchLeft none) [matchLeft3] 1 (-1) 2
          100 0 =
        some (scenarioState3 restLib 1 1 matchLeft3 none none,
          [scenarioTrack matchLeft 1 (some 2)]) ∧
      (scenarioTrack matchLeft 0 (some 1)).pixels.length = 2 ∧
      (scenarioTrack matchLeft 1 (some 2)).pixels.length = 2 ∧
      (scenarioState3 restLib 1 1 matchLeft3 none none).points = [] ∧
      restLib.inv 1 = 1 ∧
      (triangulationMatrix ((1 : Mat3 ℝ) * getMat34 1) ((1 : Mat3 ℝ) * getMat34 1)
          ⟨matchLeft.u1p, matchLeft.v1p⟩ ⟨matchLeft.u1c, matchLeft.v1c⟩).mulVec
        (fun i => restLib.svdV (triangulationMatrix ((1 : Mat3 ℝ) * getMat34 1)
          ((1 : Mat3 ℝ) * getMat34 1) ⟨matchLeft.u1p, matchLeft.v1p⟩
          ⟨matchLeft.u1c, matchLeft.v1c⟩) i 3) = 0 :=
  ⟨scenario_cycle1 restLib 1 1 10 matchLeft (-1) 2 100 0 (by decide) (by decide), cycle2_rest,
    cycle3_rest, rfl, rfl, rfl, restLib_inv_one, rest_kernel 1 _ _⟩

/-! ## C5: iteration cap of the refinement -/

theorem shiftX_inv : (shiftX (-1 : ℝ))⁻¹ = shiftX 1 := by
  have h := shiftX_left_inverse
  rw [Matrix.mul_one] at h
  exact Matrix.inv_eq_left_inv h

theorem age_rest (c : Int) :
    ageFrame realLib 1 1 { newFrame 1 with track_count := c } =
      { newFrame 1 with frames_ago := 1, track_count := c } := by
  simp [ageFrame, newFrame, realLib]

theorem age_move1 :
    ageFrame realLib 1 (shiftX (-1)) { newFrame 1 with frames_ago := 1, track_count := 1 } =
      { frameLeft with frames_ago := 2 } := by
  simp [ageFrame, newFrame, realLib, frameLeft, shiftX_inv]

theorem age_move0 :
    ageFrame realLib 1 (shiftX (-1)) (newFrame 1) = { frameLeft with track_count := 0 } := by
  simp [ageFrame, newFrame, realLib, frameLeft, shiftX_inv]

theorem drift_cycle1 (point_type min_track_length : Int) (max_dist min_angle : ℝ) :
    updateLog realLib 10 (emptyState 1 1) [driftMatch1] 1 point_type min_track_length max_dist
      min_angle = some (driftState1, []) := rfl

theorem drift_cycle2 (point_type min_track_length : Int) (max_dist min_angle : ℝ) :
    updateLog realLib 10 driftState1 [driftMatch2] 1 point_type min_track_length max_dist
      min_angle = some (driftState2, []) := by
  have hp : prepare realLib 10 driftState1 [driftMatch2] 1 =
      some ([{ driftTrack none with refreshed := true }],
        [ageFrame realLib 1 1 { newFrame 1 with track_count := 1 }, newFrame 1], 0, []) := rfl
  unfold updateLog
  rw [hp, age_rest]
  rfl

theorem refineLoop_doubles (step : Point3d F → Option (result × Point3d F))
    (hstep : ∀ z : F, 1 ≤ z → step ⟨0, 0, z⟩ = some (result.UPDATED, ⟨0, 0, 2 * z⟩))
    (fuel iter : Nat) (z : F) (hz : 1 ≤ z) (hf : fuel + iter = 22) (h0 : 0 < fuel) :
    refineLoop step fuel iter ⟨0, 0, z⟩ = some (result.UPDATED, ⟨0, 0, 2 ^ fuel * z⟩, 22) := by
  induction fuel generalizing iter z with
  | zero => omega
  | succ fuel ih =>
    rw [refineLoop_succ, hstep z hz]
    simp only
    by_cases hc : iter > 20
    · have hfu : fuel = 0 := by omega
      subst hfu
      rw [if_pos (Or.inl hc)]
      have : iter + 1 = 22 := by omega
      simp [this]
    · rw [if_neg (by simp [hc]), if_pos trivial, ih (iter + 1) (2 * z) (by linarith) (by omega)
        (by omega)]
      simp only [Option.some.injEq, Prod.mk.injEq, Point3d.mk.injEq, true_and, and_true]
      ring

theorem deref_drift_first :
    deref framesDrift 0 (driftTrack (some 2)).first_frame =
      some { frameLeft with frames_ago := 2 } := rfl

theorem deref_drift_last : deref framesDrift 0 2 = some (newFrame 1) := rfl

theorem initPoint_drift :
    initPoint realLib framesDrift 0 (driftTrack (some 2)) = some (some pointReal) := by
  unfold initPoint
  rw [deref_drift_first]
  simp only [driftTrack, deref_drift_last, List.head?_cons, List.getLast?_cons_cons,
    List.getLast?_singleton]
  simp [initPointCore, realLib, svdSide, pointReal, Matrix.vecHead, Matrix.vecTail]
  norm_num [abs_of_pos]

theorem pointType_drift :
    pointType 1 framesDrift 0 (driftTrack (some 2)) pointReal = some 1 := by
  unfold pointType
  rw [deref_drift_first]
  simp only [driftTrack, deref_drift_last]
  simp +decide [affineTransform, frameLeft, newFrame, shiftX, pointReal, pointTypeCore,
    Matrix.one_apply]
  norm_num

theorem slice_drift :
    List.take (driftTrack (some 2)).pixels.length
      (List.drop (framesDrift.length - 1 - 2) framesDrift) = framesDrift := rfl

theorem predict_drift (z : ℝ) (hz : 1 ≤ z) :
    computePredictionsAndJacobian framesDrift ⟨0, 0, z⟩ 0 3 =
      some (some ([1 / z, 0, -1 / (z * z), 0, 1 / z, 0, 1 / z, 0, -1 / (z * z), 0, 1 / z, 0,
          1 / z, 0, 0, 0, 1 / z, 0],
        [1 / z, 0, 1 / z, 0, 0, 0])) := by
  have hz0 : z ≠ 0 := by positivity
  have hz2 : ¬ (z * z < (10 ^ 10)⁻¹) := by
    have : ((10 : ℝ) ^ 10)⁻¹ < 1 := by norm_num
    nlinarith
  simp +decide [framesDrift, frameLeft, newFrame, computePredictionsAndJacobian, predictFrame,
    getMat34_one_apply, getMat34, shiftX, Matrix.one_apply, hz2]

theorem normalA_drift (z : ℝ) (hz : 1 ≤ z) :
    normalA [1 / z, 0, -1 / (z * z), 0, 1 / z, 0, 1 / z, 0, -1 / (z * z), 0, 1 / z, 0,
        1 / z, 0, 0, 0, 1 / z, 0] 3 =
      !![3 / (z * z), 0, -2 / (z * z * z); 0, 3 / (z * z), 0;
        -2 / (z * z * z), 0, 2 / (z * z * z * z)] := by
  have hz0 : z ≠ 0 := by positivity
  ext i j
  fin_cases i <;> fin_cases j <;>
    simp [normalA, List.range_succ, Matrix.vecHead, Matrix.vecTail, hz0] <;>
    first
      | done
      | (field_simp; done)
      | (field_simp; ring1)

theorem normalB_drift (z : ℝ) (hz : 1 ≤ z) :
    normalB [1 / z, 0, -1 / (z * z), 0, 1 / z, 0, 1 / z, 0, -1 / (z * z), 0, 1 / z, 0,
        1 / z, 0, 0, 0, 1 / z, 0]
        (computeObservations [⟨3 / 4, 0⟩, ⟨-(3 / 4), 0⟩, ⟨0, 0⟩]) [1 / z, 0, 1 / z, 0, 0, 0] 3 =
      (!![3 / (z * z), 0, -2 / (z * z * z); 0, 3 / (z * z), 0;
        -2 / (z * z * z), 0, 2 / (z * z * z * z)] : Mat3 ℝ).mulVec ![0, 0, z] := by
  have hz0 : z ≠ 0 := by positivity
  funext i
  fin_cases i <;>
    simp [normalB, computeObservations, List.range_succ, Matrix.mulVec, Matrix.dotProduct,
      Fin.sum_univ_three, Matrix.vecHead, Matrix.vecTail, hz0] <;>
    first
      | done
      | (field_simp; done)
      | (field_simp; ring1)

theorem det_drift (z : ℝ) (hz : 1 ≤ z) :
    (!![3 / (z * z), 0, -2 / (z * z * z); 0, 3 / (z * z), 0;
        -2 / (z * z * z), 0, 2 / (z * z * z * z)] : Mat3 ℝ).det ≠ 0 := by
  have hz0 : z ≠ 0 := by positivity
  rw [Matrix.det_fin_three]
  simp [Matrix.vecHead, Matrix.vecTail]
  field_simp
  ring_nf
  positivity

theorem updatePoint_drift (z : ℝ) (hz : 1 ≤ z) :
    updatePoint realLib framesDrift 0 (driftTrack (some 2)) ⟨0, 0, z⟩ 1 (1 / 10 ^ 5) =
      some (result.UPDATED, ⟨0, 0, 2 * z⟩) := by
  have hsolve : realLib.solve
      (normalA [1 / z, 0, -1 / (z * z), 0, 1 / z, 0, 1 / z, 0, -1 / (z * z), 0, 1 / z, 0,
        1 / z, 0, 0, 0, 1 / z, 0] 3)
      (normalB [1 / z, 0, -1 / (z * z), 0, 1 / z, 0, 1 / z, 0, -1 / (z * z), 0, 1 / z, 0,
          1 / z, 0, 0, 0, 1 / z, 0]
        (computeObservations [⟨3 / 4, 0⟩, ⟨-(3 / 4), 0⟩, ⟨0, 0⟩]) [1 / z, 0, 1 / z, 0, 0, 0] 3) =
      some ![0, 0, z] := by
    rw [normalA_drift z hz, normalB_drift z hz]
    exact exactSolve_eq _ _ (det_drift z hz)
  have heps : ¬ (|z| < 1 / 10 ^ 5) := by
    rw [abs_of_pos (by linarith)]
    have : (1 : ℝ) / 10 ^ 5 < 1 := by norm_num
    linarith
  rw [updatePoint_of_solve realLib framesDrift 0 (driftTrack (some 2)) ⟨0, 0, z⟩ 1 (1 / 10 ^ 5)
    { frameLeft with frames_ago := 2 } _ _ deref_drift_first (by decide) (predict_drift z hz)]
  have hpx : (driftTrack (some 2)).pixels = [⟨3 / 4, 0⟩, ⟨-(3 / 4), 0⟩, ⟨0, 0⟩] := rfl
  have hlen : (driftTrack (some 2)).pixels.length = 3 := rfl
  rw [hlen, hpx, hsolve]
  simp only [Matrix.cons_val_zero, Matrix.cons_val_one, Matrix.head_cons, Matrix.cons_val_two,
    Matrix.tail_cons, heps, and_false, if_false, stepPoint, Option.some.injEq, Prod.mk.injEq,
    Point3d.mk.injEq, true_and]
  refine ⟨by ring, by ring, by ring⟩

theorem refinePoint_drift :
    refinePoint realLib framesDrift 0 (driftTrack (some 2)) pointReal =
      some (false, ⟨0, 0, 2 ^ 22 * (4 / 3)⟩, 22) := by
  unfold refinePoint
  rw [show pointReal = (⟨0, 0, 4 / 3⟩ : Point3d ℝ) from rfl,
    refineLoop_doubles _ (fun z hz => updatePoint_drift z hz) 22 0 (4 / 3) (by norm_num) rfl
      (by norm_num)]
  simp

theorem reconstruct_drift (max_dist min_angle : ℝ) :
    reconstruct realLib 1 framesDrift 0 1 max_dist min_angle (driftTrack (some 2)) =
      some none := by
  unfold reconstruct
  rw [initPoint_drift]
  simp only [pointType_drift, ge_iff_le, le_refl, if_true, refinePoint_drift]

theorem drift_cycle3 (max_dist min_angle : ℝ) :
    updateLog realLib 10 driftState2 [] (shiftX (-1)) 1 3 max_dist min_angle =
      some (driftState3, [driftTrack (some 2)]) := by
  have hp : prepare realLib 10 driftState2 [] (shiftX (-1)) =
      some ([driftTrack none],
        [ageFrame realLib 1 (shiftX (-1)) { newFrame 1 with frames_ago := 1, track_count := 1 },
          ageFrame realLib 1 (shiftX (-1)) (newFrame 1), newFrame 1], 0, []) := rfl
  have hfin : finalize realLib 1 framesDrift 0 1 3 max_dist min_angle (driftTrack none) =
      (driftTrack (some 2), some none) := by
    have hb : backAddr framesDrift 0 = 2 := rfl
    have ht : ({ driftTrack none with last_frame := some 2 } : track ℝ) = driftTrack (some 2) :=
      rfl
    simp [finalize, hb, ht, reconstruct_drift]
  have hadd : addCount framesDrift 0 (driftTrack (some 2)).first_frame (-1) =
      some driftState3.frames := by
    simp [addCount, framesDrift, driftState3, driftTrack, frameLeft]
  unfold updateLog
  rw [hp, age_move1, age_move0]
  simp only
  rw [show ([{ frameLeft with frames_ago := 2 }, { frameLeft with track_count := 0 },
    newFrame 1] : List (frame_state_t ℝ)) = framesDrift from rfl,
    show driftState2.Tr_cam_road = 1 from rfl]
  unfold sweep
  rw [if_neg (by simp [driftTrack]), hfin]
  simp only
  rw [hadd]
  simp [sweep, driftState3, driftState2, driftState1]

theorem drift_prepare :
    prepare realLib 10 driftState2 [] (shiftX (-1)) =
      some ([driftTrack none], framesDrift, 0, []) := by
  have hp : prepare realLib 10 driftState2 [] (shiftX (-1)) =
      some ([driftTrack none],
        [ageFrame realLib 1 (shiftX (-1)) { newFrame 1 with frames_ago := 1, track_count := 1 },
          ageFrame realLib 1 (shiftX (-1)) (newFrame 1), newFrame 1], 0, []) := rfl
  rw [hp, age_move1, age_move0]
  rfl

/-- C5 (failing input). Three calls of `update` from the empty state with
`K = I`, over the reals with the true matrix inverse and the exact linear
solver: a first cycle with the match `driftMatch1`, a second with `driftMatch2`
(which continues the track) and identity motion, a third without matches after
a sideways motion of one unit.  The third cycle finalizes the track of three
observations `(3/4, 0)`, `(-3/4, 0)`, `(0, 0)`; it passes the length test;
`initPoint` triangulates `(0, 0, 4/3)` from its first and last observation (the
column read from `svd` is the unit null vector of the triangulation matrix);
`pointType` is 1; every Gauss-Newton step then doubles the depth, so
`updatePoint` returns `UPDATED` each time and `refinePoint` calls it 22 times
before it gives up, and no point is stored.  No run performs more than 22
calls: the test `iter++ > 20` first holds when 21 iterations are already
behind. -/
theorem C5_iteration_cap :
    updateLog realLib 10 (emptyState 1 1) [driftMatch1] 1 1 3 100 0 = some (driftState1, []) ∧
      updateLog realLib 10 driftState1 [driftMatch2] 1 1 3 100 0 = some (driftState2, []) ∧
      updateLog realLib 10 driftState2 [] (shiftX (-1)) 1 3 100 0 =
        some (driftState3, [driftTrack (some 2)]) ∧
      prepare realLib 10 driftState2 [] (shiftX (-1)) =
        some ([driftTrack none], framesDrift, 0, []) ∧
      (3 : Int) ≤ ((driftTrack (some 2)).pixels.length : Int) ∧
      ((triangulationMatrix frameLeft.proj (newFrame (1 : Mat3 ℝ)).proj ⟨3 / 4, 0⟩
            ⟨0, 0⟩).mulVec (fun i => svdSide i 3) = 0 ∧
        svdSide 0 3 ^ 2 + svdSide 1 3 ^ 2 + svdSide 2 3 ^ 2 + svdSide 3 3 ^ 2 = 1) ∧
      initPoint realLib framesDrift 0 (driftTrack (some 2)) = some (some ⟨0, 0, 4 / 3⟩) ∧
      pointType 1 framesDrift 0 (driftTrack (some 2)) ⟨0, 0, 4 / 3⟩ = some 1 ∧
      refinePoint realLib framesDrift 0 (driftTrack (some 2)) ⟨0, 0, 4 / 3⟩ =
        some (false, ⟨0, 0, 2 ^ 22 * (4 / 3)⟩, 22) ∧
      driftState3.points = [] ∧
      ∀ (lib : Lib ℝ) (frames : List (frame_state_t ℝ)) (popped : Nat) (t : track ℝ)
        (p q : Point3d ℝ) (b : Bool) (n : Nat),
        refinePoint lib frames popped t p = some (b, q, n) → n ≤ 22 :=
  ⟨drift_cycle1 1 3 100 0, drift_cycle2 1 3 100 0, drift_cycle3 100 0, drift_prepare,
    by decide, kernel_side, initPoint_drift, pointType_drift, refinePoint_drift, rfl,
    fun lib frames popped t p q b n h => refinePoint_calls_le lib frames popped t p q b n h⟩

end Viso
